import Mathlib

/-!
# Newton-Raphson state estimation solver: a shallow embedding

Embedding of `math_solver/newton_raphson_se_solver.hpp` (class
`NewtonRaphsonSESolver<sym>`) for the symmetric instantiation `sym = true`,
in which every tensor type of the source collapses to a scalar.
The transformer tap regulator of `component/regulator.hpp` and
`component/transformer_tap_regulator.hpp` is embedded in a section of its own.

Conventions of the embedding.

* `double` is an arbitrary linearly ordered field `R` with exact arithmetic;
  rounding, infinities and NaN are outside the model.  The definitions that
  embed the source are polymorphic in `R` and computable.
* `std::vector<T>` is a total map `Nat → T`; the meaningful indices are the
  ones below the vector's size (`n_bus_`, `nnz_lu`), and every statement
  about a buffer is quantified over those indices only.
* `Idx` is `Nat` where the source uses it as an index or a size, and `Int`
  where negative values occur (`map_lu_y_bus`, `max_iter`).
* A half-open loop `for (i = a; i != b; ++i)` is a left fold over
  `List.range' a (b - a)`, the indices `a, a + 1, ..., b - 1` (the source
  loop is defined for `a <= b` only).
* A method that mutates the solver object is a function from the old solver
  value to the new one; a `throw` is an `Except.error`.
* `std::exp(1.0i * theta)` and `cabs` are parameters `cexp` and `cabs` of the
  functions that call them; `real_cexp` and `real_cabs` are their exact
  real-number readings.
* Headers of the repository that the solver includes but that are not part
  of the embedded file (`y_bus.hpp`, `measured_values.hpp`,
  `sparse_lu_solver.hpp`, `timer.hpp`, ...) appear as structures with one
  field per member the solver uses; the sparse LU solver in particular is a
  parameter of the solver object.
* The `while` loop of `run_state_estimation` takes a bound `fuel` on the
  number of evaluations of its condition; `max_iter + 1` is enough when
  `max_iter >= 0`.
-/

namespace PowerGridModel

/-! ## Data model -/

/-- Symmetric `ComplexValue<true>` / `ComplexTensor<true>`: one complex number,
kept as real and imaginary part. -/
structure ComplexValue (R : Type) where
  re : R
  im : R
deriving DecidableEq

namespace ComplexValue

variable {R : Type}

/-- Complex zero (value-initialised `DoubleComplex`). -/
def zero [Zero R] : ComplexValue R := ⟨0, 0⟩

/-- Complex subtraction `a - b`. -/
def sub [Sub R] (a b : ComplexValue R) : ComplexValue R := ⟨a.re - b.re, a.im - b.im⟩

/-- Real times complex, `s * z`. -/
def smul [Mul R] (s : R) (z : ComplexValue R) : ComplexValue R := ⟨s * z.re, s * z.im⟩

end ComplexValue

/-- Block `NRSEUnknown<true>` (also `NRSERhs<true>`): four real slots.  As an
unknown the slots are `theta, v, phi_p, phi_q`; as a right-hand side the same
four slots are read as `eta_theta, eta_v, tau_p, tau_q`. -/
structure NRSEUnknown (R : Type) where
  theta : R
  v : R
  phi_p : R
  phi_q : R
deriving DecidableEq

namespace NRSEUnknown

variable {R : Type}

/-- Value-initialised block `NRSERhs<sym>{}`. -/
def zero [Zero R] : NRSEUnknown R := ⟨0, 0, 0, 0⟩

/-- Slot `(0, 0)` read as right-hand side. -/
def eta_theta (b : NRSEUnknown R) : R := b.theta

/-- Slot `(1, 0)` read as right-hand side. -/
def eta_v (b : NRSEUnknown R) : R := b.v

/-- Slot `(2, 0)` read as right-hand side. -/
def tau_p (b : NRSEUnknown R) : R := b.phi_p

/-- Slot `(3, 0)` read as right-hand side. -/
def tau_q (b : NRSEUnknown R) : R := b.phi_q

end NRSEUnknown

/-- Block `NRSEGainBlock<true>`: the 4x4 block `[[G, QT], [Q, R]]`, one field
per getter of the source; the position `(r, c)` of each getter is given in
`get_val`. -/
structure NRSEGainBlock (R : Type) where
  g_P_theta : R
  g_P_v : R
  g_Q_theta : R
  g_Q_v : R
  qt_P_theta : R
  qt_P_v : R
  qt_Q_theta : R
  qt_Q_v : R
  q_P_theta : R
  q_P_v : R
  q_Q_theta : R
  q_Q_v : R
  r_P_theta : R
  r_P_v : R
  r_Q_theta : R
  r_Q_v : R
deriving DecidableEq

namespace NRSEGainBlock

variable {R : Type}

/-- Value-initialised block `NRSEGainBlock<sym>{}`. -/
def zero [Zero R] : NRSEGainBlock R := ⟨0, 0, 0, 0, 0, 0, 0, 0, 0, 0, 0, 0, 0, 0, 0, 0⟩

/-- Entry `(r, c)` of the 4x4 block, following the `GetterType<r, c>` of each
getter of the source. -/
def get_val (b : NRSEGainBlock R) (r c : Fin 4) : R :=
  match r, c with
  | 0, 0 => b.g_P_theta
  | 0, 1 => b.g_P_v
  | 1, 0 => b.g_Q_theta
  | 1, 1 => b.g_Q_v
  | 0, 2 => b.qt_P_theta
  | 0, 3 => b.qt_P_v
  | 1, 2 => b.qt_Q_theta
  | 1, 3 => b.qt_Q_v
  | 2, 0 => b.q_P_theta
  | 2, 1 => b.q_P_v
  | 3, 0 => b.q_Q_theta
  | 3, 1 => b.q_Q_v
  | 2, 2 => b.r_P_theta
  | 2, 3 => b.r_P_v
  | 3, 2 => b.r_Q_theta
  | 3, 3 => b.r_Q_v

end NRSEGainBlock

/-- Local struct `NRSEJacobian` of the solver. -/
structure NRSEJacobian (R : Type) where
  dP_dt : R
  dP_dv : R
  dQ_dt : R
  dQ_dv : R
deriving DecidableEq

/-- Modelled from the spec: the element taxonomy of a Y-bus entry (the enum
`YBusElementType` is declared in `y_bus.hpp`); the spec lists the element types
`shunt, bff, bft, btf, btt`. -/
inductive YBusElementType where
  | bff
  | bft
  | btf
  | btt
  | shunt
deriving DecidableEq

/-- Modelled from the spec: an element descriptor `{object index, element type}`
of a Y-bus entry (`YBusElement` of `y_bus.hpp`). -/
structure YBusElement where
  idx : Nat
  element_type : YBusElementType
deriving DecidableEq

/-- Modelled from the spec: per-branch parameter `{yff, yft, ytf, ytt}`
(`BranchCalcParam<true>` of `calculation_parameters.hpp`). -/
structure BranchCalcParam (R : Type) where
  yff : ComplexValue R
  yft : ComplexValue R
  ytf : ComplexValue R
  ytt : ComplexValue R

/-- Modelled from the spec: the read-only Y-bus view (`YBus<true>` of
`y_bus.hpp`), one field per accessor called by the solver.  `branch_param` is
`math_model_param().branch_param`. -/
structure YBus (R : Type) where
  size : Nat
  nnz_lu : Nat
  row_indptr_lu : Nat → Nat
  col_indices_lu : Nat → Nat
  lu_diag : Nat → Nat
  map_lu_y_bus : Nat → Int
  lu_transpose_entry : Nat → Nat
  y_bus_entry_indptr : Nat → Nat
  y_bus_element : Nat → YBusElement
  admittance : Nat → ComplexValue R
  branch_param : Nat → BranchCalcParam R

/-- Modelled from the spec: a power measurement `{value, p_variance,
q_variance}` (`PowerSensorCalcParam<true>` of `calculation_parameters.hpp`). -/
structure PowerSensorCalcParam (R : Type) where
  value : ComplexValue R
  p_variance : R
  q_variance : R

/-- Modelled from the spec: the query interface of the measured values
(`MeasuredValues<true>` of `measured_values.hpp`), one field per accessor
called by the solver. -/
structure MeasuredValues (R : Type) where
  mean_angle_shift : R
  has_angle_measurement : Bool
  has_voltage : Nat → Bool
  voltage_var : Nat → R
  voltage : (Nat → ComplexValue R) → Nat → ComplexValue R
  has_bus_injection : Nat → Bool
  bus_injection : Nat → PowerSensorCalcParam R
  has_branch_from : Nat → Bool
  has_branch_to : Nat → Bool
  has_shunt : Nat → Bool
  branch_from_power : Nat → PowerSensorCalcParam R
  branch_to_power : Nat → PowerSensorCalcParam R
  shunt_power : Nat → PowerSensorCalcParam R

/-- Errors that leave `run_state_estimation`: `IterationDiverge` is thrown by
the solver itself and carries `(num_iter, max_dev, err_tol)`; `SingularMatrix`
is the failure signalled by the sparse LU solver, which the solver lets
through. -/
inductive SEError (R : Type) where
  | IterationDiverge (num_iter : Int) (max_dev : R) (err_tol : R)
  | SingularMatrix
deriving DecidableEq

/-- Modelled from the spec: the block sparse LU solver (`SparseLUSolver` of
`sparse_lu_solver.hpp`) with its two contracts.  `prefactorize` rewrites the
gain data and the permutation, `solve_with_prefactorized_matrix` maps a
right-hand side to the solution; `none` is a signalled failure
(`SingularMatrix`). -/
structure SparseLUSolver (R P : Type) where
  prefactorize : (Nat → NRSEGainBlock R) → P → Option ((Nat → NRSEGainBlock R) × P)
  solve_with_prefactorized_matrix : (Nat → NRSEGainBlock R) → P → (Nat → NRSEUnknown R) →
    Option (Nat → NRSEUnknown R)

/-- Data members of `NewtonRaphsonSESolver<true>`.  `phase_shift` is
`math_topo_->phase_shift`; `P` is the type of the permutation array. -/
structure NewtonRaphsonSESolver (R P : Type) where
  n_bus_ : Nat
  phase_shift : Nat → R
  data_gain_ : Nat → NRSEGainBlock R
  del_x_rhs_ : Nat → NRSEUnknown R
  x_ : Nat → NRSEUnknown R
  sparse_solver_ : SparseLUSolver R P
  perm_ : P

/-! ## Scalar kernels of the solver -/

section Kernels

variable {R : Type} [LinearOrderedField R]

/-- Source `diagonal_inverse`: the reciprocal `1.0 / value`. -/
def diagonal_inverse (value : R) : R := 1 / value

/-- Source `ui_uj_cos_ij`: `real(ui) real(uj) + imag(ui) imag(uj)`. -/
def ui_uj_cos_ij (ui uj : ComplexValue R) : R := ui.re * uj.re + ui.im * uj.im

/-- Source `ui_uj_sin_ij`: `imag(ui) real(uj) - real(ui) imag(uj)`. -/
def ui_uj_sin_ij (ui uj : ComplexValue R) : R := ui.im * uj.re - ui.re * uj.im

/-- Source `g_sin_minus_b_cos`. -/
def g_sin_minus_b_cos (yij ui uj : ComplexValue R) : R :=
  yij.re * ui_uj_sin_ij ui uj - yij.im * ui_uj_cos_ij ui uj

/-- Source `g_cos_plus_b_sin`. -/
def g_cos_plus_b_sin (yij ui uj : ComplexValue R) : R :=
  yij.re * ui_uj_cos_ij ui uj + yij.im * ui_uj_sin_ij ui uj

/-- Source `power_flow_jacobian`. -/
def power_flow_jacobian (gs_minus_bc gc_plus_bs abs_uj_inv : R) : NRSEJacobian R :=
  { dP_dt := gs_minus_bc
    dP_dv := -gc_plus_bs
    dQ_dt := gc_plus_bs * abs_uj_inv
    dQ_dv := gs_minus_bc * abs_uj_inv }

/-- Source `power_flow_jacobian_side_i_addition`: all four additions are
commented out in the source, the block is returned as received. -/
def power_flow_jacobian_side_i_addition (block_i : NRSEJacobian R)
    (_calculated_power_p _calculated_power_q _abs_ui_inv : R) : NRSEJacobian R :=
  block_i

/-- Source `multiply_add_jacobian_blocks`; the two reference parameters `block`
and `rhs_block` are returned as a pair. -/
def multiply_add_jacobian_blocks (block : NRSEGainBlock R) (rhs_block : NRSEUnknown R)
    (block_1 block_2 : NRSEJacobian R) (power_sensor : PowerSensorCalcParam R)
    (calculated_power_p calculated_power_q : R) : NRSEGainBlock R × NRSEUnknown R :=
  let w_p := diagonal_inverse power_sensor.p_variance
  let w_q := diagonal_inverse power_sensor.q_variance
  let del_power_p := calculated_power_p - power_sensor.value.re
  let del_power_q := calculated_power_q - power_sensor.value.im
  ({ block with
      g_P_theta := block.g_P_theta
        + (w_p * block_1.dP_dt * block_2.dP_dt + w_q * block_1.dQ_dt * block_2.dQ_dt)
      g_P_v := block.g_P_v
        + (w_p * block_1.dP_dv * block_2.dP_dv + w_q * block_1.dQ_dv * block_2.dQ_dv)
      g_Q_theta := block.g_Q_theta
        + (w_p * block_1.dP_dt * block_2.dP_dv + w_q * block_1.dQ_dt * block_2.dQ_dv)
      g_Q_v := block.g_Q_v
        + (w_p * block_1.dP_dv * block_2.dP_dt + w_q * block_1.dQ_dv * block_2.dQ_dt) },
   { rhs_block with
      theta := rhs_block.theta
        + (w_p * block_1.dP_dt * del_power_p + w_q * block_1.dQ_dt * del_power_q)
      v := rhs_block.v
        + (w_p * block_1.dP_dv * del_power_p + w_q * block_1.dQ_dv * del_power_q) })

/-- Source `add_single_jacobian` (every call of it is commented out in the
source). -/
def add_single_jacobian (block : NRSEGainBlock R) (jacobian_block : NRSEJacobian R)
    (multiplier : R) : NRSEGainBlock R :=
  { block with
    q_P_theta := block.q_P_theta + multiplier * jacobian_block.dP_dt
    q_P_v := block.q_P_v + multiplier * jacobian_block.dP_dv
    q_Q_theta := block.q_Q_theta + multiplier * jacobian_block.dQ_dt
    q_Q_v := block.q_Q_v + multiplier * jacobian_block.dQ_dv }

end Kernels

/-! ## Assembly of gain matrix and right-hand side -/

section Assembly

variable {R P : Type} [LinearOrderedField R]

/-- Arguments `(block_1, block_2, power_sensor, calculated_power_p,
calculated_power_q)` of one call of `multiply_add_jacobian_blocks`. -/
structure ElementContribution (R : Type) where
  block_1 : NRSEJacobian R
  block_2 : NRSEJacobian R
  power_sensor : PowerSensorCalcParam R
  calculated_power_p : R
  calculated_power_q : R

/-- The five-way branch on the element type inside the element loop of
`prepare_matrix_and_rhs`: for the element `element_idx` of the entry
`(row, col)` it yields the arguments of the call of
`multiply_add_jacobian_blocks` made by the branch taken, or `none` when the
`has_shunt` / `has_branch_from` / `has_branch_to` test of that branch fails.
`x_` is the member of the solver. -/
def element_contribution (y_bus : YBus R) (measured_value : MeasuredValues R)
    (current_u : Nat → ComplexValue R) (x_ : Nat → NRSEUnknown R) (row col element_idx : Nat) :
    Option (ElementContribution R) :=
  let ui := current_u row
  let abs_ui_inv := diagonal_inverse (x_ row).v
  let uj := current_u col
  let abs_uj_inv := diagonal_inverse (x_ col).v
  let obj := (y_bus.y_bus_element element_idx).idx
  match (y_bus.y_bus_element element_idx).element_type with
  | YBusElementType.shunt =>
    if measured_value.has_shunt obj then
      let yii := (y_bus.branch_param obj).yff
      let gc_plus_bs_ii := g_cos_plus_b_sin yii ui ui
      let gs_minus_bc_ii := g_sin_minus_b_cos yii ui ui
      let calculated_power_p := gc_plus_bs_ii
      let calculated_power_q := gs_minus_bc_ii
      let block_i := power_flow_jacobian gs_minus_bc_ii gc_plus_bs_ii abs_ui_inv
      let block_i := power_flow_jacobian_side_i_addition block_i calculated_power_p
        calculated_power_q abs_ui_inv
      some ⟨block_i, block_i, measured_value.branch_from_power obj, calculated_power_p,
        calculated_power_q⟩
    else none
  | YBusElementType.bff =>
    if measured_value.has_branch_from obj then
      let yii := (y_bus.branch_param obj).yff
      let gc_plus_bs_ii := g_cos_plus_b_sin yii ui ui
      let gs_minus_bc_ii := g_sin_minus_b_cos yii ui ui
      let yij := (y_bus.branch_param obj).yft
      let gc_plus_bs_ij := g_cos_plus_b_sin yij ui uj
      let gs_minus_bc_ij := g_sin_minus_b_cos yij ui uj
      let calculated_power_p := gc_plus_bs_ii + gc_plus_bs_ij
      let calculated_power_q := gs_minus_bc_ii + gs_minus_bc_ij
      let block_i := power_flow_jacobian gs_minus_bc_ii gc_plus_bs_ii abs_ui_inv
      let block_i := power_flow_jacobian_side_i_addition block_i calculated_power_p
        calculated_power_q abs_ui_inv
      some ⟨block_i, block_i, measured_value.branch_from_power obj, calculated_power_p,
        calculated_power_q⟩
    else none
  | YBusElementType.bft =>
    if measured_value.has_branch_from obj then
      let yii := (y_bus.branch_param obj).yff
      let gc_plus_bs_ii := g_cos_plus_b_sin yii ui ui
      let gs_minus_bc_ii := g_sin_minus_b_cos yii ui ui
      let yij := (y_bus.branch_param obj).yft
      let gc_plus_bs_ij := g_cos_plus_b_sin yij ui uj
      let gs_minus_bc_ij := g_sin_minus_b_cos yij ui uj
      let calculated_power_p := gc_plus_bs_ii + gc_plus_bs_ij
      let calculated_power_q := gs_minus_bc_ii + gs_minus_bc_ij
      let block_i := power_flow_jacobian gs_minus_bc_ij gc_plus_bs_ij abs_uj_inv
      let block_i := power_flow_jacobian_side_i_addition block_i calculated_power_p
        calculated_power_q abs_ui_inv
      let block_j := power_flow_jacobian gs_minus_bc_ij gc_plus_bs_ij abs_uj_inv
      some ⟨block_i, block_j, measured_value.branch_from_power obj, calculated_power_p,
        calculated_power_q⟩
    else none
  | YBusElementType.btt =>
    if measured_value.has_branch_to obj then
      let yii := (y_bus.branch_param obj).ytt
      let gc_plus_bs_ii := g_cos_plus_b_sin yii ui ui
      let gs_minus_bc_ii := g_sin_minus_b_cos yii ui ui
      let yij := (y_bus.branch_param obj).ytf
      let gc_plus_bs_ij := g_cos_plus_b_sin yij ui uj
      let gs_minus_bc_ij := g_sin_minus_b_cos yij ui uj
      let calculated_power_p := gc_plus_bs_ii + gc_plus_bs_ij
      let calculated_power_q := gs_minus_bc_ii + gs_minus_bc_ij
      let block_j := power_flow_jacobian gs_minus_bc_ii gc_plus_bs_ii abs_uj_inv
      some ⟨block_j, block_j, measured_value.branch_to_power obj, calculated_power_p,
        calculated_power_q⟩
    else none
  | YBusElementType.btf =>
    if measured_value.has_branch_to obj then
      let yii := (y_bus.branch_param obj).ytt
      let gc_plus_bs_ii := g_cos_plus_b_sin yii ui ui
      let gs_minus_bc_ii := g_sin_minus_b_cos yii ui ui
      let yij := (y_bus.branch_param obj).ytf
      let gc_plus_bs_ij := g_cos_plus_b_sin yij ui uj
      let gs_minus_bc_ij := g_sin_minus_b_cos yij ui uj
      let calculated_power_p := gc_plus_bs_ii + gc_plus_bs_ij
      let calculated_power_q := gs_minus_bc_ii + gs_minus_bc_ij
      let block_i := power_flow_jacobian gs_minus_bc_ij gc_plus_bs_ij abs_ui_inv
      let block_i := power_flow_jacobian_side_i_addition block_i calculated_power_p
        calculated_power_q abs_ui_inv
      let block_j := power_flow_jacobian gs_minus_bc_ij gc_plus_bs_ij abs_ui_inv
      some ⟨block_j, block_i, measured_value.branch_to_power obj, calculated_power_p,
        calculated_power_q⟩
    else none

/-- Body of the element loop of `prepare_matrix_and_rhs` for the LU entry
`data_idx_lu` at `(row, col)`: the branch taken for the element calls
`multiply_add_jacobian_blocks` on `block = data_gain_[data_idx_lu]` and
`rhs_block = del_x_rhs_[row]`. -/
def element_step (y_bus : YBus R) (measured_value : MeasuredValues R)
    (current_u : Nat → ComplexValue R) (row col data_idx_lu : Nat)
    (s : NewtonRaphsonSESolver R P) (element_idx : Nat) : NewtonRaphsonSESolver R P :=
  match element_contribution y_bus measured_value current_u s.x_ row col element_idx with
  | none => s
  | some c =>
    let res := multiply_add_jacobian_blocks (s.data_gain_ data_idx_lu) (s.del_x_rhs_ row)
      c.block_1 c.block_2 c.power_sensor c.calculated_power_p c.calculated_power_q
    { s with
      data_gain_ := Function.update s.data_gain_ data_idx_lu res.1
      del_x_rhs_ := Function.update s.del_x_rhs_ row res.2 }

/-- The element loop of the inner loop (source lines 221-322) for the LU entry
`data_idx_lu` at `(row, col)` with Y-bus index `data_idx`: it runs over the
elements `[y_bus_entry_indptr[data_idx], y_bus_entry_indptr[data_idx + 1])`. -/
def element_loop (y_bus : YBus R) (measured_value : MeasuredValues R)
    (current_u : Nat → ComplexValue R) (row col data_idx_lu data_idx : Nat)
    (s : NewtonRaphsonSESolver R P) : NewtonRaphsonSESolver R P :=
  (List.range' (y_bus.y_bus_entry_indptr data_idx)
      (y_bus.y_bus_entry_indptr (data_idx + 1) - y_bus.y_bus_entry_indptr data_idx)).foldl
    (element_step y_bus measured_value current_u row col data_idx_lu) s

/-- The assignment `data_gain_[k] = NRSEGainBlock<sym>{}` (source lines 198
and 325-326). -/
def clear_gain_block (s : NewtonRaphsonSESolver R P) (k : Nat) : NewtonRaphsonSESolver R P :=
  { s with data_gain_ := Function.update s.data_gain_ k NRSEGainBlock.zero }

/-- The voltage-measurement block of the inner loop (source lines 211-218),
executed when `row == col` and the bus has a voltage measurement: `w_v` is
added to `g_P_v` and `g_Q_v` of `data_gain_[data_idx_lu]`, and
`w_v * cabs(del_u)` to `eta_v` of `del_x_rhs_[row]`. -/
def voltage_step (cabs : ComplexValue R → R) (measured_value : MeasuredValues R)
    (current_u measured_u : Nat → ComplexValue R) (row data_idx_lu : Nat)
    (s : NewtonRaphsonSESolver R P) : NewtonRaphsonSESolver R P :=
  let w_v := 1 / measured_value.voltage_var row
  let del_u := (measured_u row).sub (current_u row)
  let block := s.data_gain_ data_idx_lu
  let rhs_block := s.del_x_rhs_ row
  { s with
    data_gain_ := Function.update s.data_gain_ data_idx_lu
      { block with g_P_v := block.g_P_v + w_v, g_Q_v := block.g_Q_v + w_v }
    del_x_rhs_ := Function.update s.del_x_rhs_ row
      { rhs_block with v := rhs_block.v + w_v * cabs del_u } }

/-- The injection-measurement block of the inner loop (source lines 328-371)
for the LU entry `data_idx_lu` at `(row, col)` with Y-bus index `data_idx`.
With an injection measurement at `row` it adds to `tau_p`, `tau_q` of
`del_x_rhs_[row]`; without one it sets `r_P_theta` and `r_Q_v` of
`data_gain_[data_idx_lu]` to `-1` on the diagonal. -/
def injection_step (y_bus : YBus R) (measured_value : MeasuredValues R)
    (current_u : Nat → ComplexValue R) (row col data_idx_lu data_idx : Nat)
    (s : NewtonRaphsonSESolver R P) : NewtonRaphsonSESolver R P :=
  if measured_value.has_bus_injection row = true then
    let yij := y_bus.admittance data_idx
    let rhs_block := s.del_x_rhs_ row
    if row = col then
      let injection := measured_value.bus_injection row
      { s with
        del_x_rhs_ := Function.update s.del_x_rhs_ row
          { rhs_block with
            phi_p := rhs_block.phi_p + injection.value.re
            phi_q := rhs_block.phi_q + injection.value.im } }
    else
      let ui := current_u row
      let uj := current_u col
      let gc_plus_bs := g_cos_plus_b_sin yij ui uj
      let gs_minus_bc := g_sin_minus_b_cos yij ui uj
      { s with
        del_x_rhs_ := Function.update s.del_x_rhs_ row
          { rhs_block with
            phi_p := rhs_block.phi_p + -gc_plus_bs
            phi_q := rhs_block.phi_q + -gs_minus_bc } }
  else
    if row = col then
      let block := s.data_gain_ data_idx_lu
      { s with
        data_gain_ := Function.update s.data_gain_ data_idx_lu
          { block with r_P_theta := -1, r_Q_v := -1 } }
    else s

/-- Body of the inner loop of `prepare_matrix_and_rhs` (source lines 190-372):
the work done for the LU entry `data_idx_lu` of row `row`.  `measured_u` is
`measured_value.voltage(current_u)`, computed once before the loops. -/
def entry_step (cabs : ComplexValue R → R) (y_bus : YBus R) (measured_value : MeasuredValues R)
    (current_u measured_u : Nat → ComplexValue R) (row : Nat)
    (s : NewtonRaphsonSESolver R P) (data_idx_lu : Nat) : NewtonRaphsonSESolver R P :=
  let col := y_bus.col_indices_lu data_idx_lu
  -- Initialize the block (off-diagonal only)
  let s := if row ≠ col then clear_gain_block s data_idx_lu else s
  -- skip for a fill-in
  let data_idx := y_bus.map_lu_y_bus data_idx_lu
  if data_idx = -1 then s
  else
    -- fill block with voltage measurement, only diagonal
    let s := if row = col ∧ measured_value.has_voltage row = true then
        voltage_step cabs measured_value current_u measured_u row data_idx_lu s
      else s
    -- fill block with branch, shunt measurement
    let s := element_loop y_bus measured_value current_u row col data_idx_lu data_idx.toNat s
    -- Initialize diagonal block
    let s := clear_gain_block s (y_bus.lu_diag row)
    -- fill block with injection measurement
    injection_step y_bus measured_value current_u row col data_idx_lu data_idx.toNat s

/-- Body of the outer loop of `prepare_matrix_and_rhs` (source lines 184-373):
clear `del_x_rhs_[row]`, then run the inner loop over the LU entries of the
row. -/
def row_step (cabs : ComplexValue R → R) (y_bus : YBus R) (measured_value : MeasuredValues R)
    (current_u measured_u : Nat → ComplexValue R)
    (s : NewtonRaphsonSESolver R P) (row : Nat) : NewtonRaphsonSESolver R P :=
  let s := { s with del_x_rhs_ := Function.update s.del_x_rhs_ row NRSEUnknown.zero }
  (List.range' (y_bus.row_indptr_lu row)
      (y_bus.row_indptr_lu (row + 1) - y_bus.row_indptr_lu row)).foldl
    (entry_step cabs y_bus measured_value current_u measured_u row) s

/-- Body of the transpose loop of `prepare_matrix_and_rhs` (source lines
377-387). -/
def transpose_step (y_bus : YBus R) (s : NewtonRaphsonSESolver R P) (data_idx_lu : Nat) :
    NewtonRaphsonSESolver R P :=
  if y_bus.map_lu_y_bus data_idx_lu = -1 then s
  else
    let data_idx_tranpose := y_bus.lu_transpose_entry data_idx_lu
    let block := s.data_gain_ data_idx_lu
    let other := s.data_gain_ data_idx_tranpose
    { s with
      data_gain_ := Function.update s.data_gain_ data_idx_lu
        { block with
          qt_P_theta := other.q_P_theta
          qt_P_v := other.q_Q_theta
          qt_Q_theta := other.q_P_v
          qt_Q_v := other.q_Q_v } }

/-- The row loop of `prepare_matrix_and_rhs` (source lines 184-373). -/
def assemble_rows (cabs : ComplexValue R → R) (y_bus : YBus R) (measured_value : MeasuredValues R)
    (current_u : Nat → ComplexValue R) (s : NewtonRaphsonSESolver R P) :
    NewtonRaphsonSESolver R P :=
  let measured_u := measured_value.voltage current_u
  (List.range s.n_bus_).foldl (row_step cabs y_bus measured_value current_u measured_u) s

/-- Everything `prepare_matrix_and_rhs` does before it calls `prefactorize`:
the row loop followed by the transpose loop.  This is the state of the
buffers "after assembly, before factorization". -/
def assemble_gain_and_rhs (cabs : ComplexValue R → R) (y_bus : YBus R)
    (measured_value : MeasuredValues R) (current_u : Nat → ComplexValue R)
    (s : NewtonRaphsonSESolver R P) : NewtonRaphsonSESolver R P :=
  (List.range y_bus.nnz_lu).foldl (transpose_step y_bus)
    (assemble_rows cabs y_bus measured_value current_u s)

/-- Source `prepare_matrix_and_rhs`: assembly, then
`sparse_solver_.prefactorize(data_gain_, perm_)`, which rewrites both in
place or throws.  When it throws, the solver object is returned with the
buffers as the assembly left them (what a failed factorisation has done to
`data_gain_` is not known). -/
def prepare_matrix_and_rhs (cabs : ComplexValue R → R) (y_bus : YBus R)
    (measured_value : MeasuredValues R) (current_u : Nat → ComplexValue R)
    (s : NewtonRaphsonSESolver R P) :
    Except (SEError R × NewtonRaphsonSESolver R P) (NewtonRaphsonSESolver R P) :=
  let s := assemble_gain_and_rhs cabs y_bus measured_value current_u s
  match s.sparse_solver_.prefactorize s.data_gain_ s.perm_ with
  | none => Except.error (SEError.SingularMatrix, s)
  | some res => Except.ok { s with data_gain_ := res.1, perm_ := res.2 }

/-- Two solver objects of the same size that agree on the magnitudes `x.v` of
every bus, on the gain blocks with index in `K` and on the right-hand-side
blocks with index in `Rw`.  Nothing is said about the other blocks of the
buffers nor about the other slots of `x_`. -/
def AgreeOn (K Rw : Nat → Prop) (s1 s2 : NewtonRaphsonSESolver R P) : Prop :=
  s1.n_bus_ = s2.n_bus_
    ∧ (∀ bus, bus < s1.n_bus_ → (s1.x_ bus).v = (s2.x_ bus).v)
    ∧ (∀ k, K k → s1.data_gain_ k = s2.data_gain_ k)
    ∧ (∀ r, Rw r → s1.del_x_rhs_ r = s2.del_x_rhs_ r)

/-- The members of the solver that the assembly neither reads for writing nor
writes: size, phase shifts, `x_`, the sparse solver and the permutation are
the same in `s` and `s1`. -/
def SameFrame (s s1 : NewtonRaphsonSESolver R P) : Prop :=
  s1.n_bus_ = s.n_bus_ ∧ s1.phase_shift = s.phase_shift ∧ s1.x_ = s.x_
    ∧ s1.sparse_solver_ = s.sparse_solver_ ∧ s1.perm_ = s.perm_

/-- The LU entry `k` belongs to row `row`: it lies in
`[row_indptr_lu[row], row_indptr_lu[row + 1])`. -/
def YBus.InRow (y_bus : YBus R) (row k : Nat) : Prop :=
  y_bus.row_indptr_lu row ≤ k ∧ k < y_bus.row_indptr_lu (row + 1)

/-- Shape conditions on the LU pattern of a Y-bus with `n` buses: the row
pointers run from `0` to `nnz_lu`, column indices are bus indices, the entry
of a row in the row's own column is the one `lu_diag` names and is not a
fill-in, and the transpose entry of an entry of the Y-bus is an LU entry. -/
structure YBus.DiagonalPresent (y_bus : YBus R) (n : Nat) : Prop where
  indptr_zero : y_bus.row_indptr_lu 0 = 0
  indptr_last : y_bus.row_indptr_lu n = y_bus.nnz_lu
  col_lt : ∀ row k, row < n → y_bus.InRow row k → y_bus.col_indices_lu k < n
  diag : ∀ row k, row < n → y_bus.InRow row k → y_bus.col_indices_lu k = row →
    y_bus.lu_diag row = k ∧ y_bus.map_lu_y_bus k ≠ -1
  transpose_lt : ∀ k, k < y_bus.nnz_lu → y_bus.map_lu_y_bus k ≠ -1 →
    y_bus.lu_transpose_entry k < y_bus.nnz_lu

end Assembly

/-! ## Update of the unknowns -/

section Iterate

variable {R P : Type} [LinearOrderedField R]

/-- What `iterate_unknown` reads and writes: the solver (its member `x_` is
updated), the voltage vector `u` passed by reference, and the local
`max_dev`, which is the value returned. -/
structure IterateState (R P : Type) where
  solver : NewtonRaphsonSESolver R P
  u : Nat → ComplexValue R
  max_dev : R

/-- Body of the bus loop of `iterate_unknown` (source lines 479-491). -/
def iterate_unknown_step (cexp : R → ComplexValue R) (cabs : ComplexValue R → R)
    (st : IterateState R P) (bus : Nat) : IterateState R P :=
  let x := st.solver.x_ bus
  -- angle
  let theta := x.theta + (st.solver.del_x_rhs_ bus).theta
  -- magnitude
  let v := x.v + x.v * (st.solver.del_x_rhs_ bus).v
  let u_tmp := ComplexValue.smul v (cexp theta)
  let dev := cabs (u_tmp.sub (st.u bus))
  { solver := { st.solver with
      x_ := Function.update st.solver.x_ bus { x with theta := theta, v := v } }
    u := Function.update st.u bus u_tmp
    max_dev := max dev st.max_dev }

/-- Source `iterate_unknown`: `max_dev` starts at `0.0`, the bus loop runs over
`[0, n_bus_)`.  The unused flag `has_angle_measurement` is kept as an
argument. -/
def iterate_unknown (cexp : R → ComplexValue R) (cabs : ComplexValue R → R)
    (s : NewtonRaphsonSESolver R P) (u : Nat → ComplexValue R) (_has_angle_measurement : Bool) :
    IterateState R P :=
  (List.range s.n_bus_).foldl (iterate_unknown_step cexp cabs)
    { solver := s, u := u, max_dev := 0 }

/-- Body of the initialisation loop of `run_state_estimation` (source lines
123-127). -/
def initialize_step (cexp : R → ComplexValue R) (mean_angle_shift : R)
    (st : NewtonRaphsonSESolver R P × (Nat → ComplexValue R)) (bus : Nat) :
    NewtonRaphsonSESolver R P × (Nat → ComplexValue R) :=
  let x := st.1.x_ bus
  let theta := mean_angle_shift + st.1.phase_shift bus
  ({ st.1 with x_ := Function.update st.1.x_ bus { x with v := 1, theta := theta } },
   Function.update st.2 bus (cexp theta))

/-- The initialisation loop of `run_state_estimation` (source lines 120-127):
it returns the solver with the new `x_` and the vector `output.u`. -/
def initialize_voltages (cexp : R → ComplexValue R) (measured_values : MeasuredValues R)
    (s : NewtonRaphsonSESolver R P) (u : Nat → ComplexValue R) :
    NewtonRaphsonSESolver R P × (Nat → ComplexValue R) :=
  (List.range s.n_bus_).foldl (initialize_step cexp measured_values.mean_angle_shift) (s, u)

end Iterate

/-! ## Calculation info and timers -/

section Info

variable {R : Type} [LinearOrderedField R]

/-- Modelled from the spec: `CalculationInfo`, a mapping from `(code, label)`
to real; `none` marks an absent key. -/
abbrev CalculationInfo (R : Type) := Nat × String → Option R

/-- Read `calculation_info[key]`: an absent key reads as `0.0` (the value a
`std::map` inserts on first access). -/
def CalculationInfo.get (info : CalculationInfo R) (key : Nat × String) : R :=
  (info key).getD 0

/-- Write `calculation_info[key] = value`. -/
def CalculationInfo.set (info : CalculationInfo R) (key : Nat × String) (value : R) :
    CalculationInfo R :=
  Function.update info key (some value)

/-- Modelled from the spec: a running `Timer` (declared in `timer.hpp`),
identified by the `(code, label)` under which it will write its
measurement. -/
structure Timer where
  code : Nat
  name : String
deriving DecidableEq

/-- Modelled from the spec: `Timer::make_key`, the key of a `(code, label)`
pair. -/
def Timer.make_key (code : Nat) (name : String) : Nat × String := (code, name)

/-- Modelled from the spec: `Timer::stop` adds the measured duration `elapsed`
to the entry of the timer's own key; a timer that is not running (`none`)
writes nothing. -/
def Timer.stop (elapsed : R) (timer : Option Timer) (info : CalculationInfo R) :
    CalculationInfo R :=
  match timer with
  | none => info
  | some t =>
    info.set (Timer.make_key t.code t.name) (info.get (Timer.make_key t.code t.name) + elapsed)

end Info

/-! ## The iteration loop -/

section Run

variable {R P : Type} [LinearOrderedField R]

/-- Modelled from the spec: `MathOutput<true>`, of which the solver fills the
per-bus voltage `u` and sizes the per-bus injection `bus_injection`. -/
structure MathOutput (R : Type) where
  u : Nat → ComplexValue R
  bus_injection : Nat → ComplexValue R

/-- The variables live across the `while` loop of `run_state_estimation`: the
solver object, `output.u`, the locals `max_dev` and `num_iter`, the running
`sub_timer` and the caller's `calculation_info`. -/
structure SEState (R P : Type) where
  solver : NewtonRaphsonSESolver R P
  u : Nat → ComplexValue R
  max_dev : R
  num_iter : Nat
  sub_timer : Option Timer
  calculation_info : CalculationInfo R

/-- What is fixed during one call of `run_state_estimation`: the library
functions `cexp` (`exp(1.0i * theta)`) and `cabs`, the constant
`std::numeric_limits<double>::max()`, the durations measured by the timers
(`clock code num_iter` is the duration written by the timer `code` when it is
stopped while `num_iter` has the given value), and the arguments `y_bus`,
`measured_values` (built from `input` by the constructor of `MeasuredValues`),
`err_tol`, `max_iter`. -/
structure SEArgs (R : Type) where
  cexp : R → ComplexValue R
  cabs : ComplexValue R → R
  dbl_max : R
  clock : Nat → Nat → R
  y_bus : YBus R
  measured_values : MeasuredValues R
  err_tol : R
  max_iter : Int

/-- Assigning a new timer to `sub_timer`: the timer that was running is
stopped, the new one runs. -/
def SEState.restart_sub_timer (a : SEArgs R) (st : SEState R P) (code : Nat) (name : String) :
    SEState R P :=
  { st with
    calculation_info :=
      Timer.stop (a.clock ((st.sub_timer.map Timer.code).getD 0) st.num_iter) st.sub_timer
        st.calculation_info
    sub_timer := some ⟨code, name⟩ }

/-- One pass through the body of the `while` loop after the divergence test
(source lines 135-141): assembly and prefactorisation, linear solve, update.
On a failure of the sparse solver the error is returned together with the
state in which the failing call was made. -/
def loop_body (a : SEArgs R) (st : SEState R P) :
    Except (SEError R × SEState R P) (SEState R P) :=
  let st := st.restart_sub_timer a 2224 "Prepare LHS rhs"
  match prepare_matrix_and_rhs a.cabs a.y_bus a.measured_values st.u st.solver with
  | Except.error e => Except.error (e.1, { st with solver := e.2 })
  | Except.ok solver =>
    let st := { st with solver := solver }
    let st := st.restart_sub_timer a 2225 "Solve sparse linear equation (pre-factorized)"
    match st.solver.sparse_solver_.solve_with_prefactorized_matrix st.solver.data_gain_
        st.solver.perm_ st.solver.del_x_rhs_ with
    | none => Except.error (SEError.SingularMatrix, st)
    | some x =>
      let st := { st with solver := { st.solver with del_x_rhs_ := x } }
      let st := st.restart_sub_timer a 2226 "Iterate unknown"
      let it := iterate_unknown a.cexp a.cabs st.solver st.u
        a.measured_values.has_angle_measurement
      Except.ok { st with solver := it.solver, u := it.u, max_dev := it.max_dev }

/-- One round of the loop as it is executed when the loop is entered and does
not throw `IterationDiverge`: `num_iter` is incremented, then the body runs. -/
def round (a : SEArgs R) (st : SEState R P) : Except (SEError R × SEState R P) (SEState R P) :=
  loop_body a { st with num_iter := st.num_iter + 1 }

/-- The state after `j` rounds executed one after the other from `st`, whatever
the deviations (the loop condition is not consulted); an error of a round
ends the sequence. -/
def rounds (a : SEArgs R) : Nat → SEState R P → Except (SEError R × SEState R P) (SEState R P)
  | 0, st => Except.ok st
  | j + 1, st =>
    match round a st with
    | Except.error e => Except.error e
    | Except.ok st1 => rounds a j st1

/-- The `while` loop of `run_state_estimation` (source lines 131-142).  `fuel`
bounds the number of times the loop condition is evaluated; `none` means the
bound was reached.  The loop ends normally with the state at exit, or with an
error and the state at the `throw`. -/
def iterate_loop (a : SEArgs R) :
    Nat → SEState R P → Option (Except (SEError R × SEState R P) (SEState R P))
  | 0, _ => none
  | fuel + 1, st =>
    if a.err_tol < st.max_dev ∨ st.num_iter = 0 then
      if (st.num_iter : Int) = a.max_iter then
        some (Except.error
          (SEError.IterationDiverge a.max_iter st.max_dev a.err_tol,
           { st with num_iter := st.num_iter + 1 }))
      else
        match round a st with
        | Except.error e => some (Except.error e)
        | Except.ok st1 => iterate_loop a fuel st1
    else some (Except.ok st)

/-- The state in which the `while` loop is entered (source lines 107-130):
`output.u` is resized (zero filled), the timer "Pre-process measured value"
is replaced by "Initialize voltages", the voltages are initialised,
`max_dev` is the largest double and `num_iter` is `0`. -/
def initial_state (a : SEArgs R) (calculation_info : CalculationInfo R)
    (s : NewtonRaphsonSESolver R P) : SEState R P :=
  let st : SEState R P :=
    { solver := s
      u := fun _ => ComplexValue.zero
      max_dev := a.dbl_max
      num_iter := 0
      sub_timer := some ⟨2221, "Pre-process measured value"⟩
      calculation_info := calculation_info }
  let st := st.restart_sub_timer a 2223 "Initialize voltages"
  let init := initialize_voltages a.cexp a.measured_values st.solver st.u
  { st with solver := init.1, u := init.2 }

/-- How a call of `run_state_estimation` ends: the value returned or the error
thrown, the solver object and `calculation_info` as the call leaves them, and
the value of the local `num_iter` at that moment. -/
structure SEResult (R P : Type) where
  outcome : Except (SEError R) (MathOutput R)
  solver : NewtonRaphsonSESolver R P
  calculation_info : CalculationInfo R
  num_iter : Nat

/-- Source `run_state_estimation`.  The arguments are in `a`,
`calculation_info` and the solver object `s`; `fuel` bounds the evaluations
of the loop condition (`none`: bound reached).  When an error leaves the
function the destructors stop `sub_timer` and `main_timer`. -/
def run_state_estimation (a : SEArgs R) (calculation_info : CalculationInfo R)
    (s : NewtonRaphsonSESolver R P) (fuel : Nat) : Option (SEResult R P) :=
  let main_timer : Option Timer := some ⟨2220, "Math solver"⟩
  match iterate_loop a fuel (initial_state a calculation_info s) with
  | none => none
  | some (Except.error (e, st)) =>
    let info := Timer.stop (a.clock ((st.sub_timer.map Timer.code).getD 0) st.num_iter)
      st.sub_timer st.calculation_info
    let info := Timer.stop (a.clock 2220 st.num_iter) main_timer info
    some { outcome := Except.error e, solver := st.solver, calculation_info := info,
           num_iter := st.num_iter }
  | some (Except.ok st) =>
    -- calculate math result
    let st := st.restart_sub_timer a 2227 "Calculate Math Result"
    -- manually stop timers
    let info := Timer.stop (a.clock 2227 st.num_iter) st.sub_timer st.calculation_info
    let info := Timer.stop (a.clock 2220 st.num_iter) main_timer info
    let key := Timer.make_key 2228 "Max number of iterations"
    let info := info.set key (max (info.get key) (st.num_iter : R))
    some { outcome := Except.ok { u := st.u, bus_injection := fun _ => ComplexValue.zero },
           solver := st.solver, calculation_info := info, num_iter := st.num_iter }

/-- The entry "Max number of iterations" is out of reach of the timers: the
running sub timer has another code and the entry still has the value `v`. -/
def IterEntryUntouched (v : R) (st : SEState R P) : Prop :=
  (∀ t, st.sub_timer = some t → t.code ≠ 2228)
    ∧ st.calculation_info.get (Timer.make_key 2228 "Max number of iterations") = v

end Run

/-! ## Exact real-number reading of the library functions -/

section RealReading

/-- The complex number denoted by a `ComplexValue` over the reals. -/
def ComplexValue.toComplex (z : ComplexValue ℝ) : ℂ := ⟨z.re, z.im⟩

/-- Exact reading of `exp(1.0i * theta)`: the point `(cos theta, sin theta)`. -/
noncomputable def real_cexp (theta : ℝ) : ComplexValue ℝ := ⟨Real.cos theta, Real.sin theta⟩

/-- Exact reading of `cabs`: the modulus `sqrt(re^2 + im^2)`. -/
noncomputable def real_cabs (z : ComplexValue ℝ) : ℝ := Real.sqrt (z.re * z.re + z.im * z.im)

end RealReading

/-! ## The update rule, as the specification words it -/

section UpdateRule

variable {R P : Type} [LinearOrderedField R]

/-- The update rule of the specification for one bus: `theta += del_theta`,
`v += v * del_v`, the slots `phi_p` and `phi_q` untouched. -/
def spec_updated_x (s : NewtonRaphsonSESolver R P) (bus : Nat) : NRSEUnknown R :=
  { s.x_ bus with
    theta := (s.x_ bus).theta + (s.del_x_rhs_ bus).theta
    v := (s.x_ bus).v + (s.x_ bus).v * (s.del_x_rhs_ bus).v }

/-- The refreshed voltage of the specification: `u_new = v * exp(i theta)` at
the updated `v` and `theta`. -/
def spec_updated_u (cexp : R → ComplexValue R) (s : NewtonRaphsonSESolver R P) (bus : Nat) :
    ComplexValue R :=
  ComplexValue.smul (spec_updated_x s bus).v (cexp (spec_updated_x s bus).theta)

/-- The deviation of one bus in the specification: `|u_new - u_old|`. -/
def spec_bus_dev (cexp : R → ComplexValue R) (cabs : ComplexValue R → R)
    (s : NewtonRaphsonSESolver R P) (u : Nat → ComplexValue R) (bus : Nat) : R :=
  cabs ((spec_updated_u cexp s bus).sub (u bus))

end UpdateRule

/-! ## A one-bus example -/

section Example

/-- A Y-bus of one bus: one LU entry, the diagonal of row 0, which is an
entry of the Y-bus itself (`map_lu_y_bus = 0`) and carries no branch or shunt
element. -/
def example_y_bus : YBus ℝ :=
  { size := 1
    nnz_lu := 1
    row_indptr_lu := fun i => if i = 0 then 0 else 1
    col_indices_lu := fun _ => 0
    lu_diag := fun _ => 0
    map_lu_y_bus := fun _ => 0
    lu_transpose_entry := fun _ => 0
    y_bus_entry_indptr := fun _ => 0
    y_bus_element := fun _ => ⟨0, YBusElementType.shunt⟩
    admittance := fun _ => ComplexValue.zero
    branch_param := fun _ =>
      ⟨ComplexValue.zero, ComplexValue.zero, ComplexValue.zero, ComplexValue.zero⟩ }

/-- A Y-bus of two buses without a branch between them.  The LU pattern is
full: entry 0 is `(0, 0)`, entry 1 is `(0, 1)`, entry 2 is `(1, 0)`, entry 3
is `(1, 1)`; the two off-diagonal entries are fill-ins, the diagonal entries
are the entries 0 and 1 of the Y-bus. -/
def example_y_bus_two : YBus ℝ :=
  { example_y_bus with
    size := 2
    nnz_lu := 4
    row_indptr_lu := fun i => 2 * i
    col_indices_lu := fun k => k % 2
    lu_diag := fun row => 3 * row
    map_lu_y_bus := fun k => if k = 0 then 0 else if k = 3 then 1 else -1
    lu_transpose_entry := fun k => if k = 1 then 2 else if k = 2 then 1 else k }

/-- Measurements of the example: no measurement at all, mean angle shift 0. -/
def example_measured_values : MeasuredValues ℝ :=
  { mean_angle_shift := 0
    has_angle_measurement := false
    has_voltage := fun _ => false
    voltage_var := fun _ => 1
    voltage := fun _ _ => ⟨1, 0⟩
    has_bus_injection := fun _ => false
    bus_injection := fun _ => ⟨ComplexValue.zero, 1, 1⟩
    has_branch_from := fun _ => false
    has_branch_to := fun _ => false
    has_shunt := fun _ => false
    branch_from_power := fun _ => ⟨ComplexValue.zero, 1, 1⟩
    branch_to_power := fun _ => ⟨ComplexValue.zero, 1, 1⟩
    shunt_power := fun _ => ⟨ComplexValue.zero, 1, 1⟩ }

/-- A stand-in for the sparse solver in the example: factorisation leaves the
data as it is, and the solution of every system is the increment `del` at
every bus. -/
def example_sparse_solver (del : NRSEUnknown ℝ) : SparseLUSolver ℝ Unit :=
  { prefactorize := fun data perm => some (data, perm)
    solve_with_prefactorized_matrix := fun _ _ _ => some (fun _ => del) }

/-- The solver object of the example, with every block of the buffers
`data_gain_`, `del_x_rhs_` and `x_` holding `stale` values left by earlier
use. -/
def example_solver (del : NRSEUnknown ℝ) (stale : ℝ) : NewtonRaphsonSESolver ℝ Unit :=
  { n_bus_ := 1
    phase_shift := fun _ => 0
    data_gain_ := fun _ =>
      ⟨stale, stale, stale, stale, stale, stale, stale, stale,
       stale, stale, stale, stale, stale, stale, stale, stale⟩
    del_x_rhs_ := fun _ => ⟨stale, stale, stale, stale⟩
    x_ := fun _ => ⟨stale, stale, stale, stale⟩
    sparse_solver_ := example_sparse_solver del
    perm_ := () }

/-- The solver object of the example with a sparse solver that signals a
singular matrix on every call. -/
def example_failing_solver (stale : ℝ) : NewtonRaphsonSESolver ℝ Unit :=
  { example_solver ⟨0, 0, 0, 0⟩ stale with
    sparse_solver_ :=
      { prefactorize := fun _ _ => none
        solve_with_prefactorized_matrix := fun _ _ _ => none } }

/-- The arguments of a call on the example, with the exact real `exp` and
`cabs`, the largest finite double `2^1024 - 2^971` as initial `max_dev`, all
timer durations 1, and the given `err_tol` and `max_iter`. -/
noncomputable def example_args (err_tol : ℝ) (max_iter : Int) : SEArgs ℝ :=
  { cexp := real_cexp
    cabs := real_cabs
    dbl_max := 2 ^ 1024 - 2 ^ 971
    clock := fun _ _ => 1
    y_bus := example_y_bus
    measured_values := example_measured_values
    err_tol := err_tol
    max_iter := max_iter }

end Example

/-! ## Matrix readings of the blocks -/

section MatrixReading

variable {R : Type} [LinearOrderedField R]

/-- The 4x4 matrix of a gain block: entry `(r, c)` is `get_val r c`. -/
def NRSEGainBlock.toMatrix (b : NRSEGainBlock R) : Matrix (Fin 4) (Fin 4) R :=
  Matrix.of fun r c => b.get_val r c

/-- Sub-block `G` of the layout `[[G, QT], [Q, R]]`: rows 0-1, columns 0-1,
that is `[[g_P_theta, g_P_v], [g_Q_theta, g_Q_v]]`. -/
def NRSEGainBlock.g_block (b : NRSEGainBlock R) : Matrix (Fin 2) (Fin 2) R :=
  !![b.get_val 0 0, b.get_val 0 1; b.get_val 1 0, b.get_val 1 1]

/-- Sub-block `QT`: rows 0-1, columns 2-3, that is
`[[qt_P_theta, qt_P_v], [qt_Q_theta, qt_Q_v]]`. -/
def NRSEGainBlock.qt_block (b : NRSEGainBlock R) : Matrix (Fin 2) (Fin 2) R :=
  !![b.get_val 0 2, b.get_val 0 3; b.get_val 1 2, b.get_val 1 3]

/-- Sub-block `Q`: rows 2-3, columns 0-1, that is
`[[q_P_theta, q_P_v], [q_Q_theta, q_Q_v]]`. -/
def NRSEGainBlock.q_block (b : NRSEGainBlock R) : Matrix (Fin 2) (Fin 2) R :=
  !![b.get_val 2 0, b.get_val 2 1; b.get_val 3 0, b.get_val 3 1]

/-- Sub-block `R`: rows 2-3, columns 2-3, that is
`[[r_P_theta, r_P_v], [r_Q_theta, r_Q_v]]`. -/
def NRSEGainBlock.r_block (b : NRSEGainBlock R) : Matrix (Fin 2) (Fin 2) R :=
  !![b.get_val 2 2, b.get_val 2 3; b.get_val 3 2, b.get_val 3 3]

/-- The four slots of an unknown / right-hand-side block as a column vector,
slot `(i, 0)` at position `i`. -/
def NRSEUnknown.toVec (x : NRSEUnknown R) : Fin 4 → R := ![x.theta, x.v, x.phi_p, x.phi_q]

/-- A Jacobian block in the template form
`F = [[dP_dt, dP_dv], [dQ_dt, dQ_dv]]`: rows `P, Q`, columns `theta, v`. -/
def NRSEJacobian.toMatrix (F : NRSEJacobian R) : Matrix (Fin 2) (Fin 2) R :=
  !![F.dP_dt, F.dP_dv; F.dQ_dt, F.dQ_dv]

/-- Spec side: the weight matrix `W = diag(1 / p_variance, 1 / q_variance)` of
a power sensor. -/
def spec_weight (power_sensor : PowerSensorCalcParam R) : Matrix (Fin 2) (Fin 2) R :=
  Matrix.diagonal ![1 / power_sensor.p_variance, 1 / power_sensor.q_variance]

/-- Spec side: the normal-equation block `F1^T * W * F2`. -/
def spec_normal_block (F1 F2 : NRSEJacobian R) (power_sensor : PowerSensorCalcParam R) :
    Matrix (Fin 2) (Fin 2) R :=
  F1.toMatrix.transpose * spec_weight power_sensor * F2.toMatrix

/-- Spec side: the residual term `F1^T * W * (calculated - measured)` with
`calculated = (calculated_power_p, calculated_power_q)` and
`measured = (Re value, Im value)`. -/
def spec_residual (F1 : NRSEJacobian R) (power_sensor : PowerSensorCalcParam R)
    (calculated_power_p calculated_power_q : R) : Fin 2 → R :=
  (F1.toMatrix.transpose * spec_weight power_sensor).mulVec
    ![calculated_power_p - power_sensor.value.re, calculated_power_q - power_sensor.value.im]

/-- Spec side: the side-i addition in the spec's words, `-Q`, `+P/|ui|`, `+P`,
`+Q/|ui|` added to the four Jacobian entries; `abs_ui_inv` is `1/|ui|`. -/
def spec_side_i_addition (block_i : NRSEJacobian R)
    (calculated_power_p calculated_power_q abs_ui_inv : R) : NRSEJacobian R :=
  { dP_dt := block_i.dP_dt + -calculated_power_q
    dP_dv := block_i.dP_dv + calculated_power_p * abs_ui_inv
    dQ_dt := block_i.dQ_dt + calculated_power_p
    dQ_dv := block_i.dQ_dv + calculated_power_q * abs_ui_inv }

/-- Spec side: the complex power `ui * conj (yii * ui + yij * uj)` that flows
into a branch at the side whose bus has voltage `ui`, the other side having
voltage `uj` (`yii, yij` are `yff, yft` for the from side and `ytt, ytf` for
the to side). -/
noncomputable def spec_branch_side_power (yii yij ui uj : ComplexValue ℝ) : ℂ :=
  ui.toComplex * (starRingEnd ℂ) (yii.toComplex * ui.toComplex + yij.toComplex * uj.toComplex)

end MatrixReading

/-! ## Structurally symmetric patterns and slot-wise predicates -/

section Pattern

variable {R : Type} [LinearOrderedField R]

/-- Shape conditions on the LU pattern of a Y-bus with `n` buses whose
entries that are not fill-ins form a structurally symmetric pattern: the
conditions of `DiagonalPresent`, row pointers that do not decrease, and for
every entry `(row, col)` that is not a fill-in, `lu_transpose_entry` names an
entry of row `col` in column `row` that is not a fill-in either. -/
structure YBus.SymmetricPattern (y_bus : YBus R) (n : Nat)
    extends YBus.DiagonalPresent y_bus n : Prop where
  indptr_mono : ∀ row, row < n → y_bus.row_indptr_lu row ≤ y_bus.row_indptr_lu (row + 1)
  transpose_entry : ∀ row k, row < n → y_bus.InRow row k → y_bus.map_lu_y_bus k ≠ -1 →
    y_bus.InRow (y_bus.col_indices_lu k) (y_bus.lu_transpose_entry k)
      ∧ y_bus.col_indices_lu (y_bus.lu_transpose_entry k) = row
      ∧ y_bus.map_lu_y_bus (y_bus.lu_transpose_entry k) ≠ -1

/-- The block `b1` differs from `b` at most in its four `qt` slots. -/
def NRSEGainBlock.SameButQT (b b1 : NRSEGainBlock R) : Prop :=
  b1.g_P_theta = b.g_P_theta ∧ b1.g_P_v = b.g_P_v ∧ b1.g_Q_theta = b.g_Q_theta
    ∧ b1.g_Q_v = b.g_Q_v
    ∧ b1.q_P_theta = b.q_P_theta ∧ b1.q_P_v = b.q_P_v ∧ b1.q_Q_theta = b.q_Q_theta
    ∧ b1.q_Q_v = b.q_Q_v
    ∧ b1.r_P_theta = b.r_P_theta ∧ b1.r_P_v = b.r_P_v ∧ b1.r_Q_theta = b.r_Q_theta
    ∧ b1.r_Q_v = b.r_Q_v

/-- The four `qt` slots of `b` hold the transposed `Q` sub-block of `c`, in
the assignment of the transpose loop: `qt_P_theta = q_P_theta`,
`qt_P_v = q_Q_theta`, `qt_Q_theta = q_P_v`, `qt_Q_v = q_Q_v`. -/
def NRSEGainBlock.QTOf (b c : NRSEGainBlock R) : Prop :=
  b.qt_P_theta = c.q_P_theta ∧ b.qt_P_v = c.q_Q_theta ∧ b.qt_Q_theta = c.q_P_v
    ∧ b.qt_Q_v = c.q_Q_v

/-- The four `q` slots of the block are zero, and so are the two slots
`r_P_v`, `r_Q_theta` off the diagonal of its `R` sub-block. -/
def NRSEGainBlock.CouplingClean (b : NRSEGainBlock R) : Prop :=
  b.q_P_theta = 0 ∧ b.q_P_v = 0 ∧ b.q_Q_theta = 0 ∧ b.q_Q_v = 0 ∧ b.r_P_v = 0 ∧ b.r_Q_theta = 0

/-- The two slots `r_P_theta`, `r_Q_v` on the diagonal of the `R` sub-block
are zero. -/
def NRSEGainBlock.RDiagZero (b : NRSEGainBlock R) : Prop :=
  b.r_P_theta = 0 ∧ b.r_Q_v = 0

end Pattern

/-! ## A two-bus example with a branch -/

section ExampleBranch

variable (R : Type) [LinearOrderedField R]

/-- A Y-bus of two buses joined by one branch, object 0, from bus 0 to bus 1,
with `yff = ytt = 1` and `yft = ytf = -1`.  The LU pattern is full and has no
fill-in: entry 0 is `(0, 0)` and carries the element `bff`, entry 1 is `(0, 1)`
with `bft`, entry 2 is `(1, 0)` with `btf`, entry 3 is `(1, 1)` with `btt`. -/
def example_y_bus_branch : YBus R :=
  { size := 2
    nnz_lu := 4
    row_indptr_lu := fun i => 2 * i
    col_indices_lu := fun k => k % 2
    lu_diag := fun row => 3 * row
    map_lu_y_bus := fun k => (k : Int)
    lu_transpose_entry := fun k => if k = 1 then 2 else if k = 2 then 1 else k
    y_bus_entry_indptr := fun d => d
    y_bus_element := fun e =>
      if e = 0 then ⟨0, YBusElementType.bff⟩
      else if e = 1 then ⟨0, YBusElementType.bft⟩
      else if e = 2 then ⟨0, YBusElementType.btf⟩
      else ⟨0, YBusElementType.btt⟩
    admittance := fun d => if d = 0 ∨ d = 3 then ⟨1, 0⟩ else ⟨-1, 0⟩
    branch_param := fun _ => ⟨⟨1, 0⟩, ⟨-1, 0⟩, ⟨-1, 0⟩, ⟨1, 0⟩⟩ }

/-- Measurements for the two-bus example: no voltage and no injection
measurement; a from-side flow measurement of the branch with value
`from_value` and unit variances when `has_from` is set; no to-side and no
shunt measurement. -/
def example_measured_flow (has_from : Bool) (from_value : ComplexValue R) : MeasuredValues R :=
  { mean_angle_shift := 0
    has_angle_measurement := false
    has_voltage := fun _ => false
    voltage_var := fun _ => 1
    voltage := fun current_u => current_u
    has_bus_injection := fun _ => false
    bus_injection := fun _ => ⟨ComplexValue.zero, 1, 1⟩
    has_branch_from := fun _ => has_from
    has_branch_to := fun _ => false
    has_shunt := fun _ => false
    branch_from_power := fun _ => ⟨from_value, 1, 1⟩
    branch_to_power := fun _ => ⟨ComplexValue.zero, 1, 1⟩
    shunt_power := fun _ => ⟨ComplexValue.zero, 1, 1⟩ }

/-- A solver object for two buses with `theta = 0`, `v = 1` at both, and
every slot of the buffers `data_gain_` and `del_x_rhs_` holding `stale`.  The
stand-in for the sparse solver leaves the data and the right-hand side as
they are. -/
def example_solver_two (stale : R) : NewtonRaphsonSESolver R Unit :=
  { n_bus_ := 2
    phase_shift := fun _ => 0
    data_gain_ := fun _ =>
      ⟨stale, stale, stale, stale, stale, stale, stale, stale,
       stale, stale, stale, stale, stale, stale, stale, stale⟩
    del_x_rhs_ := fun _ => ⟨stale, stale, stale, stale⟩
    x_ := fun _ => ⟨0, 1, 0, 0⟩
    sparse_solver_ :=
      { prefactorize := fun data perm => some (data, perm)
        solve_with_prefactorized_matrix := fun _ _ rhs => some rhs }
    perm_ := () }

/-- The solver object of the two-bus example at the voltages `u = (1, i)`:
`theta = (0, pi / 2)` and `v = (1, 1)`, as after the initialisation of a
topology with the phase shifts `(0, pi / 2)`. -/
noncomputable def example_solver_two_shifted (stale : ℝ) : NewtonRaphsonSESolver ℝ Unit :=
  { example_solver_two ℝ stale with
    phase_shift := fun bus => if bus = 0 then 0 else Real.pi / 2
    x_ := fun bus => ⟨if bus = 0 then 0 else Real.pi / 2, 1, 0, 0⟩ }

end ExampleBranch

/-! ## The one-bus example with a voltage measurement -/

section ExampleVoltage

/-- Measurements of the one-bus example when its only measurement is a
voltage measurement of magnitude `m` and variance `s`: the measured phasor
handed to the assembly is `m` times the phasor of the current iterate (whose
magnitude is 1 in the first iteration). -/
def example_measured_voltage (s m : ℝ) : MeasuredValues ℝ :=
  { example_measured_values with
    has_voltage := fun _ => true
    voltage_var := fun _ => s
    voltage := fun current_u bus => ComplexValue.smul m (current_u bus) }

/-- The column vector `(v 0, v 1, v 2, v 3)` as an unknown block. -/
def NRSEUnknown.ofVec {R : Type} (v : Fin 4 → R) : NRSEUnknown R := ⟨v 0, v 1, v 2, v 3⟩

/-- A stand-in for the sparse solver on a one-bus system that honours the
contract of the spec: the factorisation signals a singular matrix when the
determinant of the only block is zero and keeps the data otherwise, and the
solution of a system is the inverse of the block applied to the right-hand
side. -/
noncomputable def example_exact_solver : SparseLUSolver ℝ Unit :=
  { prefactorize := fun data perm =>
      if (data 0).toMatrix.det = 0 then none else some (data, perm)
    solve_with_prefactorized_matrix := fun data _ rhs =>
      some (fun bus => NRSEUnknown.ofVec ((data bus).toMatrix⁻¹.mulVec (rhs bus).toVec)) }

/-- The arguments of a call on the one-bus example with the voltage
measurement of magnitude `m` and variance `s` as only measurement. -/
noncomputable def example_args_voltage (s m err_tol : ℝ) (max_iter : Int) : SEArgs ℝ :=
  { example_args err_tol max_iter with measured_values := example_measured_voltage s m }

end ExampleVoltage

/-! ## Transformer tap regulator

Embedding of `component/regulator.hpp` and
`component/transformer_tap_regulator.hpp`.  `ID` and `IntS` are `Int`; the enum
`ControlSide` is a type parameter `C`; `base_power<sym>` is a parameter of
`calc_param`. -/

section Regulator

/-- Data members of `Regulator` together with the `id` of its base class
`Base`. -/
structure Regulator where
  id : Int
  regulated_object_ : Int
  status_ : Bool
deriving DecidableEq

/-- Source `Regulator::regulated_object`. -/
def Regulator.regulated_object (reg : Regulator) : Int := reg.regulated_object_

/-- Source `Regulator::status`. -/
def Regulator.status (reg : Regulator) : Bool := reg.status_

/-- Source `Regulator::set_status`. -/
def Regulator.set_status (reg : Regulator) (status : Bool) : Regulator :=
  { reg with status_ := status }

/-- Modelled from the spec: the update record `TransformerTapRegulatorUpdate`
is declared in `auxiliary/update.hpp`, outside the embedded files; it has one
field per member that `TransformerTapRegulator::update` reads.  `status` is an
`IntS`. -/
structure TransformerTapRegulatorUpdate (R : Type) where
  id : Int
  status : Int
  u_set : R
  u_band : R
  line_drop_compensation_r : R
  line_drop_compensation_x : R

/-- Modelled from the spec: the record `TransformerTapRegulatorCalcParam` is
declared in `calculation_parameters.hpp`, outside the embedded files; it has
one field per member that `calc_param` writes. -/
structure TransformerTapRegulatorCalcParam (R : Type) where
  u_set : R
  u_band : R
  z_compensation : ComplexValue R
  status : Bool

/-- Data members of `TransformerTapRegulator`, on top of those of
`Regulator`. -/
structure TransformerTapRegulator (R C : Type) extends Regulator where
  control_side_ : C
  u_rated_ : R
  u_set_ : R
  u_band_ : R
  line_drop_compensation_r_ : R
  line_drop_compensation_x_ : R

/-- Source `TransformerTapRegulator::control_side`. -/
def TransformerTapRegulator.control_side {R C : Type} (reg : TransformerTapRegulator R C) : C :=
  reg.control_side_

/-- Source `TransformerTapRegulator::update`.  The `assert` on the id is a
failure `none`; the call `set_status(update_data.status)` converts the `IntS`
to `bool`, which is `status != 0`. -/
def TransformerTapRegulator.update {R C : Type} (reg : TransformerTapRegulator R C)
    (update_data : TransformerTapRegulatorUpdate R) : Option (TransformerTapRegulator R C) :=
  if update_data.id = reg.id then
    some { reg with
      toRegulator := reg.toRegulator.set_status (decide (update_data.status ≠ 0))
      u_set_ := update_data.u_set
      u_band_ := update_data.u_band
      line_drop_compensation_r_ := update_data.line_drop_compensation_r
      line_drop_compensation_x_ := update_data.line_drop_compensation_x }
  else none

/-- Source `TransformerTapRegulator::calc_param<sym>`, with `base_power<sym>`
as parameter; the division of a `DoubleComplex` by a `double` divides both
parts. -/
def TransformerTapRegulator.calc_param {R C : Type} [LinearOrderedField R] (base_power : R)
    (reg : TransformerTapRegulator R C) : TransformerTapRegulatorCalcParam R :=
  let z_base := reg.u_rated_ * reg.u_rated_ / base_power
  let z_compensation : ComplexValue R :=
    ⟨reg.line_drop_compensation_r_, reg.line_drop_compensation_x_⟩
  { u_set := reg.u_set_ / reg.u_rated_
    u_band := reg.u_band_ / reg.u_rated_
    z_compensation := ⟨z_compensation.re / z_base, z_compensation.im / z_base⟩
    status := reg.toRegulator.status }

end Regulator

/-! ## Examples with an injection and with a shunt measurement -/

section ExampleInjection

/-- Measurements for the two-bus example with a branch: an injection
measurement at bus 0 with value `z` and unit variances, and no other
measurement. -/
def example_measured_injection (z : ComplexValue ℝ) : MeasuredValues ℝ :=
  { example_measured_values with
    has_bus_injection := fun bus => decide (bus = 0)
    bus_injection := fun _ => ⟨z, 1, 1⟩ }

/-- A Y-bus of one bus that carries branch 0 with its from side (the to side
is open) and shunt 0: the only LU entry `(0, 0)` has the elements `bff` of
object 0 and `shunt` of object 0; `branch_param[0].yff = 1`. -/
def example_y_bus_shunt : YBus ℝ :=
  { example_y_bus with
    y_bus_entry_indptr := fun d => 2 * d
    y_bus_element := fun e =>
      if e = 0 then ⟨0, YBusElementType.bff⟩ else ⟨0, YBusElementType.shunt⟩
    admittance := fun _ => ⟨2, 0⟩
    branch_param := fun _ => ⟨⟨1, 0⟩, ComplexValue.zero, ComplexValue.zero, ComplexValue.zero⟩ }

/-- Measurements for the one-bus example with a shunt: the from-side flow of
branch 0 is measured with value `from_value`, the power of shunt 0 with value
`shunt_value`, both with unit variances. -/
def example_measured_shunt (shunt_value from_value : ComplexValue ℝ) : MeasuredValues ℝ :=
  { example_measured_values with
    has_branch_from := fun _ => true
    has_shunt := fun _ => true
    branch_from_power := fun _ => ⟨from_value, 1, 1⟩
    shunt_power := fun _ => ⟨shunt_value, 1, 1⟩ }

/-- Spec side: the calculated injection `u_r * conj (sum_c Y_rc * u_c)` of bus
`row` at the voltages `u`, the sum running over the LU entries `(row, c)` of
the row that are not fill-ins, the diagonal entry included. -/
noncomputable def spec_calculated_injection (y_bus : YBus ℝ) (u : Nat → ComplexValue ℝ)
    (row : Nat) : ℂ :=
  (u row).toComplex * (starRingEnd ℂ)
    ((((List.range' (y_bus.row_indptr_lu row)
          (y_bus.row_indptr_lu (row + 1) - y_bus.row_indptr_lu row)).filter
        (fun k => decide (y_bus.map_lu_y_bus k ≠ -1))).map
      (fun k => (y_bus.admittance (y_bus.map_lu_y_bus k).toNat).toComplex
        * (u (y_bus.col_indices_lu k)).toComplex)).sum)

end ExampleInjection

/-! ## The matrix that the gain buffer stands for -/

section GainMatrix

variable {R : Type} [LinearOrderedField R]

/-- The LU entry of row `row` in column `col`, when the pattern has one: the
first entry of `[row_indptr_lu[row], row_indptr_lu[row + 1])` with that
column index. -/
def YBus.find_entry (y_bus : YBus R) (row col : Nat) : Option Nat :=
  (List.range' (y_bus.row_indptr_lu row)
      (y_bus.row_indptr_lu (row + 1) - y_bus.row_indptr_lu row)).find?
    (fun k => decide (y_bus.col_indices_lu k = col))

/-- Modelled from the spec: the `4N x 4N` matrix that the block-sparse gain
buffer stands for (the sparse LU solver that reads it this way is in
`sparse_lu_solver.hpp`, outside the embedded files).  The spec keeps the
blocks "in a flat array indexed by a CSR-style `indptr`/`indices` pair": the
block `(r, c)` of the matrix is `data_gain[k]` for the LU entry `k` of row `r`
with column index `c`, and zero when the pattern has no such entry; the
scalar `(i, j)` of a block is `get_val i j`. -/
def gain_matrix (y_bus : YBus R) (n : Nat) (data_gain : Nat → NRSEGainBlock R) :
    Matrix (Fin n × Fin 4) (Fin n × Fin 4) R :=
  Matrix.of fun p q =>
    match y_bus.find_entry p.1 q.1 with
    | some k => (data_gain k).get_val p.2 q.2
    | none => 0

/-- The matrix that the gain buffer stands for is singular: its determinant
is zero. -/
def GainMatrixSingular (y_bus : YBus R) (n : Nat) (data_gain : Nat → NRSEGainBlock R) : Prop :=
  (gain_matrix y_bus n data_gain).det = 0

/-- The LU pattern has, in every row of a Y-bus with `n` buses, an entry in
the row's own column, and it is the entry that `lu_diag` names. -/
def YBus.DiagonalInRow (y_bus : YBus R) (n : Nat) : Prop :=
  ∀ row, row < n → y_bus.InRow row (y_bus.lu_diag row)
    ∧ y_bus.col_indices_lu (y_bus.lu_diag row) = row

/-- The column indices increase within each row of the LU pattern. -/
def YBus.ColumnsIncreasing (y_bus : YBus R) (n : Nat) : Prop :=
  ∀ row k1 k2, row < n → y_bus.InRow row k1 → y_bus.InRow row k2 → k1 < k2 →
    y_bus.col_indices_lu k1 < y_bus.col_indices_lu k2

end GainMatrix

/-! # Theorems -/

set_option linter.unusedSectionVars false

/-! ## Lemmas on the real-number reading -/

section RealLemmas

theorem toComplex_real_cexp (theta : ℝ) :
    (real_cexp theta).toComplex = Complex.exp (Complex.I * (theta : ℂ)) := by
  rw [mul_comm, Complex.exp_mul_I]
  apply Complex.ext
  · simp [ComplexValue.toComplex, real_cexp, Complex.cos_ofReal_re, Complex.sin_ofReal_im]
  · simp [ComplexValue.toComplex, real_cexp, Complex.cos_ofReal_im, Complex.sin_ofReal_re]

theorem real_cabs_eq_abs (z : ComplexValue ℝ) : real_cabs z = Complex.abs z.toComplex := by
  simp [real_cabs, ComplexValue.toComplex, Complex.abs_apply, Complex.normSq_apply]

theorem real_cabs_nonneg (z : ComplexValue ℝ) : 0 ≤ real_cabs z := Real.sqrt_nonneg _

theorem real_cabs_smul_cexp (v theta : ℝ) :
    real_cabs (ComplexValue.smul v (real_cexp theta)) = |v| := by
  have h : v * Real.cos theta * (v * Real.cos theta) + v * Real.sin theta * (v * Real.sin theta)
      = v ^ 2 := by
    have := Real.sin_sq_add_cos_sq theta
    nlinarith [this]
  simp only [real_cabs, ComplexValue.smul, real_cexp]
  rw [h, Real.sqrt_sq_eq_abs]

theorem toComplex_smul (v : ℝ) (z : ComplexValue ℝ) :
    (ComplexValue.smul v z).toComplex = (v : ℂ) * z.toComplex := by
  apply Complex.ext <;> simp [ComplexValue.toComplex, ComplexValue.smul]

theorem toComplex_sub (a b : ComplexValue ℝ) :
    (a.sub b).toComplex = a.toComplex - b.toComplex := by
  apply Complex.ext <;> simp [ComplexValue.toComplex, ComplexValue.sub]

end RealLemmas

/-! ## Lemmas on the bus loops -/

section BusLoops

variable {R P : Type} [LinearOrderedField R]

/-- Closed form of the initialisation loop run over the first `n` buses. -/
theorem initialize_foldl_range (cexp : R → ComplexValue R) (mas : R)
    (s : NewtonRaphsonSESolver R P) (u : Nat → ComplexValue R) (n : Nat) :
    (List.range n).foldl (initialize_step cexp mas) (s, u)
      = ({ s with x_ := fun bus =>
            if bus < n then { s.x_ bus with v := 1, theta := mas + s.phase_shift bus }
            else s.x_ bus },
         fun bus => if bus < n then cexp (mas + s.phase_shift bus) else u bus) := by
  induction n with
  | zero => simp
  | succ n ih =>
    rw [List.range_succ, List.foldl_append, ih]
    simp only [List.foldl_cons, List.foldl_nil, initialize_step]
    refine Prod.ext ?_ ?_
    · simp only
      congr 1
      funext bus
      by_cases hb : bus = n
      · subst hb; simp
      · rw [Function.update_noteq hb]
        have : (bus < n + 1) ↔ (bus < n) := by omega
        simp [this]
    · simp only
      funext bus
      by_cases hb : bus = n
      · subst hb; simp
      · rw [Function.update_noteq hb]
        have : (bus < n + 1) ↔ (bus < n) := by omega
        simp [this]

/-- Closed form of the bus loop of `iterate_unknown` run over the first `n`
buses, started with the running maximum `m0`. -/
theorem iterate_foldl_range (cexp : R → ComplexValue R) (cabs : ComplexValue R → R)
    (s : NewtonRaphsonSESolver R P) (u : Nat → ComplexValue R) (m0 : R) (n : Nat) :
    (List.range n).foldl (iterate_unknown_step cexp cabs) { solver := s, u := u, max_dev := m0 }
      = { solver := { s with x_ := fun bus =>
            if bus < n then spec_updated_x s bus else s.x_ bus }
          u := fun bus => if bus < n then spec_updated_u cexp s bus else u bus
          max_dev := (List.range n).foldl (fun m bus => max (spec_bus_dev cexp cabs s u bus) m)
            m0 } := by
  induction n with
  | zero => simp
  | succ n ih =>
    rw [List.range_succ, List.foldl_append, ih, List.foldl_append]
    simp only [List.foldl_cons, List.foldl_nil, iterate_unknown_step, lt_irrefl, if_false]
    congr 1
    · congr 1
      funext bus
      by_cases hb : bus = n
      · subst hb; simp [spec_updated_x]
      · rw [Function.update_noteq hb]
        have : (bus < n + 1) ↔ (bus < n) := by omega
        simp [this]
    · funext bus
      by_cases hb : bus = n
      · subst hb; simp [spec_updated_u, spec_updated_x]
      · rw [Function.update_noteq hb]
        have : (bus < n + 1) ↔ (bus < n) := by omega
        simp [this]

/-- The running maximum dominates its start value and every deviation seen. -/
theorem foldl_max_ge (d : Nat → R) (m0 : R) (n : Nat) :
    m0 ≤ (List.range n).foldl (fun m bus => max (d bus) m) m0
      ∧ ∀ bus, bus < n → d bus ≤ (List.range n).foldl (fun m bus => max (d bus) m) m0 := by
  induction n with
  | zero => simp
  | succ n ih =>
    rw [List.range_succ, List.foldl_append]
    simp only [List.foldl_cons, List.foldl_nil]
    refine ⟨le_trans ih.1 (le_max_right _ _), ?_⟩
    intro bus hb
    by_cases h : bus = n
    · subst h; exact le_max_left _ _
    · exact le_trans (ih.2 bus (by omega)) (le_max_right _ _)

/-- The running maximum is its start value or one of the deviations seen. -/
theorem foldl_max_mem (d : Nat → R) (m0 : R) (n : Nat) :
    (List.range n).foldl (fun m bus => max (d bus) m) m0 = m0
      ∨ ∃ bus, bus < n ∧ (List.range n).foldl (fun m bus => max (d bus) m) m0 = d bus := by
  induction n with
  | zero => simp
  | succ n ih =>
    rw [List.range_succ, List.foldl_append]
    simp only [List.foldl_cons, List.foldl_nil]
    rcases max_choice (d n) ((List.range n).foldl (fun m bus => max (d bus) m) m0) with h | h
    · exact Or.inr ⟨n, by omega, h⟩
    · rw [h]
      rcases ih with h0 | ⟨bus, hb, hm⟩
      · exact Or.inl h0
      · exact Or.inr ⟨bus, by omega, hm⟩

end BusLoops

/-! ## Lemmas on folds -/

section FoldLemmas

/-- A property kept by every step of a fold holds after the fold. -/
theorem foldl_preserves {α β : Type} (Q : β → Prop) (f : β → α → β) (l : List α)
    (h : ∀ b a, a ∈ l → Q b → Q (f b a)) (b : β) (hb : Q b) : Q (l.foldl f b) := by
  induction l generalizing b with
  | nil => exact hb
  | cons x l ih =>
    simp only [List.foldl_cons]
    apply ih
    · intro b1 a1 ha1 hq
      exact h b1 a1 (List.mem_cons_of_mem _ ha1) hq
    · exact h b x (List.mem_cons_self _ _) hb

/-- A property established by the step for `x` and kept by every step holds
after a fold over a list that contains `x`; before `x` only the weaker `Q0`
is needed. -/
theorem foldl_establish {α β : Type} (Q0 Q : β → Prop) (f : β → α → β) (l : List α) (x : α)
    (hx : x ∈ l) (h0 : ∀ b a, a ∈ l → Q0 b → Q0 (f b a)) (hest : ∀ b, Q0 b → Q (f b x))
    (hpres : ∀ b a, a ∈ l → Q b → Q (f b a)) (b : β) (hb : Q0 b) : Q (l.foldl f b) := by
  induction l generalizing b with
  | nil => cases hx
  | cons y l ih =>
    simp only [List.foldl_cons]
    by_cases hxy : x = y
    · subst hxy
      apply foldl_preserves Q f l
      · intro b1 a1 ha1 hq
        exact hpres b1 a1 (List.mem_cons_of_mem _ ha1) hq
      · exact hest b hb
    · have hxl : x ∈ l := by
        rcases List.mem_cons.mp hx with h | h
        · exact absurd h hxy
        · exact h
      apply ih hxl
      · intro b1 a1 ha1 hq
        exact h0 b1 a1 (List.mem_cons_of_mem _ ha1) hq
      · intro b1 a1 ha1 hq
        exact hpres b1 a1 (List.mem_cons_of_mem _ ha1) hq
      · exact h0 b y (List.mem_cons_self _ _) hb

/-- A relation kept by every pair of steps holds between the two folds. -/
theorem foldl_rel {α β : Type} (Rl : β → β → Prop) (f g : β → α → β) (l : List α)
    (h : ∀ b1 b2 a, a ∈ l → Rl b1 b2 → Rl (f b1 a) (g b2 a)) (b1 b2 : β) (hb : Rl b1 b2) :
    Rl (l.foldl f b1) (l.foldl g b2) := by
  induction l generalizing b1 b2 with
  | nil => exact hb
  | cons x l ih =>
    simp only [List.foldl_cons]
    apply ih
    · intro c1 c2 a1 ha1 hq
      exact h c1 c2 a1 (List.mem_cons_of_mem _ ha1) hq
    · exact h b1 b2 x (List.mem_cons_self _ _) hb

/-- Two-run version of `foldl_establish`. -/
theorem foldl_rel_establish {α β : Type} (R0 Rl : β → β → Prop) (f g : β → α → β)
    (l : List α) (x : α) (hx : x ∈ l)
    (h0 : ∀ b1 b2 a, a ∈ l → R0 b1 b2 → R0 (f b1 a) (g b2 a))
    (hest : ∀ b1 b2, R0 b1 b2 → Rl (f b1 x) (g b2 x))
    (hpres : ∀ b1 b2 a, a ∈ l → Rl b1 b2 → Rl (f b1 a) (g b2 a))
    (b1 b2 : β) (hb : R0 b1 b2) : Rl (l.foldl f b1) (l.foldl g b2) := by
  induction l generalizing b1 b2 with
  | nil => cases hx
  | cons y l ih =>
    simp only [List.foldl_cons]
    by_cases hxy : x = y
    · subst hxy
      apply foldl_rel Rl f g l
      · intro c1 c2 a1 ha1 hq
        exact hpres c1 c2 a1 (List.mem_cons_of_mem _ ha1) hq
      · exact hest b1 b2 hb
    · have hxl : x ∈ l := by
        rcases List.mem_cons.mp hx with h | h
        · exact absurd h hxy
        · exact h
      apply ih hxl
      · intro c1 c2 a1 ha1 hq
        exact h0 c1 c2 a1 (List.mem_cons_of_mem _ ha1) hq
      · intro c1 c2 a1 ha1 hq
        exact hpres c1 c2 a1 (List.mem_cons_of_mem _ ha1) hq
      · exact h0 b1 b2 y (List.mem_cons_self _ _) hb

/-- Membership in the index list of a half-open loop. -/
theorem mem_range_sub (a b k : Nat) : k ∈ List.range' a (b - a) ↔ a ≤ k ∧ k < b := by
  rw [List.mem_range'_1]
  omega

end FoldLemmas

/-! ## Lemmas on the assembly: what each step leaves alone -/

section AssemblyFrame

variable {R P : Type} [LinearOrderedField R]

theorem SameFrame.refl (s : NewtonRaphsonSESolver R P) : SameFrame s s :=
  ⟨rfl, rfl, rfl, rfl, rfl⟩

theorem SameFrame.trans {s s1 s2 : NewtonRaphsonSESolver R P} (h1 : SameFrame s s1)
    (h2 : SameFrame s1 s2) : SameFrame s s2 :=
  ⟨h2.1.trans h1.1, h2.2.1.trans h1.2.1, h2.2.2.1.trans h1.2.2.1,
    h2.2.2.2.1.trans h1.2.2.2.1, h2.2.2.2.2.trans h1.2.2.2.2⟩

theorem clear_gain_block_frame (s : NewtonRaphsonSESolver R P) (k : Nat) :
    SameFrame s (clear_gain_block s k) := ⟨rfl, rfl, rfl, rfl, rfl⟩

theorem voltage_step_frame (cabs : ComplexValue R → R) (mv : MeasuredValues R)
    (u mu : Nat → ComplexValue R) (row k : Nat) (s : NewtonRaphsonSESolver R P) :
    SameFrame s (voltage_step cabs mv u mu row k s) := ⟨rfl, rfl, rfl, rfl, rfl⟩

theorem element_step_frame (y : YBus R) (mv : MeasuredValues R) (u : Nat → ComplexValue R)
    (row col k : Nat) (s : NewtonRaphsonSESolver R P) (e : Nat) :
    SameFrame s (element_step y mv u row col k s e) := by
  unfold element_step
  split
  · exact SameFrame.refl s
  · exact ⟨rfl, rfl, rfl, rfl, rfl⟩

theorem element_loop_frame (y : YBus R) (mv : MeasuredValues R) (u : Nat → ComplexValue R)
    (row col k d : Nat) (s : NewtonRaphsonSESolver R P) :
    SameFrame s (element_loop y mv u row col k d s) := by
  unfold element_loop
  apply foldl_preserves (SameFrame s)
  · intro b a _ hb
    exact hb.trans (element_step_frame y mv u row col k b a)
  · exact SameFrame.refl s

theorem injection_step_frame (y : YBus R) (mv : MeasuredValues R) (u : Nat → ComplexValue R)
    (row col k d : Nat) (s : NewtonRaphsonSESolver R P) :
    SameFrame s (injection_step y mv u row col k d s) := by
  unfold injection_step
  split_ifs
  · exact ⟨rfl, rfl, rfl, rfl, rfl⟩
  · exact ⟨rfl, rfl, rfl, rfl, rfl⟩
  · exact ⟨rfl, rfl, rfl, rfl, rfl⟩
  · exact SameFrame.refl s

theorem entry_step_frame (cabs : ComplexValue R → R) (y : YBus R) (mv : MeasuredValues R)
    (u mu : Nat → ComplexValue R) (row : Nat) (s : NewtonRaphsonSESolver R P) (k : Nat) :
    SameFrame s (entry_step cabs y mv u mu row s k) := by
  unfold entry_step
  simp only
  split_ifs
  · exact SameFrame.refl s
  · exact clear_gain_block_frame s k
  · refine SameFrame.trans ?_ (injection_step_frame y mv u row _ k _ _)
    refine SameFrame.trans ?_ (clear_gain_block_frame _ _)
    refine SameFrame.trans ?_ (element_loop_frame y mv u row _ k _ _)
    exact voltage_step_frame cabs mv u mu row k s
  · refine SameFrame.trans ?_ (injection_step_frame y mv u row _ k _ _)
    refine SameFrame.trans ?_ (clear_gain_block_frame _ _)
    exact element_loop_frame y mv u row _ k _ _
  · refine SameFrame.trans ?_ (injection_step_frame y mv u row _ k _ _)
    refine SameFrame.trans ?_ (clear_gain_block_frame _ _)
    refine SameFrame.trans ?_ (element_loop_frame y mv u row _ k _ _)
    refine SameFrame.trans ?_ (voltage_step_frame cabs mv u mu row k _)
    exact clear_gain_block_frame s k
  · refine SameFrame.trans ?_ (injection_step_frame y mv u row _ k _ _)
    refine SameFrame.trans ?_ (clear_gain_block_frame _ _)
    refine SameFrame.trans ?_ (element_loop_frame y mv u row _ k _ _)
    exact clear_gain_block_frame s k

/-- The inner-loop body with its `let`s inlined. -/
theorem entry_step_eq (cabs : ComplexValue R → R) (y : YBus R) (mv : MeasuredValues R)
    (u mu : Nat → ComplexValue R) (row : Nat) (s : NewtonRaphsonSESolver R P) (k : Nat) :
    entry_step cabs y mv u mu row s k
      = if y.map_lu_y_bus k = -1 then
          (if row ≠ y.col_indices_lu k then clear_gain_block s k else s)
        else
          injection_step y mv u row (y.col_indices_lu k) k (y.map_lu_y_bus k).toNat
            (clear_gain_block
              (element_loop y mv u row (y.col_indices_lu k) k (y.map_lu_y_bus k).toNat
                (if row = y.col_indices_lu k ∧ mv.has_voltage row = true then
                  voltage_step cabs mv u mu row k
                    (if row ≠ y.col_indices_lu k then clear_gain_block s k else s)
                else (if row ≠ y.col_indices_lu k then clear_gain_block s k else s)))
              (y.lu_diag row)) := rfl

end AssemblyFrame

/-! ## Lemmas on the assembly: two runs side by side -/

section AssemblyAgree

variable {R P : Type} [LinearOrderedField R]

theorem agreeOn_mono {K K1 Rw Rw1 : Nat → Prop} {s1 s2 : NewtonRaphsonSESolver R P}
    (h : AgreeOn K Rw s1 s2) (hK : ∀ k, K1 k → K k) (hR : ∀ r, Rw1 r → Rw r) :
    AgreeOn K1 Rw1 s1 s2 :=
  ⟨h.1, h.2.1, fun k hk => h.2.2.1 k (hK k hk), fun r hr => h.2.2.2 r (hR r hr)⟩

/-- Writing equal blocks (equal at least when the index is tracked) into the
gain buffers of two runs keeps them in agreement. -/
theorem agreeOn_set_gain {K Rw : Nat → Prop} {s1 s2 : NewtonRaphsonSESolver R P}
    (h : AgreeOn K Rw s1 s2) (k : Nat) (b1 b2 : NRSEGainBlock R) (hb : K k → b1 = b2) :
    AgreeOn K Rw { s1 with data_gain_ := Function.update s1.data_gain_ k b1 }
      { s2 with data_gain_ := Function.update s2.data_gain_ k b2 } := by
  refine ⟨h.1, h.2.1, ?_, h.2.2.2⟩
  intro k1 hk1
  by_cases hk : k1 = k
  · subst hk
    simp [hb hk1]
  · simp only [Function.update_noteq hk]
    exact h.2.2.1 k1 hk1

theorem agreeOn_set_rhs {K Rw : Nat → Prop} {s1 s2 : NewtonRaphsonSESolver R P}
    (h : AgreeOn K Rw s1 s2) (r : Nat) (b1 b2 : NRSEUnknown R) (hb : Rw r → b1 = b2) :
    AgreeOn K Rw { s1 with del_x_rhs_ := Function.update s1.del_x_rhs_ r b1 }
      { s2 with del_x_rhs_ := Function.update s2.del_x_rhs_ r b2 } := by
  refine ⟨h.1, h.2.1, h.2.2.1, ?_⟩
  intro r1 hr1
  by_cases hr : r1 = r
  · subst hr
    simp [hb hr1]
  · simp only [Function.update_noteq hr]
    exact h.2.2.2 r1 hr1

/-- Clearing the block `k` in both runs makes them agree on it. -/
theorem agreeOn_clear {K Rw : Nat → Prop} {s1 s2 : NewtonRaphsonSESolver R P}
    (h : AgreeOn K Rw s1 s2) (k : Nat) :
    AgreeOn (fun k1 => K k1 ∨ k1 = k) Rw (clear_gain_block s1 k) (clear_gain_block s2 k) := by
  refine ⟨h.1, h.2.1, ?_, h.2.2.2⟩
  intro k1 hk1
  by_cases hk : k1 = k
  · subst hk
    simp [clear_gain_block]
  · simp only [clear_gain_block, Function.update_noteq hk]
    rcases hk1 with hk1 | hk1
    · exact h.2.2.1 k1 hk1
    · exact absurd hk1 hk

theorem clear_agree {K Rw : Nat → Prop} {s1 s2 : NewtonRaphsonSESolver R P}
    (h : AgreeOn K Rw s1 s2) (k : Nat) :
    AgreeOn K Rw (clear_gain_block s1 k) (clear_gain_block s2 k) :=
  agreeOn_mono (agreeOn_clear h k) (fun _ hk => Or.inl hk) (fun _ hr => hr)

theorem voltage_step_agree (cabs : ComplexValue R → R) (mv : MeasuredValues R)
    (u mu : Nat → ComplexValue R) (row k : Nat) {K Rw : Nat → Prop}
    {s1 s2 : NewtonRaphsonSESolver R P} (h : AgreeOn K Rw s1 s2) :
    AgreeOn K Rw (voltage_step cabs mv u mu row k s1) (voltage_step cabs mv u mu row k s2) :=
  agreeOn_set_rhs (agreeOn_set_gain h k _ _ (fun hk => by rw [h.2.2.1 k hk])) row _ _
    (fun hr => by rw [h.2.2.2 row hr])

/-- The arguments computed for an element depend on `x_` through the
magnitudes of the two buses of the entry only. -/
theorem element_contribution_congr (y : YBus R) (mv : MeasuredValues R)
    (u : Nat → ComplexValue R) (x1 x2 : Nat → NRSEUnknown R) (row col e : Nat)
    (hrow : (x1 row).v = (x2 row).v) (hcol : (x1 col).v = (x2 col).v) :
    element_contribution y mv u x1 row col e = element_contribution y mv u x2 row col e := by
  unfold element_contribution
  simp only [hrow, hcol]

theorem element_step_agree (y : YBus R) (mv : MeasuredValues R) (u : Nat → ComplexValue R)
    (row col k e : Nat) {K Rw : Nat → Prop} {s1 s2 : NewtonRaphsonSESolver R P}
    (h : AgreeOn K Rw s1 s2) (hrow : row < s1.n_bus_) (hcol : col < s1.n_bus_) :
    AgreeOn K Rw (element_step y mv u row col k s1 e) (element_step y mv u row col k s2 e) := by
  unfold element_step
  rw [element_contribution_congr y mv u s1.x_ s2.x_ row col e (h.2.1 row hrow) (h.2.1 col hcol)]
  cases element_contribution y mv u s2.x_ row col e with
  | none => exact h
  | some c =>
    exact agreeOn_set_rhs (agreeOn_set_gain h k _ _ (fun hk => by rw [h.2.2.1 k hk]; rfl))
      row _ _ (fun hr => by rw [h.2.2.2 row hr]; rfl)

theorem element_loop_agree (y : YBus R) (mv : MeasuredValues R) (u : Nat → ComplexValue R)
    (row col k d : Nat) {K Rw : Nat → Prop} {s1 s2 : NewtonRaphsonSESolver R P}
    (h : AgreeOn K Rw s1 s2) (hrow : row < s1.n_bus_) (hcol : col < s1.n_bus_) :
    AgreeOn K Rw (element_loop y mv u row col k d s1) (element_loop y mv u row col k d s2) := by
  unfold element_loop
  apply foldl_rel (fun t1 t2 => AgreeOn K Rw t1 t2 ∧ t1.n_bus_ = s1.n_bus_) _ _ _ _ s1 s2
    ⟨h, rfl⟩ |>.1
  intro b1 b2 a _ hb
  refine ⟨element_step_agree y mv u row col k a hb.1 (by rw [hb.2]; exact hrow)
    (by rw [hb.2]; exact hcol), ?_⟩
  rw [(element_step_frame y mv u row col k b1 a).1, hb.2]

theorem injection_step_agree (y : YBus R) (mv : MeasuredValues R) (u : Nat → ComplexValue R)
    (row col k d : Nat) {K Rw : Nat → Prop} {s1 s2 : NewtonRaphsonSESolver R P}
    (h : AgreeOn K Rw s1 s2) :
    AgreeOn K Rw (injection_step y mv u row col k d s1) (injection_step y mv u row col k d s2) := by
  unfold injection_step
  split_ifs
  · exact agreeOn_set_rhs h row _ _ (fun hr => by rw [h.2.2.2 row hr])
  · exact agreeOn_set_rhs h row _ _ (fun hr => by rw [h.2.2.2 row hr])
  · exact agreeOn_set_gain h k _ _ (fun hk => by rw [h.2.2.1 k hk])
  · exact h

/-- The part of the inner-loop body after the fill-in test keeps two runs in
agreement, and makes them agree on the diagonal block of the row. -/
theorem entry_fill_agree (cabs : ComplexValue R → R) (y : YBus R) (mv : MeasuredValues R)
    (u mu : Nat → ComplexValue R) (row col k d : Nat) {K Rw : Nat → Prop}
    {s1 s2 : NewtonRaphsonSESolver R P} (h : AgreeOn K Rw s1 s2)
    (hrow : row < s1.n_bus_) (hcol : col < s1.n_bus_) :
    AgreeOn (fun k1 => K k1 ∨ k1 = y.lu_diag row) Rw
      (injection_step y mv u row col k d
        (clear_gain_block
          (element_loop y mv u row col k d
            (if row = col ∧ mv.has_voltage row = true then voltage_step cabs mv u mu row k s1
             else s1))
          (y.lu_diag row)))
      (injection_step y mv u row col k d
        (clear_gain_block
          (element_loop y mv u row col k d
            (if row = col ∧ mv.has_voltage row = true then voltage_step cabs mv u mu row k s2
             else s2))
          (y.lu_diag row))) := by
  apply injection_step_agree
  apply agreeOn_clear
  by_cases hv : row = col ∧ mv.has_voltage row = true
  · rw [if_pos hv, if_pos hv]
    exact element_loop_agree y mv u row col k d (voltage_step_agree cabs mv u mu row k h)
      hrow hcol
  · rw [if_neg hv, if_neg hv]
    exact element_loop_agree y mv u row col k d h hrow hcol

/-- The inner-loop body keeps two runs in agreement on whatever they agreed
on. -/
theorem entry_step_agree (cabs : ComplexValue R → R) (y : YBus R) (mv : MeasuredValues R)
    (u mu : Nat → ComplexValue R) (row k : Nat) {K Rw : Nat → Prop}
    {s1 s2 : NewtonRaphsonSESolver R P} (h : AgreeOn K Rw s1 s2)
    (hrow : row < s1.n_bus_) (hcol : y.col_indices_lu k < s1.n_bus_) :
    AgreeOn K Rw (entry_step cabs y mv u mu row s1 k) (entry_step cabs y mv u mu row s2 k) := by
  have h0 : AgreeOn K Rw (if row ≠ y.col_indices_lu k then clear_gain_block s1 k else s1)
      (if row ≠ y.col_indices_lu k then clear_gain_block s2 k else s2) := by
    by_cases hc : row ≠ y.col_indices_lu k
    · rw [if_pos hc, if_pos hc]
      exact clear_agree h k
    · rw [if_neg hc, if_neg hc]
      exact h
  have hn : (if row ≠ y.col_indices_lu k then clear_gain_block s1 k else s1).n_bus_
      = s1.n_bus_ := by
    split_ifs <;> rfl
  rw [entry_step_eq, entry_step_eq]
  by_cases hf : y.map_lu_y_bus k = -1
  · rw [if_pos hf, if_pos hf]
    exact h0
  · rw [if_neg hf, if_neg hf]
    exact agreeOn_mono
      (entry_fill_agree cabs y mv u mu row _ k _ h0 (by rw [hn]; exact hrow)
        (by rw [hn]; exact hcol))
      (fun _ hk => Or.inl hk) (fun _ hr => hr)

/-- The inner-loop body for the entry `k` of row `row` makes two runs agree on
the block `k`, when `k` is off-diagonal, or is the entry `lu_diag[row]` and
not a fill-in. -/
theorem entry_step_agree_est (cabs : ComplexValue R → R) (y : YBus R) (mv : MeasuredValues R)
    (u mu : Nat → ComplexValue R) (row k : Nat) {K Rw : Nat → Prop}
    {s1 s2 : NewtonRaphsonSESolver R P} (h : AgreeOn K Rw s1 s2)
    (hrow : row < s1.n_bus_) (hcol : y.col_indices_lu k < s1.n_bus_)
    (hk : y.col_indices_lu k ≠ row ∨ (y.lu_diag row = k ∧ y.map_lu_y_bus k ≠ -1)) :
    AgreeOn (fun k1 => K k1 ∨ k1 = k) Rw (entry_step cabs y mv u mu row s1 k)
      (entry_step cabs y mv u mu row s2 k) := by
  by_cases hc : row ≠ y.col_indices_lu k
  · have h1 : AgreeOn (fun k1 => K k1 ∨ k1 = k) Rw (clear_gain_block s1 k)
        (clear_gain_block s2 k) := agreeOn_clear h k
    rw [entry_step_eq, entry_step_eq]
    simp only [if_pos hc]
    by_cases hf : y.map_lu_y_bus k = -1
    · rw [if_pos hf, if_pos hf]
      exact h1
    · rw [if_neg hf, if_neg hf]
      exact agreeOn_mono
        (entry_fill_agree cabs y mv u mu row _ k _ h1 hrow hcol)
        (fun _ hk => Or.inl hk) (fun _ hr => hr)
  · rcases hk with hk | ⟨hd, hf⟩
    · exact absurd hk.symm hc
    · rw [entry_step_eq, entry_step_eq]
      simp only [if_neg hc, if_neg hf]
      have := entry_fill_agree cabs y mv u mu row (y.col_indices_lu k) k
        (y.map_lu_y_bus k).toNat h hrow hcol
      exact agreeOn_mono this (fun k1 hk1 => hk1.imp id (fun e => e.trans hd.symm))
        (fun _ hr => hr)

/-- The outer-loop body keeps two runs in agreement and makes them agree on
the right-hand-side block of the row. -/
theorem row_step_agree (cabs : ComplexValue R → R) (y : YBus R) (mv : MeasuredValues R)
    (u mu : Nat → ComplexValue R) (row : Nat) {K Rw : Nat → Prop}
    {s1 s2 : NewtonRaphsonSESolver R P} (h : AgreeOn K Rw s1 s2)
    (hrow : row < s1.n_bus_)
    (hcol : ∀ k, y.InRow row k → y.col_indices_lu k < s1.n_bus_) :
    AgreeOn K (fun r => Rw r ∨ r = row) (row_step cabs y mv u mu s1 row)
      (row_step cabs y mv u mu s2 row) := by
  unfold row_step
  have h0 : AgreeOn K (fun r => Rw r ∨ r = row)
      { s1 with del_x_rhs_ := Function.update s1.del_x_rhs_ row NRSEUnknown.zero }
      { s2 with del_x_rhs_ := Function.update s2.del_x_rhs_ row NRSEUnknown.zero } := by
    refine ⟨h.1, h.2.1, h.2.2.1, ?_⟩
    intro r hr
    by_cases hrr : r = row
    · subst hrr; simp
    · simp only [Function.update_noteq hrr]
      rcases hr with hr | hr
      · exact h.2.2.2 r hr
      · exact absurd hr hrr
  apply foldl_rel (fun t1 t2 => AgreeOn K (fun r => Rw r ∨ r = row) t1 t2
    ∧ t1.n_bus_ = s1.n_bus_) _ _ _ _ _ _ ⟨h0, rfl⟩ |>.1
  intro b1 b2 k hk hb
  rw [mem_range_sub] at hk
  refine ⟨entry_step_agree cabs y mv u mu row k hb.1 (by rw [hb.2]; exact hrow)
    (by rw [hb.2]; exact hcol k hk), ?_⟩
  rw [(entry_step_frame cabs y mv u mu row b1 k).1, hb.2]

/-- The outer-loop body of the row that holds the entry `k` makes two runs
agree on the block `k`. -/
theorem row_step_agree_est (cabs : ComplexValue R → R) (y : YBus R) (mv : MeasuredValues R)
    (u mu : Nat → ComplexValue R) (row k : Nat) {K Rw : Nat → Prop}
    {s1 s2 : NewtonRaphsonSESolver R P} (h : AgreeOn K Rw s1 s2)
    (hrow : row < s1.n_bus_)
    (hcol : ∀ k, y.InRow row k → y.col_indices_lu k < s1.n_bus_)
    (hin : y.InRow row k)
    (hk : y.col_indices_lu k ≠ row ∨ (y.lu_diag row = k ∧ y.map_lu_y_bus k ≠ -1)) :
    AgreeOn (fun k1 => K k1 ∨ k1 = k) Rw (row_step cabs y mv u mu s1 row)
      (row_step cabs y mv u mu s2 row) := by
  unfold row_step
  have h0 : AgreeOn K Rw
      { s1 with del_x_rhs_ := Function.update s1.del_x_rhs_ row NRSEUnknown.zero }
      { s2 with del_x_rhs_ := Function.update s2.del_x_rhs_ row NRSEUnknown.zero } :=
    agreeOn_set_rhs h row _ _ (fun _ => rfl)
  apply foldl_rel_establish
    (fun t1 t2 => AgreeOn K Rw t1 t2 ∧ t1.n_bus_ = s1.n_bus_)
    (fun t1 t2 => AgreeOn (fun k1 => K k1 ∨ k1 = k) Rw t1 t2 ∧ t1.n_bus_ = s1.n_bus_)
    _ _ _ k ((mem_range_sub _ _ _).mpr hin) ?_ ?_ ?_ _ _ ⟨h0, rfl⟩ |>.1
  · intro b1 b2 a ha hb
    rw [mem_range_sub] at ha
    refine ⟨entry_step_agree cabs y mv u mu row a hb.1 (by rw [hb.2]; exact hrow)
      (by rw [hb.2]; exact hcol a ha), ?_⟩
    rw [(entry_step_frame cabs y mv u mu row b1 a).1, hb.2]
  · intro b1 b2 hb
    refine ⟨entry_step_agree_est cabs y mv u mu row k hb.1 (by rw [hb.2]; exact hrow)
      (by rw [hb.2]; exact hcol k hin) hk, ?_⟩
    rw [(entry_step_frame cabs y mv u mu row b1 k).1, hb.2]
  · intro b1 b2 a ha hb
    rw [mem_range_sub] at ha
    refine ⟨entry_step_agree cabs y mv u mu row a hb.1 (by rw [hb.2]; exact hrow)
      (by rw [hb.2]; exact hcol a ha), ?_⟩
    rw [(entry_step_frame cabs y mv u mu row b1 a).1, hb.2]

theorem row_step_frame (cabs : ComplexValue R → R) (y : YBus R) (mv : MeasuredValues R)
    (u mu : Nat → ComplexValue R) (s : NewtonRaphsonSESolver R P) (row : Nat) :
    SameFrame s (row_step cabs y mv u mu s row) := by
  unfold row_step
  apply foldl_preserves (SameFrame s)
  · intro b a _ hb
    exact hb.trans (entry_step_frame cabs y mv u mu row b a)
  · exact ⟨rfl, rfl, rfl, rfl, rfl⟩

theorem assemble_rows_frame (cabs : ComplexValue R → R) (y : YBus R) (mv : MeasuredValues R)
    (u : Nat → ComplexValue R) (s : NewtonRaphsonSESolver R P) :
    SameFrame s (assemble_rows cabs y mv u s) := by
  unfold assemble_rows
  apply foldl_preserves (SameFrame s)
  · intro b a _ hb
    exact hb.trans (row_step_frame cabs y mv u _ b a)
  · exact SameFrame.refl s

theorem transpose_step_frame (y : YBus R) (s : NewtonRaphsonSESolver R P) (k : Nat) :
    SameFrame s (transpose_step y s k) := by
  unfold transpose_step
  split_ifs
  · exact SameFrame.refl s
  · exact ⟨rfl, rfl, rfl, rfl, rfl⟩

theorem assemble_gain_and_rhs_frame (cabs : ComplexValue R → R) (y : YBus R)
    (mv : MeasuredValues R) (u : Nat → ComplexValue R) (s : NewtonRaphsonSESolver R P) :
    SameFrame s (assemble_gain_and_rhs cabs y mv u s) := by
  unfold assemble_gain_and_rhs
  apply foldl_preserves (SameFrame s)
  · intro b a _ hb
    exact hb.trans (transpose_step_frame y b a)
  · exact assemble_rows_frame cabs y mv u s

/-- Every LU index below the last row pointer lies in some row. -/
theorem exists_row_of_lt (indptr : Nat → Nat) (k n : Nat) (h0 : indptr 0 ≤ k)
    (hn : k < indptr n) : ∃ row, row < n ∧ indptr row ≤ k ∧ k < indptr (row + 1) := by
  induction n with
  | zero => omega
  | succ n ih =>
    by_cases hk : k < indptr n
    · obtain ⟨row, h1, h2⟩ := ih hk
      exact ⟨row, by omega, h2⟩
    · exact ⟨n, by omega, by omega, hn⟩

theorem assemble_rows_eq (cabs : ComplexValue R → R) (y : YBus R) (mv : MeasuredValues R)
    (u : Nat → ComplexValue R) (s : NewtonRaphsonSESolver R P) :
    assemble_rows cabs y mv u s
      = (List.range s.n_bus_).foldl (row_step cabs y mv u (mv.voltage u)) s := rfl

/-- A row step of a well-formed row, carried along a fold together with the
size of the solver. -/
theorem row_step_agree_sized (cabs : ComplexValue R → R) (y : YBus R) (mv : MeasuredValues R)
    (u mu : Nat → ComplexValue R) (n row : Nat) {K Rw : Nat → Prop}
    {b1 b2 : NewtonRaphsonSESolver R P} (hb : AgreeOn K Rw b1 b2 ∧ b1.n_bus_ = n)
    (hrow : row < n) (hcol : ∀ k, y.InRow row k → y.col_indices_lu k < n) :
    AgreeOn K Rw (row_step cabs y mv u mu b1 row) (row_step cabs y mv u mu b2 row)
      ∧ (row_step cabs y mv u mu b1 row).n_bus_ = n := by
  refine ⟨agreeOn_mono (row_step_agree cabs y mv u mu row hb.1 (by rw [hb.2]; exact hrow)
    (by rw [hb.2]; exact hcol)) (fun _ hk => hk) (fun _ hr => Or.inl hr), ?_⟩
  rw [(row_step_frame cabs y mv u mu b1 row).1, hb.2]

/-- After the row loop two runs agree on every gain block of the LU pattern
and on every right-hand-side block, whatever the buffers held before. -/
theorem assemble_rows_agree_all (cabs : ComplexValue R → R) (y : YBus R)
    (mv : MeasuredValues R) (u : Nat → ComplexValue R) (s1 s2 : NewtonRaphsonSESolver R P)
    (hwf : y.DiagonalPresent s1.n_bus_) (hn : s1.n_bus_ = s2.n_bus_)
    (hv : ∀ bus, bus < s1.n_bus_ → (s1.x_ bus).v = (s2.x_ bus).v) :
    AgreeOn (fun k => k < y.nnz_lu) (fun r => r < s1.n_bus_)
      (assemble_rows cabs y mv u s1) (assemble_rows cabs y mv u s2) := by
  have hbase : AgreeOn (fun _ => False) (fun _ => False) s1 s2 :=
    ⟨hn, hv, fun _ hk => absurd hk id, fun _ hr => absurd hr id⟩
  have hf1 := assemble_rows_frame cabs y mv u s1
  have hf2 := assemble_rows_frame cabs y mv u s2
  refine ⟨by rw [hf1.1, hf2.1]; exact hn, ?_, ?_, ?_⟩
  · intro bus hbus
    rw [hf1.1] at hbus
    rw [hf1.2.2.1, hf2.2.2.1]
    exact hv bus hbus
  · intro k hk
    obtain ⟨row, hrow, hin⟩ := exists_row_of_lt y.row_indptr_lu k s1.n_bus_
      (by rw [hwf.indptr_zero]; exact Nat.zero_le k) (by rw [hwf.indptr_last]; exact hk)
    have hkc : y.col_indices_lu k ≠ row ∨ (y.lu_diag row = k ∧ y.map_lu_y_bus k ≠ -1) := by
      by_cases hc : y.col_indices_lu k = row
      · exact Or.inr (hwf.diag row k hrow hin hc)
      · exact Or.inl hc
    have := foldl_rel_establish
      (fun t1 t2 => AgreeOn (fun _ => False) (fun _ => False) t1 t2 ∧ t1.n_bus_ = s1.n_bus_)
      (fun t1 t2 => AgreeOn (fun k1 => False ∨ k1 = k) (fun _ => False) t1 t2
        ∧ t1.n_bus_ = s1.n_bus_)
      (row_step cabs y mv u (mv.voltage u)) (row_step cabs y mv u (mv.voltage u))
      (List.range s1.n_bus_) row (List.mem_range.mpr hrow) ?_ ?_ ?_ s1 s2 ⟨hbase, rfl⟩
    · rw [assemble_rows_eq, assemble_rows_eq, ← hn]
      exact this.1.2.2.1 k (Or.inr rfl)
    · intro b1 b2 a ha hb
      rw [List.mem_range] at ha
      exact row_step_agree_sized cabs y mv u _ _ a hb ha (fun k1 hk1 => hwf.col_lt a k1 ha hk1)
    · intro b1 b2 hb
      refine ⟨row_step_agree_est cabs y mv u _ row k hb.1 (by rw [hb.2]; exact hrow)
        (by rw [hb.2]; exact fun k1 hk1 => hwf.col_lt row k1 hrow hk1) hin hkc, ?_⟩
      rw [(row_step_frame cabs y mv u _ b1 row).1, hb.2]
    · intro b1 b2 a ha hb
      rw [List.mem_range] at ha
      exact row_step_agree_sized cabs y mv u _ _ a hb ha (fun k1 hk1 => hwf.col_lt a k1 ha hk1)
  · intro r hr
    have := foldl_rel_establish
      (fun t1 t2 => AgreeOn (fun _ => False) (fun _ => False) t1 t2 ∧ t1.n_bus_ = s1.n_bus_)
      (fun t1 t2 => AgreeOn (fun _ => False) (fun r1 => False ∨ r1 = r) t1 t2
        ∧ t1.n_bus_ = s1.n_bus_)
      (row_step cabs y mv u (mv.voltage u)) (row_step cabs y mv u (mv.voltage u))
      (List.range s1.n_bus_) r (List.mem_range.mpr hr) ?_ ?_ ?_ s1 s2 ⟨hbase, rfl⟩
    · rw [assemble_rows_eq, assemble_rows_eq, ← hn]
      exact this.1.2.2.2 r (Or.inr rfl)
    · intro b1 b2 a ha hb
      rw [List.mem_range] at ha
      exact row_step_agree_sized cabs y mv u _ _ a hb ha (fun k1 hk1 => hwf.col_lt a k1 ha hk1)
    · intro b1 b2 hb
      refine ⟨row_step_agree cabs y mv u _ r hb.1 (by rw [hb.2]; exact hr)
        (by rw [hb.2]; exact fun k1 hk1 => hwf.col_lt r k1 hr hk1), ?_⟩
      rw [(row_step_frame cabs y mv u _ b1 r).1, hb.2]
    · intro b1 b2 a ha hb
      rw [List.mem_range] at ha
      exact row_step_agree_sized cabs y mv u _ _ a hb ha (fun k1 hk1 => hwf.col_lt a k1 ha hk1)

/-- The transpose loop keeps two runs in agreement on the LU pattern. -/
theorem transpose_agree (y : YBus R) {Rw : Nat → Prop} {s1 s2 : NewtonRaphsonSESolver R P}
    (h : AgreeOn (fun k => k < y.nnz_lu) Rw s1 s2)
    (ht : ∀ k, k < y.nnz_lu → y.map_lu_y_bus k ≠ -1 → y.lu_transpose_entry k < y.nnz_lu)
    (l : List Nat) :
    AgreeOn (fun k => k < y.nnz_lu) Rw (l.foldl (transpose_step y) s1)
      (l.foldl (transpose_step y) s2) := by
  apply foldl_rel (AgreeOn (fun k => k < y.nnz_lu) Rw) _ _ _ _ _ _ h
  intro b1 b2 k _ hb
  unfold transpose_step
  by_cases hf : y.map_lu_y_bus k = -1
  · rw [if_pos hf, if_pos hf]
    exact hb
  · rw [if_neg hf, if_neg hf]
    exact agreeOn_set_gain hb k _ _ (fun hk => by
      rw [hb.2.2.1 k hk, hb.2.2.1 _ (ht k hk hf)])

end AssemblyAgree

/-! ## Lemmas on the assembly: the blocks a step does not address -/

section AssemblyOther

variable {R P : Type} [LinearOrderedField R]

theorem clear_gain_block_gain (s : NewtonRaphsonSESolver R P) (k k1 : Nat) :
    (clear_gain_block s k).data_gain_ k1
      = if k1 = k then NRSEGainBlock.zero else s.data_gain_ k1 := by
  by_cases h : k1 = k
  · subst h; simp [clear_gain_block]
  · simp [clear_gain_block, Function.update_noteq h, h]

theorem voltage_step_gain_ne (cabs : ComplexValue R → R) (mv : MeasuredValues R)
    (u mu : Nat → ComplexValue R) (row k k1 : Nat) (s : NewtonRaphsonSESolver R P)
    (h : k1 ≠ k) : (voltage_step cabs mv u mu row k s).data_gain_ k1 = s.data_gain_ k1 := by
  simp [voltage_step, Function.update_noteq h]

theorem element_step_gain_ne (y : YBus R) (mv : MeasuredValues R) (u : Nat → ComplexValue R)
    (row col k e k1 : Nat) (s : NewtonRaphsonSESolver R P) (h : k1 ≠ k) :
    (element_step y mv u row col k s e).data_gain_ k1 = s.data_gain_ k1 := by
  unfold element_step
  split
  · rfl
  · simp [Function.update_noteq h]

theorem element_loop_gain_ne (y : YBus R) (mv : MeasuredValues R) (u : Nat → ComplexValue R)
    (row col k d k1 : Nat) (s : NewtonRaphsonSESolver R P) (h : k1 ≠ k) :
    (element_loop y mv u row col k d s).data_gain_ k1 = s.data_gain_ k1 := by
  unfold element_loop
  apply foldl_preserves (fun t : NewtonRaphsonSESolver R P => t.data_gain_ k1 = s.data_gain_ k1)
  · intro b a _ hb
    rw [element_step_gain_ne y mv u row col k a k1 b h, hb]
  · rfl

theorem injection_step_gain_ne (y : YBus R) (mv : MeasuredValues R) (u : Nat → ComplexValue R)
    (row col k d k1 : Nat) (s : NewtonRaphsonSESolver R P) (h : k1 ≠ k) :
    (injection_step y mv u row col k d s).data_gain_ k1 = s.data_gain_ k1 := by
  unfold injection_step
  split_ifs
  · rfl
  · rfl
  · simp [Function.update_noteq h]
  · rfl

theorem transpose_step_gain_ne (y : YBus R) (s : NewtonRaphsonSESolver R P) (k k1 : Nat)
    (h : k1 ≠ k ∨ y.map_lu_y_bus k = -1) :
    (transpose_step y s k).data_gain_ k1 = s.data_gain_ k1 := by
  unfold transpose_step
  split_ifs with hf
  · rfl
  · rcases h with h | h
    · simp [Function.update_noteq h]
    · exact absurd h hf

/-- The transpose loop does not write to a fill-in entry. -/
theorem transpose_fill_in_untouched (y : YBus R) (s : NewtonRaphsonSESolver R P) (k1 : Nat)
    (hf : y.map_lu_y_bus k1 = -1) (l : List Nat) :
    (l.foldl (transpose_step y) s).data_gain_ k1 = s.data_gain_ k1 := by
  apply foldl_preserves (fun t : NewtonRaphsonSESolver R P => t.data_gain_ k1 = s.data_gain_ k1)
  · intro b k _ hb
    rw [transpose_step_gain_ne y b k k1, hb]
    by_cases hk : k1 = k
    · subst hk; exact Or.inr hf
    · exact Or.inl hk
  · rfl

/-- A fill-in block that is zero stays zero through any inner-loop body. -/
theorem entry_step_zero_pres (cabs : ComplexValue R → R) (y : YBus R) (mv : MeasuredValues R)
    (u mu : Nat → ComplexValue R) (row k k1 : Nat) (s : NewtonRaphsonSESolver R P)
    (hf : y.map_lu_y_bus k1 = -1) (hz : s.data_gain_ k1 = NRSEGainBlock.zero) :
    (entry_step cabs y mv u mu row s k).data_gain_ k1 = NRSEGainBlock.zero := by
  have h0 : (if row ≠ y.col_indices_lu k then clear_gain_block s k else s).data_gain_ k1
      = NRSEGainBlock.zero := by
    by_cases hc : row ≠ y.col_indices_lu k
    · rw [if_pos hc, clear_gain_block_gain]
      split_ifs
      · rfl
      · exact hz
    · rw [if_neg hc]; exact hz
  rw [entry_step_eq]
  by_cases hk : y.map_lu_y_bus k = -1
  · rw [if_pos hk]; exact h0
  · rw [if_neg hk]
    have hne : k1 ≠ k := by
      intro e; subst e; exact hk hf
    rw [injection_step_gain_ne _ _ _ _ _ _ _ _ _ hne, clear_gain_block_gain]
    by_cases hd : k1 = y.lu_diag row
    · rw [if_pos hd]
    · rw [if_neg hd, element_loop_gain_ne _ _ _ _ _ _ _ _ _ hne]
      by_cases hv : row = y.col_indices_lu k ∧ mv.has_voltage row = true
      · rw [if_pos hv, voltage_step_gain_ne _ _ _ _ _ _ _ _ hne]; exact h0
      · rw [if_neg hv]; exact h0

/-- The inner-loop body of an off-diagonal fill-in entry leaves its block
zero. -/
theorem entry_step_zero_est (cabs : ComplexValue R → R) (y : YBus R) (mv : MeasuredValues R)
    (u mu : Nat → ComplexValue R) (row k1 : Nat) (s : NewtonRaphsonSESolver R P)
    (hf : y.map_lu_y_bus k1 = -1) (hc : y.col_indices_lu k1 ≠ row) :
    (entry_step cabs y mv u mu row s k1).data_gain_ k1 = NRSEGainBlock.zero := by
  rw [entry_step_eq, if_pos hf, if_pos (Ne.symm hc), clear_gain_block_gain, if_pos rfl]

/-- The inner-loop body of an entry that is not a fill-in leaves the block
`lu_diag[row]` zero when that block is a fill-in. -/
theorem entry_step_zero_est_diag (cabs : ComplexValue R → R) (y : YBus R)
    (mv : MeasuredValues R) (u mu : Nat → ComplexValue R) (row k : Nat)
    (s : NewtonRaphsonSESolver R P) (hk : y.map_lu_y_bus k ≠ -1)
    (hf : y.map_lu_y_bus (y.lu_diag row) = -1) :
    (entry_step cabs y mv u mu row s k).data_gain_ (y.lu_diag row) = NRSEGainBlock.zero := by
  have hne : y.lu_diag row ≠ k := by
    intro e; rw [e] at hf; exact hk hf
  rw [entry_step_eq, if_neg hk, injection_step_gain_ne _ _ _ _ _ _ _ _ _ hne,
    clear_gain_block_gain, if_pos rfl]

theorem row_step_zero_pres (cabs : ComplexValue R → R) (y : YBus R) (mv : MeasuredValues R)
    (u mu : Nat → ComplexValue R) (row k1 : Nat) (s : NewtonRaphsonSESolver R P)
    (hf : y.map_lu_y_bus k1 = -1) (hz : s.data_gain_ k1 = NRSEGainBlock.zero) :
    (row_step cabs y mv u mu s row).data_gain_ k1 = NRSEGainBlock.zero := by
  unfold row_step
  apply foldl_preserves (fun t : NewtonRaphsonSESolver R P => t.data_gain_ k1 = NRSEGainBlock.zero)
  · intro b k _ hb
    exact entry_step_zero_pres cabs y mv u mu row k k1 b hf hb
  · exact hz

/-- The outer-loop body of a row leaves zero every fill-in block of the row
that is off-diagonal, and the fill-in block `lu_diag[row]` when the row has
an entry that is not a fill-in. -/
theorem row_step_zero_est (cabs : ComplexValue R → R) (y : YBus R) (mv : MeasuredValues R)
    (u mu : Nat → ComplexValue R) (row k1 : Nat) (s : NewtonRaphsonSESolver R P)
    (hf : y.map_lu_y_bus k1 = -1)
    (h : (y.InRow row k1 ∧ y.col_indices_lu k1 ≠ row)
      ∨ (y.lu_diag row = k1 ∧ ∃ k, y.InRow row k ∧ y.map_lu_y_bus k ≠ -1)) :
    (row_step cabs y mv u mu s row).data_gain_ k1 = NRSEGainBlock.zero := by
  unfold row_step
  rcases h with ⟨hin, hc⟩ | ⟨hd, k, hin, hk⟩
  · apply foldl_establish (fun _ : NewtonRaphsonSESolver R P => True) (fun t : NewtonRaphsonSESolver R P => t.data_gain_ k1 = NRSEGainBlock.zero)
      _ _ k1 ((mem_range_sub _ _ _).mpr hin)
    · intro _ _ _ _; trivial
    · intro b _
      exact entry_step_zero_est cabs y mv u mu row k1 b hf hc
    · intro b k _ hb
      exact entry_step_zero_pres cabs y mv u mu row k k1 b hf hb
    · trivial
  · apply foldl_establish (fun _ : NewtonRaphsonSESolver R P => True) (fun t : NewtonRaphsonSESolver R P => t.data_gain_ k1 = NRSEGainBlock.zero)
      _ _ k ((mem_range_sub _ _ _).mpr hin)
    · intro _ _ _ _; trivial
    · intro b _
      rw [← hd]
      exact entry_step_zero_est_diag cabs y mv u mu row k b hk (by rw [hd]; exact hf)
    · intro b k2 _ hb
      exact entry_step_zero_pres cabs y mv u mu row k2 k1 b hf hb
    · trivial

end AssemblyOther


/-! ## Lemmas on the iteration loop -/

section LoopLemmas

variable {R P : Type} [LinearOrderedField R]

theorem restart_sub_timer_num_iter (a : SEArgs R) (st : SEState R P) (code : Nat)
    (name : String) : (st.restart_sub_timer a code name).num_iter = st.num_iter := rfl

/-- A successful loop body leaves `num_iter` as it found it. -/
theorem loop_body_num_iter (a : SEArgs R) (st st1 : SEState R P)
    (h : loop_body a st = Except.ok st1) : st1.num_iter = st.num_iter := by
  unfold loop_body at h
  simp only at h
  split at h
  · cases h
  · split at h
    · cases h
    · cases h
      rfl

/-- The only error a loop body can end with is the one of the sparse solver. -/
theorem loop_body_error (a : SEArgs R) (st : SEState R P) (e : SEError R × SEState R P)
    (h : loop_body a st = Except.error e) : e.1 = SEError.SingularMatrix := by
  unfold loop_body at h
  simp only at h
  split at h
  · rename_i e1 hp
    cases h
    unfold prepare_matrix_and_rhs at hp
    simp only at hp
    split at hp
    · cases hp; rfl
    · cases hp
  · split at h
    · cases h; rfl
    · cases h

/-- When the sparse solver fails inside a loop body, the assembly has been
done: at the `throw` the right-hand-side buffer holds the assembled values,
and `x_` is as the body found it. -/
theorem loop_body_error_state (a : SEArgs R) (st : SEState R P)
    (e : SEError R × SEState R P) (h : loop_body a st = Except.error e) :
    e.2.solver.del_x_rhs_
        = (assemble_gain_and_rhs a.cabs a.y_bus a.measured_values st.u st.solver).del_x_rhs_
      ∧ e.2.solver.x_
        = (assemble_gain_and_rhs a.cabs a.y_bus a.measured_values st.u st.solver).x_ := by
  unfold loop_body at h
  simp only at h
  split at h
  · rename_i e1 hp
    cases h
    unfold prepare_matrix_and_rhs at hp
    simp only at hp
    split at hp
    · cases hp; exact ⟨rfl, rfl⟩
    · cases hp
  · rename_i solver hp
    split at h
    · cases h
      unfold prepare_matrix_and_rhs at hp
      simp only at hp
      split at hp
      · cases hp
      · cases hp; exact ⟨rfl, rfl⟩
    · cases h

theorem round_num_iter (a : SEArgs R) (st st1 : SEState R P)
    (h : round a st = Except.ok st1) : st1.num_iter = st.num_iter + 1 := by
  unfold round at h
  rw [loop_body_num_iter a _ _ h]

theorem round_error (a : SEArgs R) (st : SEState R P) (e : SEError R × SEState R P)
    (h : round a st = Except.error e) : e.1 = SEError.SingularMatrix :=
  loop_body_error a _ e h

theorem rounds_zero (a : SEArgs R) (st : SEState R P) : rounds a 0 st = Except.ok st := rfl

theorem rounds_succ_ok (a : SEArgs R) (j : Nat) (st st1 : SEState R P)
    (h : round a st = Except.ok st1) : rounds a (j + 1) st = rounds a j st1 := by
  simp [rounds, h]

theorem rounds_succ_error (a : SEArgs R) (j : Nat) (st : SEState R P)
    (e : SEError R × SEState R P) (h : round a st = Except.error e) :
    rounds a (j + 1) st = Except.error e := by
  simp [rounds, h]

theorem rounds_num_iter (a : SEArgs R) (j : Nat) (st stj : SEState R P)
    (h : rounds a j st = Except.ok stj) : stj.num_iter = st.num_iter + j := by
  induction j generalizing st with
  | zero => cases h; rfl
  | succ j ih =>
    cases hr : round a st with
    | error e => rw [rounds_succ_error a j st e hr] at h; cases h
    | ok st1 =>
      rw [rounds_succ_ok a j st st1 hr] at h
      rw [ih st1 h, round_num_iter a st st1 hr]
      omega

/-- Rounds executed in sequence compose. -/
theorem rounds_add (a : SEArgs R) (i j : Nat) (st sti : SEState R P)
    (h : rounds a i st = Except.ok sti) : rounds a (i + j) st = rounds a j sti := by
  induction i generalizing st with
  | zero => cases h; simp
  | succ i ih =>
    cases hr : round a st with
    | error e => rw [rounds_succ_error a i st e hr] at h; cases h
    | ok st1 =>
      rw [rounds_succ_ok a i st st1 hr] at h
      have : i + 1 + j = (i + j) + 1 := by omega
      rw [this, rounds_succ_ok a (i + j) st st1 hr]
      exact ih st1 h

/-- Once a round has failed, every longer sequence of rounds fails. -/
theorem rounds_error_mono (a : SEArgs R) (i j : Nat) (st : SEState R P)
    (e : SEError R × SEState R P) (h : rounds a i st = Except.error e) :
    rounds a (i + j) st = Except.error e := by
  induction i generalizing st with
  | zero => cases h
  | succ i ih =>
    cases hr : round a st with
    | error e1 =>
      rw [rounds_succ_error a i st e1 hr] at h
      have : i + 1 + j = (i + j) + 1 := by omega
      rw [this, rounds_succ_error a (i + j) st e1 hr]
      exact h
    | ok st1 =>
      rw [rounds_succ_ok a i st st1 hr] at h
      have : i + 1 + j = (i + j) + 1 := by omega
      rw [this, rounds_succ_ok a (i + j) st st1 hr]
      exact ih st1 h

/-- If `j` rounds succeed, every shorter sequence succeeds. -/
theorem rounds_ok_of_le (a : SEArgs R) (i j : Nat) (hij : i ≤ j) (st stj : SEState R P)
    (h : rounds a j st = Except.ok stj) : ∃ sti, rounds a i st = Except.ok sti := by
  cases hi : rounds a i st with
  | ok sti => exact ⟨sti, rfl⟩
  | error e =>
    have := rounds_error_mono a i (j - i) st e hi
    rw [show i + (j - i) = j by omega, h] at this
    cases this

/-- What an ended loop says about the rounds: it executed some number `k` of
rounds, before each of which the loop condition held and `num_iter` differed
from `max_iter`, and then it stopped in one of three ways: the condition
failed (normal exit), `num_iter` was `max_iter` (`IterationDiverge`), or the
next round failed in the sparse solver. -/
theorem iterate_loop_sound (a : SEArgs R) (fuel : Nat) (st : SEState R P)
    (res : Except (SEError R × SEState R P) (SEState R P))
    (h : iterate_loop a fuel st = some res) :
    ∃ k stk, rounds a k st = Except.ok stk
      ∧ (∀ i, i < k → ∃ sti, rounds a i st = Except.ok sti
            ∧ (a.err_tol < sti.max_dev ∨ sti.num_iter = 0)
            ∧ (sti.num_iter : Int) ≠ a.max_iter)
      ∧ ((res = Except.ok stk ∧ ¬ (a.err_tol < stk.max_dev ∨ stk.num_iter = 0))
        ∨ ((a.err_tol < stk.max_dev ∨ stk.num_iter = 0)
            ∧ (stk.num_iter : Int) = a.max_iter
            ∧ res = Except.error (SEError.IterationDiverge a.max_iter stk.max_dev a.err_tol,
                { stk with num_iter := stk.num_iter + 1 }))
        ∨ ((a.err_tol < stk.max_dev ∨ stk.num_iter = 0)
            ∧ (stk.num_iter : Int) ≠ a.max_iter
            ∧ ∃ e, round a stk = Except.error e ∧ res = Except.error e
                ∧ e.1 = SEError.SingularMatrix)) := by
  induction fuel generalizing st with
  | zero => simp [iterate_loop] at h
  | succ fuel ih =>
    unfold iterate_loop at h
    by_cases hc : a.err_tol < st.max_dev ∨ st.num_iter = 0
    · rw [if_pos hc] at h
      by_cases hm : (st.num_iter : Int) = a.max_iter
      · rw [if_pos hm] at h
        refine ⟨0, st, rfl, ?_, Or.inr (Or.inl ⟨hc, hm, ?_⟩)⟩
        · intro i hi; omega
        · exact (Option.some.inj h).symm
      · rw [if_neg hm] at h
        cases hr : round a st with
        | error e =>
          rw [hr] at h
          refine ⟨0, st, rfl, ?_, Or.inr (Or.inr ⟨hc, hm, e, hr, ?_, round_error a st e hr⟩)⟩
          · intro i hi; omega
          · exact (Option.some.inj h).symm
        | ok st1 =>
          rw [hr] at h
          obtain ⟨k, stk, hk, hpre, hend⟩ := ih st1 h
          refine ⟨k + 1, stk, ?_, ?_, hend⟩
          · rw [rounds_succ_ok a k st st1 hr]; exact hk
          · intro i hi
            cases i with
            | zero => exact ⟨st, rfl, hc, hm⟩
            | succ i =>
              obtain ⟨sti, h1, h2, h3⟩ := hpre i (by omega)
              exact ⟨sti, by rw [rounds_succ_ok a i st st1 hr]; exact h1, h2, h3⟩
    · rw [if_neg hc] at h
      refine ⟨0, st, rfl, ?_, Or.inl ⟨(Option.some.inj h).symm, hc⟩⟩
      intro i hi; omega

/-- With `d` rounds left before `num_iter` reaches `max_iter`, `d + 1`
evaluations of the loop condition end the loop. -/
theorem iterate_loop_total (a : SEArgs R) (d fuel : Nat) (st : SEState R P)
    (hd : (st.num_iter : Int) + d = a.max_iter) (hf : d < fuel) :
    ∃ res, iterate_loop a fuel st = some res := by
  induction d generalizing fuel st with
  | zero =>
    cases fuel with
    | zero => omega
    | succ fuel =>
      unfold iterate_loop
      by_cases hc : a.err_tol < st.max_dev ∨ st.num_iter = 0
      · rw [if_pos hc, if_pos (by simpa using hd)]
        exact ⟨_, rfl⟩
      · rw [if_neg hc]
        exact ⟨_, rfl⟩
  | succ d ih =>
    cases fuel with
    | zero => omega
    | succ fuel =>
      unfold iterate_loop
      by_cases hc : a.err_tol < st.max_dev ∨ st.num_iter = 0
      · rw [if_pos hc]
        have hm : ¬ (st.num_iter : Int) = a.max_iter := by
          intro hm
          rw [hm] at hd
          push_cast at hd
          omega
        rw [if_neg hm]
        cases hr : round a st with
        | error e => exact ⟨_, rfl⟩
        | ok st1 =>
          simp only
          apply ih fuel st1 _ (by omega)
          rw [round_num_iter a st st1 hr]
          push_cast at hd ⊢
          omega
      · rw [if_neg hc]
        exact ⟨_, rfl⟩

theorem get_set_ne (info : CalculationInfo R) (k1 k2 : Nat × String) (x : R) (h : k2 ≠ k1) :
    (info.set k1 x).get k2 = info.get k2 := by
  simp [CalculationInfo.get, CalculationInfo.set, Function.update_noteq h]

theorem get_set_self (info : CalculationInfo R) (k : Nat × String) (x : R) :
    (info.set k x).get k = x := by
  simp [CalculationInfo.get, CalculationInfo.set]

/-- Stopping a timer whose code is not 2228 leaves the entry of key 2228. -/
theorem timer_stop_get (elapsed : R) (timer : Option Timer) (info : CalculationInfo R)
    (name : String) (h : ∀ t, timer = some t → t.code ≠ 2228) :
    (Timer.stop elapsed timer info).get (Timer.make_key 2228 name)
      = info.get (Timer.make_key 2228 name) := by
  cases timer with
  | none => rfl
  | some t =>
    simp only [Timer.stop]
    apply get_set_ne
    intro hk
    apply h t rfl
    simp only [Timer.make_key, Prod.mk.injEq] at hk
    exact hk.1.symm

theorem restart_sub_timer_untouched (a : SEArgs R) (v : R) (st : SEState R P) (code : Nat)
    (name : String) (hcode : code ≠ 2228) (h : IterEntryUntouched v st) :
    IterEntryUntouched v (st.restart_sub_timer a code name) := by
  refine ⟨?_, ?_⟩
  · intro t ht
    simp only [SEState.restart_sub_timer, Option.some.injEq] at ht
    rw [← ht]
    exact hcode
  · simp only [SEState.restart_sub_timer]
    rw [timer_stop_get _ _ _ _ h.1]
    exact h.2

theorem loop_body_untouched (a : SEArgs R) (v : R) (st st1 : SEState R P)
    (hst : IterEntryUntouched v st) (h : loop_body a st = Except.ok st1) :
    IterEntryUntouched v st1 := by
  unfold loop_body at h
  simp only at h
  split at h
  · cases h
  · split at h
    · cases h
    · cases h
      have h1 := restart_sub_timer_untouched a v st 2224 "Prepare LHS rhs" (by decide) hst
      rename_i solver _ _ x _
      have h2 := restart_sub_timer_untouched a v
        { st.restart_sub_timer a 2224 "Prepare LHS rhs" with solver := solver } 2225
        "Solve sparse linear equation (pre-factorized)" (by decide) h1
      have h3 := restart_sub_timer_untouched a v
        { ({ st.restart_sub_timer a 2224 "Prepare LHS rhs" with solver := solver }
            : SEState R P).restart_sub_timer a 2225
            "Solve sparse linear equation (pre-factorized)" with
          solver := { solver with del_x_rhs_ := x } } 2226 "Iterate unknown" (by decide) h2
      exact h3

theorem rounds_untouched (a : SEArgs R) (v : R) (j : Nat) (st stj : SEState R P)
    (hst : IterEntryUntouched v st) (h : rounds a j st = Except.ok stj) :
    IterEntryUntouched v stj := by
  induction j generalizing st with
  | zero => cases h; exact hst
  | succ j ih =>
    cases hr : round a st with
    | error e => rw [rounds_succ_error a j st e hr] at h; cases h
    | ok st1 =>
      rw [rounds_succ_ok a j st st1 hr] at h
      exact ih st1 (loop_body_untouched a v { st with num_iter := st.num_iter + 1 } st1
        ⟨hst.1, hst.2⟩ hr) h

theorem initial_state_untouched (a : SEArgs R) (info : CalculationInfo R)
    (s : NewtonRaphsonSESolver R P) :
    IterEntryUntouched (info.get (Timer.make_key 2228 "Max number of iterations"))
      (initial_state a info s) := by
  have h0 : IterEntryUntouched (info.get (Timer.make_key 2228 "Max number of iterations"))
      ({ solver := s, u := fun _ => ComplexValue.zero, max_dev := a.dbl_max, num_iter := 0,
         sub_timer := some ⟨2221, "Pre-process measured value"⟩,
         calculation_info := info } : SEState R P) := by
    refine ⟨?_, rfl⟩
    intro t ht
    simp only [Option.some.injEq] at ht
    rw [← ht]
    decide
  exact restart_sub_timer_untouched a _ _ 2223 "Initialize voltages" (by decide) h0

/-- The loop is entered with `num_iter = 0`. -/
theorem initial_state_num_iter (a : SEArgs R) (info : CalculationInfo R)
    (s : NewtonRaphsonSESolver R P) : (initial_state a info s).num_iter = 0 := rfl

/-- Before round `i + 1` of a loop started at `num_iter = 0`, `num_iter` is `i`;
if it never equals `max_iter >= 0` on the way, at most `max_iter` rounds were
executed. -/
theorem rounds_le_max_iter (a : SEArgs R) (st0 : SEState R P) (h0 : st0.num_iter = 0)
    (hmax : 0 ≤ a.max_iter) (k : Nat)
    (hpre : ∀ i, i < k → ∃ sti, rounds a i st0 = Except.ok sti
      ∧ (a.err_tol < sti.max_dev ∨ sti.num_iter = 0) ∧ (sti.num_iter : Int) ≠ a.max_iter) :
    (k : Int) ≤ a.max_iter := by
  by_contra hlt
  push_neg at hlt
  obtain ⟨sti, h1, _, h3⟩ := hpre a.max_iter.toNat (by omega)
  apply h3
  rw [rounds_num_iter a _ st0 sti h1, h0]
  omega

/-- How `run_state_estimation` wraps a normal end of the loop. -/
theorem run_of_loop_ok (a : SEArgs R) (info : CalculationInfo R)
    (s : NewtonRaphsonSESolver R P) (fuel : Nat) (st : SEState R P)
    (h : iterate_loop a fuel (initial_state a info s) = some (Except.ok st)) :
    ∃ res, run_state_estimation a info s fuel = some res
      ∧ res.outcome = Except.ok { u := st.u, bus_injection := fun _ => ComplexValue.zero }
      ∧ res.solver = st.solver ∧ res.num_iter = st.num_iter
      ∧ res.calculation_info
          = (Timer.stop (a.clock 2220 st.num_iter) (some ⟨2220, "Math solver"⟩)
              (Timer.stop (a.clock 2227 st.num_iter) (some ⟨2227, "Calculate Math Result"⟩)
                (st.restart_sub_timer a 2227 "Calculate Math Result").calculation_info)).set
              (Timer.make_key 2228 "Max number of iterations")
              (max ((Timer.stop (a.clock 2220 st.num_iter) (some ⟨2220, "Math solver"⟩)
                (Timer.stop (a.clock 2227 st.num_iter) (some ⟨2227, "Calculate Math Result"⟩)
                  (st.restart_sub_timer a 2227 "Calculate Math Result").calculation_info)).get
                  (Timer.make_key 2228 "Max number of iterations")) (st.num_iter : R)) := by
  unfold run_state_estimation
  simp only [h]
  exact ⟨_, rfl, rfl, rfl, rfl, rfl⟩

/-- How `run_state_estimation` wraps an error of the loop. -/
theorem run_of_loop_error (a : SEArgs R) (info : CalculationInfo R)
    (s : NewtonRaphsonSESolver R P) (fuel : Nat) (e : SEError R) (st : SEState R P)
    (h : iterate_loop a fuel (initial_state a info s) = some (Except.error (e, st))) :
    ∃ res, run_state_estimation a info s fuel = some res
      ∧ res.outcome = Except.error e ∧ res.solver = st.solver
      ∧ res.num_iter = st.num_iter := by
  unfold run_state_estimation
  simp only [h]
  exact ⟨_, rfl, rfl, rfl, rfl⟩

/-- A result of `run_state_estimation` comes from an ended loop. -/
theorem loop_of_run (a : SEArgs R) (info : CalculationInfo R)
    (s : NewtonRaphsonSESolver R P) (fuel : Nat) (res : SEResult R P)
    (h : run_state_estimation a info s fuel = some res) :
    ∃ lres, iterate_loop a fuel (initial_state a info s) = some lres := by
  cases hl : iterate_loop a fuel (initial_state a info s) with
  | none => unfold run_state_estimation at h; simp [hl] at h
  | some lres => exact ⟨lres, rfl⟩

/-- Every result of `run_state_estimation` in terms of the executed rounds:
`k` rounds were executed from the initial state, the loop condition held and
`num_iter` differed from `max_iter` before each of them, and the call ended
in one of three ways.  Normal return: the condition failed after round `k`.
`IterationDiverge`: `num_iter` was `max_iter` after round `k`.
`SingularMatrix`: round `k + 1` failed in the sparse solver. -/
theorem run_sound (a : SEArgs R) (info : CalculationInfo R)
    (s : NewtonRaphsonSESolver R P) (fuel : Nat) (res : SEResult R P)
    (h : run_state_estimation a info s fuel = some res) :
    ∃ k stk, rounds a k (initial_state a info s) = Except.ok stk
      ∧ stk.num_iter = k
      ∧ (∀ i, i < k → ∃ sti, rounds a i (initial_state a info s) = Except.ok sti
            ∧ (a.err_tol < sti.max_dev ∨ sti.num_iter = 0)
            ∧ (sti.num_iter : Int) ≠ a.max_iter)
      ∧ ((¬ (a.err_tol < stk.max_dev ∨ stk.num_iter = 0)
            ∧ res.outcome = Except.ok { u := stk.u, bus_injection := fun _ => ComplexValue.zero }
            ∧ res.solver = stk.solver ∧ res.num_iter = k
            ∧ res.calculation_info.get (Timer.make_key 2228 "Max number of iterations")
                = max (info.get (Timer.make_key 2228 "Max number of iterations")) (k : R))
        ∨ ((a.err_tol < stk.max_dev ∨ stk.num_iter = 0)
            ∧ (k : Int) = a.max_iter
            ∧ res.outcome
                = Except.error (SEError.IterationDiverge a.max_iter stk.max_dev a.err_tol)
            ∧ res.solver = stk.solver ∧ res.num_iter = k + 1)
        ∨ ((a.err_tol < stk.max_dev ∨ stk.num_iter = 0)
            ∧ (k : Int) ≠ a.max_iter
            ∧ ∃ e, round a stk = Except.error e
                ∧ res.outcome = Except.error SEError.SingularMatrix
                ∧ res.solver = e.2.solver)) := by
  obtain ⟨lres, hl⟩ := loop_of_run a info s fuel res h
  obtain ⟨k, stk, hk, hpre, hend⟩ := iterate_loop_sound a fuel _ lres hl
  have hnum : stk.num_iter = k := by
    rw [rounds_num_iter a k _ stk hk, initial_state_num_iter]; omega
  refine ⟨k, stk, hk, hnum, hpre, ?_⟩
  rcases hend with ⟨hres, hc⟩ | ⟨hc, hm, hres⟩ | ⟨hc, hm, e, he, hres, hsing⟩
  · subst hres
    obtain ⟨res1, hr1, ho, hs, hn, hi⟩ := run_of_loop_ok a info s fuel stk hl
    rw [h] at hr1
    cases hr1
    refine Or.inl ⟨hc, ho, hs, by rw [hn, hnum], ?_⟩
    have hu := rounds_untouched a _ k _ stk (initial_state_untouched a info s) hk
    have hu1 := restart_sub_timer_untouched a _ stk 2227 "Calculate Math Result"
      (by decide) hu
    rw [hi, get_set_self, timer_stop_get _ _ _ _ (by intro t ht; cases ht; decide),
      timer_stop_get _ _ _ _ (by intro t ht; cases ht; decide), hu1.2, hnum]
  · subst hres
    obtain ⟨res1, hr1, ho, hs, hn⟩ := run_of_loop_error a info s fuel _ _ hl
    rw [h] at hr1
    cases hr1
    refine Or.inr (Or.inl ⟨hc, by rw [← hnum]; exact hm, ho, hs, by rw [hn, hnum]⟩)
  · subst hres
    obtain ⟨e1, e2⟩ := e
    simp only at hsing
    subst hsing
    obtain ⟨res1, hr1, ho, hs, hn⟩ := run_of_loop_error a info s fuel _ _ hl
    rw [h] at hr1
    cases hr1
    exact Or.inr (Or.inr ⟨hc, by rw [← hnum]; exact hm, _, he, ho, hs⟩)

/-- For `max_iter >= 0`, `max_iter + 1` evaluations of the loop condition are
enough for `run_state_estimation` to end. -/
theorem run_total (a : SEArgs R) (info : CalculationInfo R)
    (s : NewtonRaphsonSESolver R P) (fuel : Nat) (hmax : 0 ≤ a.max_iter)
    (hfuel : a.max_iter.toNat < fuel) :
    ∃ res, run_state_estimation a info s fuel = some res := by
  obtain ⟨lres, hl⟩ := iterate_loop_total a a.max_iter.toNat fuel (initial_state a info s)
    (by rw [initial_state_num_iter]; push_cast; omega) hfuel
  cases lres with
  | ok st =>
    obtain ⟨res, hr, _⟩ := run_of_loop_ok a info s fuel st hl
    exact ⟨res, hr⟩
  | error e =>
    obtain ⟨e1, e2⟩ := e
    obtain ⟨res, hr, _⟩ := run_of_loop_error a info s fuel e1 e2 hl
    exact ⟨res, hr⟩

end LoopLemmas

/-! ## Lemmas on one round -/

section RoundLemmas

variable {R P : Type} [LinearOrderedField R]

theorem iterate_unknown_eq (cexp : R → ComplexValue R) (cabs : ComplexValue R → R)
    (s : NewtonRaphsonSESolver R P) (u : Nat → ComplexValue R) (flag : Bool) :
    iterate_unknown cexp cabs s u flag
      = { solver := { s with x_ := fun bus =>
            if bus < s.n_bus_ then spec_updated_x s bus else s.x_ bus }
          u := fun bus => if bus < s.n_bus_ then spec_updated_u cexp s bus else u bus
          max_dev := (List.range s.n_bus_).foldl
            (fun m bus => max (spec_bus_dev cexp cabs s u bus) m) 0 } :=
  iterate_foldl_range cexp cabs s u 0 s.n_bus_

/-- A successful round is an update by `iterate_unknown` of a solver `sm` that
has the size, the phase shifts, the sparse solver and the `x_` the round
started with (its buffers `data_gain_` and `del_x_rhs_` are those left by
the assembly and the sparse solver). -/
theorem loop_body_spec (a : SEArgs R) (st st1 : SEState R P)
    (h : loop_body a st = Except.ok st1) :
    ∃ sm : NewtonRaphsonSESolver R P,
      sm.n_bus_ = st.solver.n_bus_ ∧ sm.phase_shift = st.solver.phase_shift
      ∧ sm.x_ = st.solver.x_ ∧ sm.sparse_solver_ = st.solver.sparse_solver_
      ∧ (∃ g p r, st.solver.sparse_solver_.solve_with_prefactorized_matrix g p r
          = some sm.del_x_rhs_)
      ∧ st1.solver = (iterate_unknown a.cexp a.cabs sm st.u
          a.measured_values.has_angle_measurement).solver
      ∧ st1.u = (iterate_unknown a.cexp a.cabs sm st.u
          a.measured_values.has_angle_measurement).u
      ∧ st1.max_dev = (iterate_unknown a.cexp a.cabs sm st.u
          a.measured_values.has_angle_measurement).max_dev := by
  unfold loop_body at h
  simp only at h
  split at h
  · cases h
  · rename_i solver hp
    split at h
    · cases h
    · rename_i x hx
      cases h
      unfold prepare_matrix_and_rhs at hp
      simp only at hp
      split at hp
      · cases hp
      · rename_i res hres
        cases hp
        have hf := assemble_gain_and_rhs_frame a.cabs a.y_bus a.measured_values st.u st.solver
        refine ⟨{ assemble_gain_and_rhs a.cabs a.y_bus a.measured_values st.u st.solver with
            data_gain_ := res.1, perm_ := res.2, del_x_rhs_ := x },
          hf.1, hf.2.1, hf.2.2.1, hf.2.2.2.1,
          ⟨res.1, res.2,
            (assemble_gain_and_rhs a.cabs a.y_bus a.measured_values st.u st.solver).del_x_rhs_,
            ?_⟩, rfl, rfl, rfl⟩
        rw [← hf.2.2.2.1]
        exact hx

/-- A successful round keeps the size and the phase shifts of the solver. -/
theorem round_frame (a : SEArgs R) (st st1 : SEState R P)
    (h : round a st = Except.ok st1) :
    st1.solver.n_bus_ = st.solver.n_bus_ ∧ st1.solver.phase_shift = st.solver.phase_shift
      ∧ st1.solver.sparse_solver_ = st.solver.sparse_solver_ := by
  obtain ⟨sm, h1, h2, _, h4, _, h5, _⟩ := loop_body_spec a _ st1 h
  rw [h5, iterate_unknown_eq]
  exact ⟨h1, h2, h4⟩

theorem rounds_frame (a : SEArgs R) (j : Nat) (st stj : SEState R P)
    (h : rounds a j st = Except.ok stj) :
    stj.solver.n_bus_ = st.solver.n_bus_ ∧ stj.solver.phase_shift = st.solver.phase_shift
      ∧ stj.solver.sparse_solver_ = st.solver.sparse_solver_ := by
  induction j generalizing st with
  | zero => cases h; exact ⟨rfl, rfl, rfl⟩
  | succ j ih =>
    cases hr : round a st with
    | error e => rw [rounds_succ_error a j st e hr] at h; cases h
    | ok st1 =>
      rw [rounds_succ_ok a j st st1 hr] at h
      have h1 := ih st1 h
      have h2 := round_frame a st st1 hr
      exact ⟨h1.1.trans h2.1, h1.2.1.trans h2.2.1, h1.2.2.trans h2.2.2⟩

/-- The state in which the loop is entered, field by field. -/
theorem initial_state_solver (a : SEArgs R) (info : CalculationInfo R)
    (s : NewtonRaphsonSESolver R P) :
    (initial_state a info s).solver
        = { s with x_ := fun bus =>
              if bus < s.n_bus_ then
                { s.x_ bus with v := 1, theta := a.measured_values.mean_angle_shift
                    + s.phase_shift bus }
              else s.x_ bus }
      ∧ (initial_state a info s).u
        = fun bus => if bus < s.n_bus_ then
            a.cexp (a.measured_values.mean_angle_shift + s.phase_shift bus)
          else ComplexValue.zero := by
  unfold initial_state initialize_voltages
  simp only [SEState.restart_sub_timer]
  rw [initialize_foldl_range]
  exact ⟨rfl, rfl⟩

/-- The cache invariant `u[bus] = v[bus] * exp(i theta[bus])` on the buses of
the solver. -/
theorem cache_initial (a : SEArgs R) (info : CalculationInfo R)
    (s : NewtonRaphsonSESolver R P) (bus : Nat) (hbus : bus < s.n_bus_) :
    (initial_state a info s).u bus
      = ComplexValue.smul ((initial_state a info s).solver.x_ bus).v
          (a.cexp ((initial_state a info s).solver.x_ bus).theta) := by
  obtain ⟨h1, h2⟩ := initial_state_solver a info s
  rw [h1, h2]
  simp [hbus, ComplexValue.smul]

theorem cache_round (a : SEArgs R) (st st1 : SEState R P) (h : round a st = Except.ok st1)
    (bus : Nat) (hbus : bus < st.solver.n_bus_) :
    st1.u bus = ComplexValue.smul (st1.solver.x_ bus).v (a.cexp (st1.solver.x_ bus).theta) := by
  obtain ⟨sm, h1, _, _, _, _, h5, h6, _⟩ := loop_body_spec a _ st1 h
  rw [h5, h6, iterate_unknown_eq]
  have : bus < sm.n_bus_ := by rw [h1]; exact hbus
  simp [this, spec_updated_u]

theorem cache_rounds (a : SEArgs R) (info : CalculationInfo R)
    (s : NewtonRaphsonSESolver R P) (j : Nat) (stj : SEState R P)
    (h : rounds a j (initial_state a info s) = Except.ok stj)
    (bus : Nat) (hbus : bus < s.n_bus_) :
    stj.u bus = ComplexValue.smul (stj.solver.x_ bus).v (a.cexp (stj.solver.x_ bus).theta) := by
  have hn0 : (initial_state a info s).solver.n_bus_ = s.n_bus_ := by
    rw [(initial_state_solver a info s).1]
  cases j with
  | zero =>
    cases h
    exact cache_initial a info s bus hbus
  | succ j =>
    obtain ⟨sti, hi⟩ := rounds_ok_of_le a j (j + 1) (by omega) _ stj h
    have h2 := rounds_add a j 1 _ sti hi
    rw [h] at h2
    cases hr : round a sti with
    | error e => rw [rounds_succ_error a 0 sti e hr] at h2; cases h2
    | ok st1 =>
      rw [rounds_succ_ok a 0 sti st1 hr, rounds_zero] at h2
      cases h2
      apply cache_round a sti stj hr bus
      rw [(rounds_frame a j _ sti hi).1, hn0]
      exact hbus

/-- With a sparse solver that never signals a failure, a round succeeds. -/
theorem round_ok_of_total (a : SEArgs R) (st : SEState R P)
    (hpre : ∀ g p, ∃ r, st.solver.sparse_solver_.prefactorize g p = some r)
    (hsol : ∀ g p r, ∃ x, st.solver.sparse_solver_.solve_with_prefactorized_matrix g p r
      = some x) :
    ∃ st1, round a st = Except.ok st1 := by
  have hf := assemble_gain_and_rhs_frame a.cabs a.y_bus a.measured_values st.u st.solver
  obtain ⟨r, hr⟩ := hpre
    (assemble_gain_and_rhs a.cabs a.y_bus a.measured_values st.u st.solver).data_gain_
    (assemble_gain_and_rhs a.cabs a.y_bus a.measured_values st.u st.solver).perm_
  obtain ⟨x, hx⟩ := hsol r.1 r.2
    (assemble_gain_and_rhs a.cabs a.y_bus a.measured_values st.u st.solver).del_x_rhs_
  rw [← hf.2.2.2.1] at hr hx
  have hp : prepare_matrix_and_rhs a.cabs a.y_bus a.measured_values st.u st.solver
      = Except.ok { assemble_gain_and_rhs a.cabs a.y_bus a.measured_values st.u st.solver with
          data_gain_ := r.1, perm_ := r.2 } := by
    unfold prepare_matrix_and_rhs
    simp only [hr]
  unfold round loop_body
  simp only [SEState.restart_sub_timer, hp, hx]
  exact ⟨_, rfl⟩

/-- With a sparse solver whose factorisation signals a failure, a round ends
with that error. -/
theorem round_error_of_singular (a : SEArgs R) (st : SEState R P)
    (hpre : ∀ g p, st.solver.sparse_solver_.prefactorize g p = none) :
    ∃ e, round a st = Except.error e := by
  have hf := assemble_gain_and_rhs_frame a.cabs a.y_bus a.measured_values st.u st.solver
  have hr := hpre
    (assemble_gain_and_rhs a.cabs a.y_bus a.measured_values st.u st.solver).data_gain_
    (assemble_gain_and_rhs a.cabs a.y_bus a.measured_values st.u st.solver).perm_
  rw [← hf.2.2.2.1] at hr
  have hp : prepare_matrix_and_rhs a.cabs a.y_bus a.measured_values st.u st.solver
      = Except.error (SEError.SingularMatrix,
          assemble_gain_and_rhs a.cabs a.y_bus a.measured_values st.u st.solver) := by
    unfold prepare_matrix_and_rhs
    simp only [hr]
  unfold round loop_body
  simp only [SEState.restart_sub_timer, hp]
  exact ⟨_, rfl⟩

/-- When the first round fails in the sparse solver, the call ends with that
error, and the solver object is the one of the failed round. -/
theorem run_first_round_error (a : SEArgs R) (info : CalculationInfo R)
    (s : NewtonRaphsonSESolver R P) (fuel : Nat) (e : SEError R × SEState R P)
    (hm : a.max_iter ≠ 0) (he : round a (initial_state a info s) = Except.error e) :
    ∃ res, run_state_estimation a info s (fuel + 1) = some res
      ∧ res.outcome = Except.error e.1 ∧ res.solver = e.2.solver := by
  have hl : iterate_loop a (fuel + 1) (initial_state a info s) = some (Except.error e) := by
    unfold iterate_loop
    rw [if_pos (Or.inr (initial_state_num_iter a info s)),
      if_neg (by rw [initial_state_num_iter]; exact fun h => hm h.symm), he]
  obtain ⟨e1, e2⟩ := e
  obtain ⟨res, hr, ho, hs, _⟩ := run_of_loop_error a info s (fuel + 1) e1 e2 hl
  exact ⟨res, hr, ho, hs⟩

theorem rounds_ok_of_total (a : SEArgs R) (j : Nat) (st : SEState R P)
    (hpre : ∀ g p, ∃ r, st.solver.sparse_solver_.prefactorize g p = some r)
    (hsol : ∀ g p r, ∃ x, st.solver.sparse_solver_.solve_with_prefactorized_matrix g p r
      = some x) :
    ∃ stj, rounds a j st = Except.ok stj := by
  induction j generalizing st with
  | zero => exact ⟨st, rfl⟩
  | succ j ih =>
    obtain ⟨st1, h1⟩ := round_ok_of_total a st hpre hsol
    rw [rounds_succ_ok a j st st1 h1]
    have hs := (round_frame a st st1 h1).2.2
    exact ih st1 (by rw [hs]; exact hpre) (by rw [hs]; exact hsol)

end RoundLemmas

/-! ## The one-bus example, evaluated -/

section ExampleLemmas

/-- The first round of the one-bus example: it succeeds, and with the
increment `del` returned by the stand-in solver it gives the magnitude
`1 + 1 * del.v`, the angle `0 + 0 + del.theta` and the deviation of bus 0. -/
theorem example_first_round (tol : ℝ) (m : Int) (del : NRSEUnknown ℝ) (stale : ℝ) :
    ∃ st1, rounds (example_args tol m) 1
          (initial_state (example_args tol m) (fun _ => none) (example_solver del stale))
        = Except.ok st1
      ∧ st1.num_iter = 1
      ∧ (st1.solver.x_ 0).v = 1 + 1 * del.v
      ∧ (st1.solver.x_ 0).theta = 0 + 0 + del.theta
      ∧ st1.max_dev
        = max (real_cabs ((ComplexValue.smul (1 + 1 * del.v)
            (real_cexp (0 + 0 + del.theta))).sub (real_cexp (0 + 0)))) 0 := by
  obtain ⟨st1, h1⟩ := round_ok_of_total (example_args tol m)
    (initial_state (example_args tol m) (fun _ => none) (example_solver del stale))
    (fun g p => ⟨(g, p), rfl⟩) (fun _ _ _ => ⟨fun _ => del, rfl⟩)
  refine ⟨st1, by rw [rounds_succ_ok _ 0 _ st1 h1, rounds_zero], ?_, ?_⟩
  · rw [round_num_iter _ _ st1 h1, initial_state_num_iter]
  · obtain ⟨sm, hn, _, hx, _, ⟨g, p, r, hsolve⟩, hs, _, hm⟩ := loop_body_spec _ _ st1 h1
    obtain ⟨hi1, hi2⟩ := initial_state_solver (example_args tol m) (fun _ => none)
      (example_solver del stale)
    have hdel : sm.del_x_rhs_ = fun _ => del := by
      have : some (fun _ : Nat => del) = some sm.del_x_rhs_ := hsolve
      exact (Option.some.inj this).symm
    have hn1 : sm.n_bus_ = 1 := hn
    have hx0 : sm.x_ 0 = ⟨0 + 0, 1, stale, stale⟩ := by
      rw [hx]
      show (initial_state (example_args tol m) (fun _ => none)
        (example_solver del stale)).solver.x_ 0 = _
      rw [hi1]
      simp [example_solver, example_args, example_measured_values]
    have hu0 : (initial_state (example_args tol m) (fun _ => none)
        (example_solver del stale)).u 0 = real_cexp (0 + 0) := by
      rw [hi2]
      simp [example_solver, example_args, example_measured_values]
    have hupd : spec_updated_x sm 0 = ⟨0 + 0 + del.theta, 1 + 1 * del.v, stale, stale⟩ := by
      simp only [spec_updated_x, hx0, hdel]
    refine ⟨?_, ?_, ?_⟩
    · rw [hs, iterate_unknown_eq]
      simp only [hn1, Nat.lt_one_iff, if_true, hupd]
    · rw [hs, iterate_unknown_eq]
      simp only [hn1, Nat.lt_one_iff, if_true, hupd]
    · rw [hm, iterate_unknown_eq]
      simp only [hn1, List.range_succ, List.range_zero, List.nil_append, List.foldl_cons,
        List.foldl_nil, spec_bus_dev, spec_updated_u, hupd]
      show max (real_cabs ((ComplexValue.smul (1 + 1 * del.v)
        (real_cexp (0 + 0 + del.theta))).sub ((initial_state (example_args tol m)
          (fun _ => none) (example_solver del stale)).u 0))) 0 = _
      rw [hu0]

/-- The deviation of the first round of the example is `|del_v|` when the
angle increment is zero. -/
theorem example_dev (dv : ℝ) :
    max (real_cabs ((ComplexValue.smul (1 + 1 * dv) (real_cexp (0 + 0 + 0))).sub
      (real_cexp (0 + 0)))) 0 = |dv| := by
  have h : real_cabs ((ComplexValue.smul (1 + 1 * dv) (real_cexp (0 + 0 + 0))).sub
      (real_cexp (0 + 0))) = |dv| := by
    simp only [real_cabs, real_cexp, ComplexValue.smul, ComplexValue.sub, add_zero,
      Real.cos_zero, Real.sin_zero, mul_zero, sub_zero, mul_one, one_mul]
    rw [show 1 + dv - 1 = dv by ring]
    exact Real.sqrt_mul_self_eq_abs dv
  rw [h]
  exact max_eq_left (abs_nonneg dv)

/-- The stand-in solver of the example stays in place through the rounds and
never fails. -/
theorem example_round_ok (tol : ℝ) (m : Int) (del : NRSEUnknown ℝ) (stale : ℝ) (j : Nat)
    (stj : SEState ℝ Unit)
    (h : rounds (example_args tol m) j
      (initial_state (example_args tol m) (fun _ => none) (example_solver del stale))
        = Except.ok stj) :
    ∃ st1, round (example_args tol m) stj = Except.ok st1 := by
  have hs : stj.solver.sparse_solver_ = example_sparse_solver del := by
    rw [(rounds_frame _ j _ stj h).2.2, (initial_state_solver _ _ _).1]
    rfl
  apply round_ok_of_total
  · intro g p; rw [hs]; exact ⟨(g, p), rfl⟩
  · intro g p r; rw [hs]; exact ⟨fun _ => del, rfl⟩

/-- The example with the zero increment, `err_tol = 0` and `max_iter = 1`
returns normally after one round. -/
theorem example_converges :
    ∃ res out, run_state_estimation (example_args 0 1) (fun _ => none)
        (example_solver ⟨0, 0, 0, 0⟩ 7) 2 = some res
      ∧ res.outcome = Except.ok out ∧ res.num_iter = 1 := by
  obtain ⟨res, hres⟩ := run_total (example_args 0 1) (fun _ => none)
    (example_solver ⟨0, 0, 0, 0⟩ 7) 2 (by decide) (by decide)
  obtain ⟨st1, h1, hn1, _, _, hdev⟩ := example_first_round 0 1 ⟨0, 0, 0, 0⟩ 7
  have hdev0 : st1.max_dev = 0 := by
    rw [hdev]
    have := example_dev 0
    simpa using this
  obtain ⟨k, stk, hk, hnum, hpre, hend⟩ := run_sound _ _ _ _ res hres
  have hkm : (k : Int) ≤ 1 :=
    rounds_le_max_iter (example_args 0 1) _ (initial_state_num_iter _ _ _) (by decide) k hpre
  rcases hend with ⟨hc, ho, _, hn, _⟩ | ⟨hc, hm, _⟩ | ⟨_, _, e, he, _⟩
  · have hk1 : k = 1 := by
      have : k ≠ 0 := by
        intro h0
        exact hc (Or.inr (by rw [hnum]; exact h0))
      omega
    exact ⟨res, _, hres, ho, by rw [hn, hk1]⟩
  · exfalso
    have hk1 : k = 1 := by
      have : (k : Int) = 1 := hm
      omega
    subst hk1
    rw [h1] at hk
    cases hk
    rcases hc with hc | hc
    · rw [hdev0] at hc
      exact lt_irrefl _ hc
    · omega
  · exfalso
    obtain ⟨st2, h2⟩ := example_round_ok 0 1 ⟨0, 0, 0, 0⟩ 7 k stk hk
    rw [h2] at he
    cases he

/-- The example with a sparse solver that signals a singular matrix: the call
ends with `SingularMatrix`, raised in the first round after the assembly has
cleared the right-hand-side block of bus 0, which held `stale` before. -/
theorem example_singular (tol : ℝ) (stale : ℝ) :
    ∃ res, run_state_estimation (example_args tol 1) (fun _ => none)
        (example_failing_solver stale) 2 = some res
      ∧ res.outcome = Except.error SEError.SingularMatrix
      ∧ res.solver.del_x_rhs_ 0 = NRSEUnknown.zero := by
  obtain ⟨e, he⟩ := round_error_of_singular (example_args tol 1)
    (initial_state (example_args tol 1) (fun _ => none) (example_failing_solver stale))
    (fun _ _ => rfl)
  obtain ⟨res, hr, ho, hs⟩ := run_first_round_error (example_args tol 1) (fun _ => none)
    (example_failing_solver stale) 1 e (by intro h; cases h) he
  refine ⟨res, hr, ?_, ?_⟩
  · rw [ho, round_error _ _ e he]
  · rw [hs, (loop_body_error_state _ _ e he).1]
    rfl

end ExampleLemmas

/-! ## Initial voltages, update rule and cache invariant -/

section UpdateClaims

variable {P : Type}

/-- C6: after the initialisation step of `run_state_estimation`, every bus in
`[0, N)` has `x[bus].v = 1`, `x[bus].theta = mean_angle_shift +
phase_shift[bus]` and `output.u[bus] = exp(i * x[bus].theta)`, so that
`|u[bus]| = 1` (exact real arithmetic, exact complex exponential). -/
theorem C6_initial_voltages (a : SEArgs ℝ) (info : CalculationInfo ℝ)
    (s : NewtonRaphsonSESolver ℝ P) (bus : Nat) (hexp : a.cexp = real_cexp)
    (hbus : bus < s.n_bus_) :
    ((initial_state a info s).solver.x_ bus).v = 1
      ∧ ((initial_state a info s).solver.x_ bus).theta
          = a.measured_values.mean_angle_shift + s.phase_shift bus
      ∧ ((initial_state a info s).u bus).toComplex
          = Complex.exp (Complex.I * (((initial_state a info s).solver.x_ bus).theta : ℂ))
      ∧ Complex.abs ((initial_state a info s).u bus).toComplex = 1 := by
  obtain ⟨h1, h2⟩ := initial_state_solver a info s
  have hu : (initial_state a info s).u bus
      = real_cexp (a.measured_values.mean_angle_shift + s.phase_shift bus) := by
    rw [h2, hexp]; simp [hbus]
  have hth : ((initial_state a info s).solver.x_ bus).theta
      = a.measured_values.mean_angle_shift + s.phase_shift bus := by
    rw [h1]; simp [hbus]
  refine ⟨by rw [h1]; simp [hbus], hth, ?_, ?_⟩
  · rw [hu, hth, toComplex_real_cexp]
  · rw [hu, toComplex_real_cexp, mul_comm, Complex.abs_exp_ofReal_mul_I]

/-- C6, at the one-bus example. -/
theorem C6_initial_voltages_witness :
    ((initial_state (example_args 0 1) (fun _ => none)
        (example_solver ⟨0, 0, 0, 0⟩ 7)).solver.x_ 0).v = 1
      ∧ ((initial_state (example_args 0 1) (fun _ => none)
          (example_solver ⟨0, 0, 0, 0⟩ 7)).solver.x_ 0).theta
          = (example_args 0 1).measured_values.mean_angle_shift
            + (example_solver ⟨0, 0, 0, 0⟩ 7).phase_shift 0
      ∧ ((initial_state (example_args 0 1) (fun _ => none)
          (example_solver ⟨0, 0, 0, 0⟩ 7)).u 0).toComplex
          = Complex.exp (Complex.I * (((initial_state (example_args 0 1) (fun _ => none)
              (example_solver ⟨0, 0, 0, 0⟩ 7)).solver.x_ 0).theta : ℂ))
      ∧ Complex.abs ((initial_state (example_args 0 1) (fun _ => none)
          (example_solver ⟨0, 0, 0, 0⟩ 7)).u 0).toComplex = 1 :=
  C6_initial_voltages (example_args 0 1) (fun _ => none) (example_solver ⟨0, 0, 0, 0⟩ 7) 0 rfl
    (by decide)

/-- C7: `iterate_unknown` implements the update rule.  For every bus,
`theta_new = theta + del_theta` and `v_new = v * (1 + del_v)` with
`(del_theta, del_v)` the slots 0 and 1 of `del_x_rhs[bus]`, the slots `phi_p`
and `phi_q` of `x` are unchanged, and `u_new[bus] = v_new * exp(i *
theta_new)`.  The value returned is the maximum over the buses of
`|u_new[bus] - u_old[bus]|`: it bounds every such deviation, is attained at
some bus when there is one, is `0` when `N = 0`, and is never negative.
`del_x_rhs` is left unchanged.  (Exact real arithmetic.) -/
theorem C7_iterate_unknown_update_rule (s : NewtonRaphsonSESolver ℝ P)
    (u : Nat → ComplexValue ℝ) (flag : Bool) :
    (∀ bus, bus < s.n_bus_ →
        ((iterate_unknown real_cexp real_cabs s u flag).solver.x_ bus).theta
            = (s.x_ bus).theta + (s.del_x_rhs_ bus).theta
        ∧ ((iterate_unknown real_cexp real_cabs s u flag).solver.x_ bus).v
            = (s.x_ bus).v * (1 + (s.del_x_rhs_ bus).v)
        ∧ ((iterate_unknown real_cexp real_cabs s u flag).solver.x_ bus).phi_p
            = (s.x_ bus).phi_p
        ∧ ((iterate_unknown real_cexp real_cabs s u flag).solver.x_ bus).phi_q
            = (s.x_ bus).phi_q
        ∧ ((iterate_unknown real_cexp real_cabs s u flag).u bus).toComplex
            = (((iterate_unknown real_cexp real_cabs s u flag).solver.x_ bus).v : ℂ)
              * Complex.exp (Complex.I
                * (((iterate_unknown real_cexp real_cabs s u flag).solver.x_ bus).theta : ℂ))
        ∧ Complex.abs (((iterate_unknown real_cexp real_cabs s u flag).u bus).toComplex
              - (u bus).toComplex)
            ≤ (iterate_unknown real_cexp real_cabs s u flag).max_dev)
      ∧ (0 < s.n_bus_ → ∃ bus, bus < s.n_bus_
          ∧ (iterate_unknown real_cexp real_cabs s u flag).max_dev
            = Complex.abs (((iterate_unknown real_cexp real_cabs s u flag).u bus).toComplex
                - (u bus).toComplex))
      ∧ (s.n_bus_ = 0 → (iterate_unknown real_cexp real_cabs s u flag).max_dev = 0)
      ∧ 0 ≤ (iterate_unknown real_cexp real_cabs s u flag).max_dev
      ∧ (iterate_unknown real_cexp real_cabs s u flag).solver.del_x_rhs_ = s.del_x_rhs_ := by
  rw [iterate_unknown_eq]
  have hdev : ∀ bus, spec_bus_dev real_cexp real_cabs s u bus
      = Complex.abs ((spec_updated_u real_cexp s bus).toComplex - (u bus).toComplex) := by
    intro bus
    rw [spec_bus_dev, real_cabs_eq_abs, toComplex_sub]
  have hge := foldl_max_ge (spec_bus_dev real_cexp real_cabs s u) 0 s.n_bus_
  refine ⟨?_, ?_, ?_, hge.1, rfl⟩
  · intro bus hbus
    simp only [hbus, if_true]
    refine ⟨rfl, ?_, rfl, rfl, ?_, ?_⟩
    · simp only [spec_updated_x]; ring
    · rw [spec_updated_u, toComplex_smul, toComplex_real_cexp]
    · rw [← hdev]; exact hge.2 bus hbus
  · intro hn
    rcases foldl_max_mem (spec_bus_dev real_cexp real_cabs s u) 0 s.n_bus_ with h0 | ⟨bus, hb, hm⟩
    · refine ⟨0, hn, ?_⟩
      simp only [hn, if_true]
      rw [← hdev, h0]
      apply le_antisymm
      · rw [spec_bus_dev]; exact real_cabs_nonneg _
      · have := hge.2 0 hn
        rw [h0] at this
        exact this
    · refine ⟨bus, hb, ?_⟩
      simp only [hb, if_true]
      rw [← hdev]; exact hm
  · intro hn
    simp [hn]

/-- C8: cache invariant.  At the start of every loop round (the state after
any number `j` of executed rounds) and at normal return of
`run_state_estimation`, every bus has `u[bus] = x[bus].v * exp(i *
x[bus].theta)`, and consequently `|u[bus]| = |x[bus].v|` (exact real
arithmetic). -/
theorem C8_cache_invariant (a : SEArgs ℝ) (info : CalculationInfo ℝ)
    (s : NewtonRaphsonSESolver ℝ P) (hexp : a.cexp = real_cexp) :
    (∀ j stj, rounds a j (initial_state a info s) = Except.ok stj →
        ∀ bus, bus < s.n_bus_ →
          (stj.u bus).toComplex = ((stj.solver.x_ bus).v : ℂ)
              * Complex.exp (Complex.I * ((stj.solver.x_ bus).theta : ℂ))
          ∧ Complex.abs (stj.u bus).toComplex = |(stj.solver.x_ bus).v|)
      ∧ (∀ fuel res out, run_state_estimation a info s fuel = some res →
          res.outcome = Except.ok out →
          ∀ bus, bus < s.n_bus_ →
            (out.u bus).toComplex = ((res.solver.x_ bus).v : ℂ)
                * Complex.exp (Complex.I * ((res.solver.x_ bus).theta : ℂ))
            ∧ Complex.abs (out.u bus).toComplex = |(res.solver.x_ bus).v|) := by
  have key : ∀ j stj, rounds a j (initial_state a info s) = Except.ok stj →
      ∀ bus, bus < s.n_bus_ →
        (stj.u bus).toComplex = ((stj.solver.x_ bus).v : ℂ)
            * Complex.exp (Complex.I * ((stj.solver.x_ bus).theta : ℂ))
        ∧ Complex.abs (stj.u bus).toComplex = |(stj.solver.x_ bus).v| := by
    intro j stj hj bus hbus
    have hc := cache_rounds a info s j stj hj bus hbus
    rw [hexp] at hc
    refine ⟨?_, ?_⟩
    · rw [hc, toComplex_smul, toComplex_real_cexp]
    · rw [hc, ← real_cabs_eq_abs, real_cabs_smul_cexp]
  refine ⟨key, ?_⟩
  intro fuel res out hrun hout bus hbus
  obtain ⟨k, stk, hk, _, _, hend⟩ := run_sound a info s fuel res hrun
  rcases hend with ⟨_, ho, hs, _⟩ | ⟨_, _, ho, _⟩ | ⟨_, _, e, _, ho, _⟩
  · rw [hout] at ho
    cases ho
    rw [hs]
    exact key k stk hk bus hbus
  · rw [hout] at ho; cases ho
  · rw [hout] at ho; cases ho

/-- C8, at the one-bus example: the state after one round and the bus 0. -/
theorem C8_cache_invariant_witness :
    (∀ j stj, rounds (example_args 0 1) j (initial_state (example_args 0 1) (fun _ => none)
          (example_solver ⟨0, 0, 0, 0⟩ 7)) = Except.ok stj →
        ∀ bus, bus < (example_solver ⟨0, 0, 0, 0⟩ 7).n_bus_ →
          (stj.u bus).toComplex = ((stj.solver.x_ bus).v : ℂ)
              * Complex.exp (Complex.I * ((stj.solver.x_ bus).theta : ℂ))
          ∧ Complex.abs (stj.u bus).toComplex = |(stj.solver.x_ bus).v|)
      ∧ (∀ fuel res out, run_state_estimation (example_args 0 1) (fun _ => none)
            (example_solver ⟨0, 0, 0, 0⟩ 7) fuel = some res →
          res.outcome = Except.ok out →
          ∀ bus, bus < (example_solver ⟨0, 0, 0, 0⟩ 7).n_bus_ →
            (out.u bus).toComplex = ((res.solver.x_ bus).v : ℂ)
                * Complex.exp (Complex.I * ((res.solver.x_ bus).theta : ℂ))
            ∧ Complex.abs (out.u bus).toComplex = |(res.solver.x_ bus).v|) :=
  C8_cache_invariant (example_args 0 1) (fun _ => none) (example_solver ⟨0, 0, 0, 0⟩ 7) rfl

end UpdateClaims

/-! ## Positivity of the magnitudes -/

section Positivity

/-- C9 fails as stated.  In the one-bus example, take the state right after
initialisation, where the magnitude of bus 0 is `1 > 0`, and let the
increment in `del_x_rhs[0]` be `del_v = -2`: the update of `iterate_unknown`
gives the magnitude `1 + 1 * (-2) = -1`. -/
theorem C9_counterexample :
    0 < ((initial_state (example_args 0 1) (fun _ => none)
          (example_solver ⟨0, 0, 0, 0⟩ 7)).solver.x_ 0).v
      ∧ ((iterate_unknown real_cexp real_cabs
            { (initial_state (example_args 0 1) (fun _ => none)
                (example_solver ⟨0, 0, 0, 0⟩ 7)).solver with
              del_x_rhs_ := fun _ => ⟨0, -2, 0, 0⟩ }
            (initial_state (example_args 0 1) (fun _ => none)
              (example_solver ⟨0, 0, 0, 0⟩ 7)).u false).solver.x_ 0).v = -1 := by
  have hv : ((initial_state (example_args 0 1) (fun _ => none)
      (example_solver ⟨0, 0, 0, 0⟩ 7)).solver.x_ 0).v = 1 := by
    rw [(initial_state_solver _ _ _).1]
    simp [example_solver]
  have hn : (initial_state (example_args 0 1) (fun _ => none)
      (example_solver ⟨0, 0, 0, 0⟩ 7)).solver.n_bus_ = 1 := by
    rw [(initial_state_solver _ _ _).1]
    rfl
  refine ⟨by rw [hv]; exact one_pos, ?_⟩
  rw [iterate_unknown_eq]
  simp only [hn, Nat.lt_one_iff, if_true, spec_updated_x, hv]
  norm_num

/-- C9 (amended): the magnitude of every bus is `1`, hence positive, after
initialisation; and from a state with `v[bus] > 0` the update of
`iterate_unknown` gives `v_new[bus] = v[bus] * (1 + del_v[bus])`, which is
positive if and only if `del_v[bus] > -1`. -/
theorem C9_positivity_iff {R P : Type} [LinearOrderedField R] :
    (∀ (a : SEArgs R) (info : CalculationInfo R) (s : NewtonRaphsonSESolver R P) (bus : Nat),
        bus < s.n_bus_ → ((initial_state a info s).solver.x_ bus).v = 1
          ∧ 0 < ((initial_state a info s).solver.x_ bus).v)
      ∧ (∀ (cexp : R → ComplexValue R) (cabs : ComplexValue R → R)
          (s : NewtonRaphsonSESolver R P) (u : Nat → ComplexValue R) (flag : Bool) (bus : Nat),
          bus < s.n_bus_ → 0 < (s.x_ bus).v →
            ((iterate_unknown cexp cabs s u flag).solver.x_ bus).v
                = (s.x_ bus).v * (1 + (s.del_x_rhs_ bus).v)
            ∧ (0 < ((iterate_unknown cexp cabs s u flag).solver.x_ bus).v
                ↔ -1 < (s.del_x_rhs_ bus).v)) := by
  refine ⟨?_, ?_⟩
  · intro a info s bus hbus
    have h : ((initial_state a info s).solver.x_ bus).v = 1 := by
      rw [(initial_state_solver a info s).1]; simp [hbus]
    exact ⟨h, by rw [h]; exact one_pos⟩
  · intro cexp cabs s u flag bus hbus hv
    have h : ((iterate_unknown cexp cabs s u flag).solver.x_ bus).v
        = (s.x_ bus).v * (1 + (s.del_x_rhs_ bus).v) := by
      rw [iterate_unknown_eq]
      simp only [hbus, if_true, spec_updated_x]
      ring
    refine ⟨h, ?_⟩
    rw [h, mul_pos_iff_of_pos_left hv]
    constructor <;> intro h1 <;> linarith

end Positivity

/-! ## Lemmas on the end of a call -/

section EndLemmas

variable {R P : Type} [LinearOrderedField R]

/-- The deviation that a successful round leaves is not negative: the running
maximum of `iterate_unknown` starts at `0.0`. -/
theorem round_max_dev_nonneg (a : SEArgs R) (st st1 : SEState R P)
    (h : round a st = Except.ok st1) : 0 ≤ st1.max_dev := by
  obtain ⟨sm, _, _, _, _, _, _, _, hm⟩ := loop_body_spec a _ st1 h
  rw [hm, iterate_unknown_eq]
  exact (foldl_max_ge _ 0 _).1

/-- One more round after `k` successful rounds is the round from the state
they left. -/
theorem rounds_succ_last (a : SEArgs R) (k : Nat) (st stk : SEState R P)
    (h : rounds a k st = Except.ok stk) : rounds a (k + 1) st = round a stk := by
  rw [rounds_add a k 1 st stk h]
  cases hr : round a stk with
  | error e => rw [rounds_succ_error a 0 stk e hr]
  | ok st1 => rw [rounds_succ_ok a 0 stk st1 hr, rounds_zero]

/-- After at least one successful round the deviation is not negative. -/
theorem rounds_max_dev_nonneg (a : SEArgs R) (k : Nat) (st stk : SEState R P) (hk : 1 ≤ k)
    (h : rounds a k st = Except.ok stk) : 0 ≤ stk.max_dev := by
  obtain ⟨j, rfl⟩ : ∃ j, k = j + 1 := ⟨k - 1, by omega⟩
  obtain ⟨stj, hj⟩ := rounds_ok_of_le a j (j + 1) (by omega) st stk h
  rw [rounds_succ_last a j st stj hj] at h
  exact round_max_dev_nonneg a stj stk h

/-- The loop ends within `k + 1` evaluations of its condition when the state
after `k` rounds fails the loop condition or the round from it fails. -/
theorem iterate_loop_ends (a : SEArgs R) (k : Nat) (st stk : SEState R P)
    (hk : rounds a k st = Except.ok stk)
    (hexit : ¬ (a.err_tol < stk.max_dev ∨ stk.num_iter = 0)
      ∨ ∃ e, round a stk = Except.error e) :
    ∃ res, iterate_loop a (k + 1) st = some res := by
  induction k generalizing st with
  | zero =>
    cases hk
    unfold iterate_loop
    by_cases hc : a.err_tol < stk.max_dev ∨ stk.num_iter = 0
    · rw [if_pos hc]
      by_cases hm : (stk.num_iter : Int) = a.max_iter
      · rw [if_pos hm]; exact ⟨_, rfl⟩
      · rw [if_neg hm]
        rcases hexit with hx | ⟨e, he⟩
        · exact absurd hc hx
        · rw [he]; exact ⟨_, rfl⟩
    · rw [if_neg hc]; exact ⟨_, rfl⟩
  | succ k ih =>
    cases hr : round a st with
    | error e => rw [rounds_succ_error a k st e hr] at hk; cases hk
    | ok st1 =>
      rw [rounds_succ_ok a k st st1 hr] at hk
      unfold iterate_loop
      by_cases hc : a.err_tol < st.max_dev ∨ st.num_iter = 0
      · rw [if_pos hc]
        by_cases hm : (st.num_iter : Int) = a.max_iter
        · rw [if_pos hm]; exact ⟨_, rfl⟩
        · rw [if_neg hm, hr]
          exact ih st1 hk
      · rw [if_neg hc]; exact ⟨_, rfl⟩

/-- An ended loop gives a result of `run_state_estimation`. -/
theorem run_of_loop (a : SEArgs R) (info : CalculationInfo R)
    (s : NewtonRaphsonSESolver R P) (fuel : Nat)
    (lres : Except (SEError R × SEState R P) (SEState R P))
    (hl : iterate_loop a fuel (initial_state a info s) = some lres) :
    ∃ res, run_state_estimation a info s fuel = some res := by
  cases lres with
  | ok st =>
    obtain ⟨res, hr, _⟩ := run_of_loop_ok a info s fuel st hl
    exact ⟨res, hr⟩
  | error e =>
    obtain ⟨e1, e2⟩ := e
    obtain ⟨res, hr, _⟩ := run_of_loop_error a info s fuel e1 e2 hl
    exact ⟨res, hr⟩

/-- With a negative `max_iter` the call does not end, whatever the bound on
the evaluations of the loop condition, when every round succeeds and leaves a
deviation above `err_tol`. -/
theorem run_never_ends (a : SEArgs R) (info : CalculationInfo R)
    (s : NewtonRaphsonSESolver R P) (hneg : a.max_iter < 0)
    (hall : ∀ k, ∃ stk, rounds a k (initial_state a info s) = Except.ok stk
      ∧ (1 ≤ k → a.err_tol < stk.max_dev)) (fuel : Nat) :
    run_state_estimation a info s fuel = none := by
  cases hrun : run_state_estimation a info s fuel with
  | none => rfl
  | some res =>
    exfalso
    obtain ⟨k, stk, hk, hnum, _, hend⟩ := run_sound a info s fuel res hrun
    obtain ⟨stk1, hk1, hdev⟩ := hall k
    rw [hk] at hk1
    cases hk1
    rcases hend with ⟨hc, _⟩ | ⟨_, hm, _⟩ | ⟨_, _, e, he, _⟩
    · by_cases h0 : k = 0
      · exact hc (Or.inr (by rw [hnum]; exact h0))
      · exact hc (Or.inl (hdev (by omega)))
    · omega
    · obtain ⟨st2, h2, _⟩ := hall (k + 1)
      rw [rounds_succ_last a k _ stk hk, he] at h2
      cases h2

/-- How a call that ends has ended.  With `max_iter = 0`: by
`IterationDiverge` before the first round, the buffers untouched.  With any
other `max_iter`: after `k >= 1` completed rounds by a normal return or by
`IterationDiverge` (then `k = max_iter`), or by the error of the sparse
solver raised in the round after `k` completed ones, the right-hand-side
buffer being the one the assembly of that round has filled. -/
theorem run_ends_how (a : SEArgs R) (info : CalculationInfo R)
    (s : NewtonRaphsonSESolver R P) (fuel : Nat) (res : SEResult R P)
    (hrun : run_state_estimation a info s fuel = some res) :
    (a.max_iter = 0 →
        res.outcome = Except.error (SEError.IterationDiverge 0 a.dbl_max a.err_tol)
        ∧ res.solver = (initial_state a info s).solver
        ∧ res.solver.data_gain_ = s.data_gain_ ∧ res.solver.del_x_rhs_ = s.del_x_rhs_)
      ∧ (a.max_iter ≠ 0 →
          ∃ k stk, rounds a k (initial_state a info s) = Except.ok stk
            ∧ ((1 ≤ k ∧ res.solver = stk.solver
                  ∧ ((∃ out, res.outcome = Except.ok out)
                    ∨ ((k : Int) = a.max_iter ∧ res.outcome
                        = Except.error
                            (SEError.IterationDiverge a.max_iter stk.max_dev a.err_tol))))
              ∨ ((∃ e, round a stk = Except.error e)
                  ∧ res.outcome = Except.error SEError.SingularMatrix
                  ∧ res.solver.del_x_rhs_
                      = (assemble_gain_and_rhs a.cabs a.y_bus a.measured_values stk.u
                          stk.solver).del_x_rhs_))) := by
  obtain ⟨k, stk, hk, hnum, hpre, hend⟩ := run_sound a info s fuel res hrun
  have hk0 : ¬ (a.err_tol < stk.max_dev ∨ stk.num_iter = 0) → 1 ≤ k := by
    intro hc
    by_contra h0
    have : k = 0 := by omega
    exact hc (Or.inr (by rw [hnum]; exact this))
  refine ⟨?_, ?_⟩
  · intro hm
    have hk00 : k = 0 := by
      have := rounds_le_max_iter a _ (initial_state_num_iter a info s) (by omega) k hpre
      omega
    subst hk00
    cases hk
    rcases hend with ⟨hc, _⟩ | ⟨_, _, ho, hs, _⟩ | ⟨_, hne, _⟩
    · exact absurd (hk0 hc) (by omega)
    · refine ⟨?_, hs, ?_, ?_⟩
      · rw [ho, hm]; rfl
      · rw [hs, (initial_state_solver a info s).1]
      · rw [hs, (initial_state_solver a info s).1]
    · exact absurd (by rw [hm]; rfl) hne
  · intro hm
    refine ⟨k, stk, hk, ?_⟩
    rcases hend with ⟨hc, ho, hs, _⟩ | ⟨_, hkm, ho, hs, _⟩ | ⟨_, _, e, he, ho, hs⟩
    · exact Or.inl ⟨hk0 hc, hs, Or.inl ⟨_, ho⟩⟩
    · refine Or.inl ⟨?_, hs, Or.inr ⟨hkm, ho⟩⟩
      by_contra h0
      have : k = 0 := by omega
      subst this
      exact hm hkm.symm
    · refine Or.inr ⟨⟨e, he⟩, ho, ?_⟩
      rw [hs]
      exact (loop_body_error_state a _ e he).1

end EndLemmas

/-! ## The iteration loop: divergence, normal return, control inputs, info -/

section LoopClaims

variable {R P : Type} [LinearOrderedField R]

/-- C1: for `max_iter >= 1` and any `err_tol`, when the sparse solver does not
fail in the first `max_iter` rounds, `run_state_estimation` ends (given
`max_iter + 1` evaluations of the loop condition) and throws
`IterationDiverge` if and only if each of the first `max_iter` rounds returns
a max deviation strictly greater than `err_tol`.  In that case the solver is
in the state reached after exactly `max_iter` rounds, `num_iter` was
incremented `max_iter + 1` times (once per round and once by the failing
test), and the exception carries `(max_iter, max_dev of round max_iter,
err_tol)`. -/
theorem C1_iteration_diverge_iff (a : SEArgs R) (info : CalculationInfo R)
    (s : NewtonRaphsonSESolver R P) (fuel : Nat) (hmax : 1 ≤ a.max_iter)
    (hfuel : a.max_iter.toNat < fuel)
    (hok : (rounds a a.max_iter.toNat (initial_state a info s)).isOk = true) :
    ∃ res, run_state_estimation a info s fuel = some res
      ∧ ((∃ n d t, res.outcome = Except.error (SEError.IterationDiverge n d t))
          ↔ ∀ j stj, 1 ≤ j → j ≤ a.max_iter.toNat →
              rounds a j (initial_state a info s) = Except.ok stj → a.err_tol < stj.max_dev)
      ∧ ((∃ n d t, res.outcome = Except.error (SEError.IterationDiverge n d t)) →
          ∃ stm, rounds a a.max_iter.toNat (initial_state a info s) = Except.ok stm
            ∧ res.outcome
                = Except.error (SEError.IterationDiverge a.max_iter stm.max_dev a.err_tol)
            ∧ res.solver = stm.solver
            ∧ res.num_iter = a.max_iter.toNat + 1) := by
  obtain ⟨res, hres⟩ := run_total a info s fuel (by omega) hfuel
  refine ⟨res, hres, ?_⟩
  obtain ⟨k, stk, hk, hnum, hpre, hend⟩ := run_sound a info s fuel res hres
  have hkm : (k : Int) ≤ a.max_iter :=
    rounds_le_max_iter a _ (initial_state_num_iter a info s) (by omega) k hpre
  have hk0 : (a.err_tol < stk.max_dev ∨ stk.num_iter = 0) → 1 ≤ k → a.err_tol < stk.max_dev := by
    intro hc h1
    rcases hc with hc | hc
    · exact hc
    · omega
  rcases hend with ⟨hc, ho, _, _, _⟩ | ⟨hc, hm, ho, hs, hn⟩ | ⟨hc, hm, e, he, ho, _⟩
  · -- normal return: not a divergence, and round `k` has a deviation within tolerance
    have hk1 : 1 ≤ k := by
      by_contra h0
      have : k = 0 := by omega
      exact hc (Or.inr (by rw [hnum]; exact this))
    refine ⟨⟨?_, ?_⟩, ?_⟩
    · rintro ⟨n, d, t, hd⟩
      rw [ho] at hd; cases hd
    · intro hall
      exact absurd (Or.inl (hall k stk hk1 (by omega) hk)) hc
    · rintro ⟨n, d, t, hd⟩
      rw [ho] at hd; cases hd
  · have hkeq : k = a.max_iter.toNat := by omega
    subst hkeq
    refine ⟨⟨fun _ => ?_, fun _ => ⟨_, _, _, ho⟩⟩, fun _ => ⟨stk, hk, ho, hs, hn⟩⟩
    intro j stj hj1 hjm hj
    by_cases hlt : j < a.max_iter.toNat
    · obtain ⟨sti, h1, h2, _⟩ := hpre j hlt
      rw [hj] at h1
      cases h1
      rcases h2 with h2 | h2
      · exact h2
      · rw [rounds_num_iter a j _ stj hj, initial_state_num_iter] at h2
        omega
    · have : j = a.max_iter.toNat := by omega
      subst this
      rw [hk] at hj
      cases hj
      exact hk0 hc hj1
  · -- a failure of the sparse solver in round `k + 1 <= max_iter` is excluded
    exfalso
    have hlt : k < a.max_iter.toNat := by omega
    have h1 : rounds a (k + 1) (initial_state a info s) = Except.error e := by
      rw [rounds_add a k 1 _ stk hk, rounds_succ_error a 0 stk e he]
    have h2 := rounds_error_mono a (k + 1) (a.max_iter.toNat - (k + 1)) _ e h1
    rw [show k + 1 + (a.max_iter.toNat - (k + 1)) = a.max_iter.toNat by omega] at h2
    rw [h2] at hok
    cases hok

/-- C1, at the one-bus example with `max_iter = 1`, `err_tol = 0` and a linear
solve that returns `del_v = 1`: the first round has deviation `1 > 0`, and the
call fails with `IterationDiverge` carrying `(1, 1, 0)`. -/
theorem C1_iteration_diverge_iff_witness :
    ∃ res, run_state_estimation (example_args 0 1) (fun _ => none)
          (example_solver ⟨0, 1, 0, 0⟩ 7) 2 = some res
      ∧ res.outcome = Except.error (SEError.IterationDiverge 1 1 0)
      ∧ res.num_iter = 2 := by
  obtain ⟨res, hres, hiff, hcarry⟩ := C1_iteration_diverge_iff (example_args 0 1)
    (fun _ => none) (example_solver ⟨0, 1, 0, 0⟩ 7) 2 (by decide) (by decide) rfl
  obtain ⟨st1, h1, _, _, _, hdev⟩ := example_first_round 0 1 ⟨0, 1, 0, 0⟩ 7
  have hdev1 : st1.max_dev = 1 := by
    rw [hdev]
    have := example_dev 1
    simpa using this
  have hall : ∀ j stj, 1 ≤ j → j ≤ (example_args 0 1).max_iter.toNat →
      rounds (example_args 0 1) j (initial_state (example_args 0 1) (fun _ => none)
        (example_solver ⟨0, 1, 0, 0⟩ 7)) = Except.ok stj →
      (example_args 0 1).err_tol < stj.max_dev := by
    intro j stj hj1 hjm hj
    have hjm1 : j ≤ 1 := hjm
    have : j = 1 := by omega
    subst this
    rw [h1] at hj
    cases hj
    rw [hdev1]
    exact zero_lt_one
  obtain ⟨stm, hm, ho, _, hn⟩ := hcarry (hiff.mpr hall)
  have hm1 : rounds (example_args 0 1) 1 (initial_state (example_args 0 1) (fun _ => none)
      (example_solver ⟨0, 1, 0, 0⟩ 7)) = Except.ok stm := hm
  rw [h1] at hm1
  cases hm1
  refine ⟨res, hres, ?_, hn⟩
  rw [ho, hdev1]
  rfl

/-- C2: for `max_iter >= 1`, if `run_state_estimation` returns normally then
the number `k` of executed rounds satisfies `1 <= k <= max_iter`, round `k`
returned a max deviation `<= err_tol`, and every earlier round a max
deviation `> err_tol`.  This holds for every `err_tol` and every initial
`max_dev`, so the first round is never skipped.  With `max_iter + 1`
evaluations of the loop condition the call does end. -/
theorem C2_normal_return (a : SEArgs R) (info : CalculationInfo R)
    (s : NewtonRaphsonSESolver R P) (hmax : 1 ≤ a.max_iter) :
    (∀ fuel res out, run_state_estimation a info s fuel = some res →
        res.outcome = Except.ok out →
        ∃ (k : Nat) (stk : SEState R P), 1 ≤ k ∧ (k : Int) ≤ a.max_iter
          ∧ rounds a k (initial_state a info s) = Except.ok stk
          ∧ res.num_iter = k ∧ out.u = stk.u ∧ res.solver = stk.solver
          ∧ stk.max_dev ≤ a.err_tol
          ∧ ∀ (j : Nat) stj, 1 ≤ j → j < k →
              rounds a j (initial_state a info s) = Except.ok stj → a.err_tol < stj.max_dev)
      ∧ (∀ fuel, a.max_iter.toNat < fuel →
          ∃ res, run_state_estimation a info s fuel = some res) := by
  refine ⟨?_, fun fuel hfuel => run_total a info s fuel (by omega) hfuel⟩
  intro fuel res out hres hout
  obtain ⟨k, stk, hk, hnum, hpre, hend⟩ := run_sound a info s fuel res hres
  have hkm : (k : Int) ≤ a.max_iter :=
    rounds_le_max_iter a _ (initial_state_num_iter a info s) (by omega) k hpre
  rcases hend with ⟨hc, ho, hs, hn, _⟩ | ⟨_, _, ho, _⟩ | ⟨_, _, e, _, ho, _⟩
  · have hk1 : 1 ≤ k := by
      by_contra h0
      have : k = 0 := by omega
      exact hc (Or.inr (by rw [hnum]; exact this))
    rw [hout] at ho
    cases ho
    refine ⟨k, stk, hk1, hkm, hk, hn, rfl, hs, ?_, ?_⟩
    · exact not_lt.mp (fun h => hc (Or.inl h))
    · intro j stj hj1 hjk hj
      obtain ⟨sti, h1, h2, _⟩ := hpre j hjk
      rw [hj] at h1
      cases h1
      rcases h2 with h2 | h2
      · exact h2
      · rw [rounds_num_iter a j _ stj hj, initial_state_num_iter] at h2
        omega
  · rw [hout] at ho; cases ho
  · rw [hout] at ho; cases ho

/-- C2, at the one-bus example with the zero increment: the call returns
normally, and it does so after exactly one round. -/
theorem C2_normal_return_witness :
    ∃ res out, run_state_estimation (example_args 0 1) (fun _ => none)
        (example_solver ⟨0, 0, 0, 0⟩ 7) 2 = some res
      ∧ res.outcome = Except.ok out
      ∧ ∃ (k : Nat) (stk : SEState ℝ Unit), 1 ≤ k ∧ (k : Int) ≤ (example_args 0 1).max_iter
          ∧ rounds (example_args 0 1) k (initial_state (example_args 0 1) (fun _ => none)
              (example_solver ⟨0, 0, 0, 0⟩ 7)) = Except.ok stk
          ∧ res.num_iter = k ∧ out.u = stk.u ∧ res.solver = stk.solver
          ∧ stk.max_dev ≤ (example_args 0 1).err_tol
          ∧ ∀ (j : Nat) stj, 1 ≤ j → j < k →
              rounds (example_args 0 1) j (initial_state (example_args 0 1) (fun _ => none)
                (example_solver ⟨0, 0, 0, 0⟩ 7)) = Except.ok stj →
              (example_args 0 1).err_tol < stj.max_dev := by
  obtain ⟨res, out, hres, hout, _⟩ := example_converges
  exact ⟨res, out, hres, hout,
    (C2_normal_return (example_args 0 1) (fun _ => none) (example_solver ⟨0, 0, 0, 0⟩ 7)
      (by decide)).1 2 res out hres hout⟩

/-- C3 fails as stated.  The one-bus example is called with the invalid
tolerance `err_tol = 0` (and `max_iter = 1`).  With a sparse solver that
signals a singular matrix the call fails only inside the first round, after
the assembly has run: the right-hand-side block of bus 0, which held 7
before the call, has been cleared.  With a sparse solver that returns the zero
increment the call raises no error at all: it executes one round and returns
normally. -/
theorem C3_counterexample :
    (example_args 0 1).err_tol ≤ 0
      ∧ (example_failing_solver 7).del_x_rhs_ 0 ≠ NRSEUnknown.zero
      ∧ (∃ res, run_state_estimation (example_args 0 1) (fun _ => none)
            (example_failing_solver 7) 2 = some res
          ∧ res.outcome = Except.error SEError.SingularMatrix
          ∧ res.solver.del_x_rhs_ 0 = NRSEUnknown.zero)
      ∧ ∃ res out, run_state_estimation (example_args 0 1) (fun _ => none)
          (example_solver ⟨0, 0, 0, 0⟩ 7) 2 = some res
        ∧ res.outcome = Except.ok out ∧ res.num_iter = 1 := by
  refine ⟨le_refl _, ?_, example_singular 0 7, example_converges⟩
  intro h
  have h7 : ((example_failing_solver 7).del_x_rhs_ 0).v = 7 := rfl
  rw [h] at h7
  simp [NRSEUnknown.zero] at h7

/-- C3 (amended): `run_state_estimation` validates neither `err_tol` nor
`max_iter`.  With `max_iter = 0` the call ends before the first round, with
`IterationDiverge` carrying `(0, initial max_dev, err_tol)` and the buffers
`data_gain_` and `del_x_rhs_` untouched.  With `max_iter >= 1` and any
`err_tol` the call ends (within `max_iter + 1` evaluations of the loop
condition) and the first round is started: it ends by a normal return or by
`IterationDiverge` only after `k >= 1` completed rounds, or by the error of
the sparse solver raised inside a round, after the assembly of that round has
filled the right-hand-side buffer.  With `max_iter < 0` the first round is
started as well and `IterationDiverge` is never raised: a call that ends has
ended by a normal return after `k >= 1` rounds or by the error of the sparse
solver; the call ends once a round has left `max_dev <= err_tol` or has
failed; and it does not end when every round succeeds with
`max_dev > err_tol`, as is the case for `err_tol < 0` with a sparse solver
that never fails. -/
theorem C3_no_input_validation (a : SEArgs R) (info : CalculationInfo R)
    (s : NewtonRaphsonSESolver R P) :
    (a.max_iter = 0 → ∀ fuel, 1 ≤ fuel →
        ∃ res, run_state_estimation a info s fuel = some res
          ∧ res.outcome = Except.error (SEError.IterationDiverge 0 a.dbl_max a.err_tol)
          ∧ res.solver = (initial_state a info s).solver
          ∧ res.solver.data_gain_ = s.data_gain_ ∧ res.solver.del_x_rhs_ = s.del_x_rhs_)
      ∧ (1 ≤ a.max_iter → ∀ fuel, a.max_iter.toNat < fuel →
          ∃ res, run_state_estimation a info s fuel = some res
            ∧ ∃ k stk, rounds a k (initial_state a info s) = Except.ok stk
              ∧ ((1 ≤ k ∧ res.solver = stk.solver
                    ∧ ((∃ out, res.outcome = Except.ok out)
                      ∨ ((k : Int) = a.max_iter ∧ res.outcome
                          = Except.error
                              (SEError.IterationDiverge a.max_iter stk.max_dev a.err_tol))))
                ∨ ((∃ e, round a stk = Except.error e)
                    ∧ res.outcome = Except.error SEError.SingularMatrix
                    ∧ res.solver.del_x_rhs_
                        = (assemble_gain_and_rhs a.cabs a.y_bus a.measured_values stk.u
                            stk.solver).del_x_rhs_)))
      ∧ (a.max_iter < 0 →
          (∀ fuel res, run_state_estimation a info s fuel = some res →
            ∃ k stk, rounds a k (initial_state a info s) = Except.ok stk
              ∧ ((1 ≤ k ∧ res.solver = stk.solver ∧ ∃ out, res.outcome = Except.ok out)
                ∨ ((∃ e, round a stk = Except.error e)
                    ∧ res.outcome = Except.error SEError.SingularMatrix
                    ∧ res.solver.del_x_rhs_
                        = (assemble_gain_and_rhs a.cabs a.y_bus a.measured_values stk.u
                            stk.solver).del_x_rhs_)))
          ∧ (∀ k stk, rounds a k (initial_state a info s) = Except.ok stk →
              ((1 ≤ k ∧ stk.max_dev ≤ a.err_tol) ∨ ∃ e, round a stk = Except.error e) →
              ∃ res, run_state_estimation a info s (k + 1) = some res)
          ∧ ((∀ k, ∃ stk, rounds a k (initial_state a info s) = Except.ok stk
                ∧ (1 ≤ k → a.err_tol < stk.max_dev)) →
              ∀ fuel, run_state_estimation a info s fuel = none)
          ∧ (a.err_tol < 0 →
              (∀ g p, ∃ r, s.sparse_solver_.prefactorize g p = some r) →
              (∀ g p r, ∃ x, s.sparse_solver_.solve_with_prefactorized_matrix g p r = some x) →
              ∀ fuel, run_state_estimation a info s fuel = none)) := by
  refine ⟨?_, ?_, ?_⟩
  · intro hm fuel hfuel
    obtain ⟨res, hres⟩ := run_total a info s fuel (by omega) (by omega)
    exact ⟨res, hres, (run_ends_how a info s fuel res hres).1 hm⟩
  · intro hm fuel hfuel
    obtain ⟨res, hres⟩ := run_total a info s fuel (by omega) hfuel
    exact ⟨res, hres, (run_ends_how a info s fuel res hres).2 (by omega)⟩
  · intro hneg
    have hnever : (∀ k, ∃ stk, rounds a k (initial_state a info s) = Except.ok stk
          ∧ (1 ≤ k → a.err_tol < stk.max_dev)) →
        ∀ fuel, run_state_estimation a info s fuel = none :=
      fun hall fuel => run_never_ends a info s hneg hall fuel
    refine ⟨?_, ?_, hnever, ?_⟩
    · intro fuel res hres
      obtain ⟨k, stk, hk, hend⟩ := (run_ends_how a info s fuel res hres).2 (by omega)
      refine ⟨k, stk, hk, ?_⟩
      rcases hend with ⟨h1, hs, ho | ⟨hkm, _⟩⟩ | herr
      · exact Or.inl ⟨h1, hs, ho⟩
      · omega
      · exact Or.inr herr
    · intro k stk hk hexit
      have hx : ¬ (a.err_tol < stk.max_dev ∨ stk.num_iter = 0)
          ∨ ∃ e, round a stk = Except.error e := by
        rcases hexit with ⟨h1, hle⟩ | he
        · left
          intro hc
          rcases hc with hc | hc
          · exact absurd hc (not_lt.mpr hle)
          · rw [rounds_num_iter a k _ stk hk, initial_state_num_iter] at hc
            omega
        · exact Or.inr he
      obtain ⟨lres, hl⟩ := iterate_loop_ends a k _ stk hk hx
      exact run_of_loop a info s (k + 1) lres hl
    · intro htol hpre hsol
      apply hnever
      intro k
      have hs0 : (initial_state a info s).solver.sparse_solver_ = s.sparse_solver_ := by
        rw [(initial_state_solver a info s).1]
      obtain ⟨stk, hk⟩ := rounds_ok_of_total a k (initial_state a info s)
        (by rw [hs0]; exact hpre) (by rw [hs0]; exact hsol)
      exact ⟨stk, hk, fun h1 => lt_of_lt_of_le htol (rounds_max_dev_nonneg a k _ stk h1 hk)⟩

/-- C3 (amended), at the one-bus example with the sparse solver that returns
the zero increment: called with `max_iter = 0` and `err_tol = -1` the call
fails at once with `IterationDiverge`; called with `max_iter = -1` and
`err_tol = -1` it does not end. -/
theorem C3_no_input_validation_witness :
    (∃ res, run_state_estimation (example_args (-1) 0) (fun _ => none)
        (example_solver ⟨0, 0, 0, 0⟩ 7) 1 = some res
      ∧ res.outcome = Except.error (SEError.IterationDiverge 0 (2 ^ 1024 - 2 ^ 971) (-1))
      ∧ res.solver.data_gain_ = (example_solver ⟨0, 0, 0, 0⟩ 7).data_gain_)
    ∧ ∀ fuel, run_state_estimation (example_args (-1) (-1)) (fun _ => none)
        (example_solver ⟨0, 0, 0, 0⟩ 7) fuel = none := by
  refine ⟨?_, ?_⟩
  · obtain ⟨res, hres, ho, _, hg, _⟩ := (C3_no_input_validation (example_args (-1) 0)
      (fun _ => none) (example_solver ⟨0, 0, 0, 0⟩ 7)).1 rfl 1 (le_refl 1)
    exact ⟨res, hres, ho, hg⟩
  · exact (C3_no_input_validation (example_args (-1) (-1)) (fun _ => none)
      (example_solver ⟨0, 0, 0, 0⟩ 7)).2.2 (by decide) |>.2.2.2
        (by norm_num [example_args]) (fun g p => ⟨(g, p), rfl⟩)
        (fun _ _ _ => ⟨fun _ => ⟨0, 0, 0, 0⟩, rfl⟩)

/-- C4: after a normal return of `run_state_estimation` that executed `k`
rounds, the entry of `calculation_info` under the key `(2228, "Max number of
iterations")` equals `max(old, k)`, where `old` is the value stored before
the call (`0` when the key was absent); hence the entry did not decrease and
is at least `k`. -/
theorem C4_max_iterations_entry (a : SEArgs R) (info : CalculationInfo R)
    (s : NewtonRaphsonSESolver R P) (fuel : Nat) (res : SEResult R P) (out : MathOutput R)
    (hrun : run_state_estimation a info s fuel = some res)
    (hout : res.outcome = Except.ok out) :
    ∃ k stk, rounds a k (initial_state a info s) = Except.ok stk
      ∧ res.num_iter = k ∧ out.u = stk.u
      ∧ res.calculation_info.get (Timer.make_key 2228 "Max number of iterations")
          = max (info.get (Timer.make_key 2228 "Max number of iterations")) (k : R)
      ∧ info.get (Timer.make_key 2228 "Max number of iterations")
          ≤ res.calculation_info.get (Timer.make_key 2228 "Max number of iterations")
      ∧ (k : R) ≤ res.calculation_info.get (Timer.make_key 2228 "Max number of iterations") := by
  obtain ⟨k, stk, hk, _, _, hend⟩ := run_sound a info s fuel res hrun
  rcases hend with ⟨_, ho, _, hn, hi⟩ | ⟨_, _, ho, _⟩ | ⟨_, _, e, _, ho, _⟩
  · rw [hout] at ho
    cases ho
    refine ⟨k, stk, hk, hn, rfl, hi, ?_, ?_⟩
    · rw [hi]; exact le_max_left _ _
    · rw [hi]; exact le_max_right _ _
  · rw [hout] at ho; cases ho
  · rw [hout] at ho; cases ho

/-- C4, at the one-bus example: the normal return after one round stores
`max(0, 1) = 1` under the key, which was absent before. -/
theorem C4_max_iterations_entry_witness :
    ∃ res, run_state_estimation (example_args 0 1) (fun _ => none)
        (example_solver ⟨0, 0, 0, 0⟩ 7) 2 = some res
      ∧ res.calculation_info.get (Timer.make_key 2228 "Max number of iterations") = 1 := by
  obtain ⟨res, out, hres, hout, hnum⟩ := example_converges
  obtain ⟨k, stk, _, hn, _, hi, _⟩ := C4_max_iterations_entry (example_args 0 1)
    (fun _ => none) (example_solver ⟨0, 0, 0, 0⟩ 7) 2 res out hres hout
  refine ⟨res, hres, ?_⟩
  rw [hi, ← hn, hnum]
  simp [CalculationInfo.get]

end LoopClaims

/-! ## The assembled buffers: no stale state, zero fill-in blocks -/

section AssemblyClaims

variable {R P : Type} [LinearOrderedField R]

/-- The LU pattern of the one-bus example is well formed. -/
theorem example_y_bus_diagonal_present : example_y_bus.DiagonalPresent 1 where
  indptr_zero := rfl
  indptr_last := rfl
  col_lt := fun _ _ _ _ => Nat.lt_one_iff.mpr rfl
  diag := by
    intro row k hrow hin _
    have hr : row = 0 := by omega
    subst hr
    have hk : k = 0 := by
      have h2 : k < 1 := hin.2
      omega
    subst hk
    exact ⟨rfl, by decide⟩
  transpose_lt := fun _ _ _ => Nat.lt_one_iff.mpr rfl

/-- C5: two assemblies on the same solver instance do not leak state.  For a
Y-bus whose diagonal LU entry of each row is not a fill-in, and two solver
objects `s1`, `s2` of the same size with arbitrary, different contents of
`data_gain_`, `del_x_rhs_` and `x_`: (1) if the magnitudes `x.v` agree, the
gain buffer and the RHS buffer after the assembly (before factorisation) are
identical on all LU entries and all buses, for any measurements and
`current_u`; (2) with the same phase shifts, the start of
`run_state_estimation` overwrites `v` and `theta` of every bus, so they do
not depend on the prior `x_`; (3) hence the first assembly of a call gives
identical buffers. -/
theorem C5_no_state_leak (s1 s2 : NewtonRaphsonSESolver R P) (hn : s1.n_bus_ = s2.n_bus_) :
    (∀ (cabs : ComplexValue R → R) (y : YBus R) (mv : MeasuredValues R)
        (u : Nat → ComplexValue R), y.DiagonalPresent s1.n_bus_ →
        (∀ bus, bus < s1.n_bus_ → (s1.x_ bus).v = (s2.x_ bus).v) →
        (∀ k, k < y.nnz_lu → (assemble_gain_and_rhs cabs y mv u s1).data_gain_ k
            = (assemble_gain_and_rhs cabs y mv u s2).data_gain_ k)
        ∧ (∀ r, r < s1.n_bus_ → (assemble_gain_and_rhs cabs y mv u s1).del_x_rhs_ r
            = (assemble_gain_and_rhs cabs y mv u s2).del_x_rhs_ r))
      ∧ (s1.phase_shift = s2.phase_shift →
          ∀ (a : SEArgs R) (info1 info2 : CalculationInfo R) (bus : Nat), bus < s1.n_bus_ →
          ((initial_state a info1 s1).solver.x_ bus).v
              = ((initial_state a info2 s2).solver.x_ bus).v
          ∧ ((initial_state a info1 s1).solver.x_ bus).theta
              = ((initial_state a info2 s2).solver.x_ bus).theta)
      ∧ (s1.phase_shift = s2.phase_shift →
          ∀ (a : SEArgs R) (info1 info2 : CalculationInfo R),
          a.y_bus.DiagonalPresent s1.n_bus_ →
          (∀ k, k < a.y_bus.nnz_lu →
            (assemble_gain_and_rhs a.cabs a.y_bus a.measured_values (initial_state a info1 s1).u
                (initial_state a info1 s1).solver).data_gain_ k
              = (assemble_gain_and_rhs a.cabs a.y_bus a.measured_values
                  (initial_state a info2 s2).u (initial_state a info2 s2).solver).data_gain_ k)
          ∧ (∀ r, r < s1.n_bus_ →
            (assemble_gain_and_rhs a.cabs a.y_bus a.measured_values (initial_state a info1 s1).u
                (initial_state a info1 s1).solver).del_x_rhs_ r
              = (assemble_gain_and_rhs a.cabs a.y_bus a.measured_values
                  (initial_state a info2 s2).u (initial_state a info2 s2).solver).del_x_rhs_ r)) := by
  have part1 : ∀ (t1 t2 : NewtonRaphsonSESolver R P) (cabs : ComplexValue R → R) (y : YBus R)
      (mv : MeasuredValues R) (u : Nat → ComplexValue R), t1.n_bus_ = t2.n_bus_ →
      y.DiagonalPresent t1.n_bus_ →
      (∀ bus, bus < t1.n_bus_ → (t1.x_ bus).v = (t2.x_ bus).v) →
      (∀ k, k < y.nnz_lu → (assemble_gain_and_rhs cabs y mv u t1).data_gain_ k
          = (assemble_gain_and_rhs cabs y mv u t2).data_gain_ k)
      ∧ (∀ r, r < t1.n_bus_ → (assemble_gain_and_rhs cabs y mv u t1).del_x_rhs_ r
          = (assemble_gain_and_rhs cabs y mv u t2).del_x_rhs_ r) := by
    intro t1 t2 cabs y mv u htn hwf hv
    have h := transpose_agree y (assemble_rows_agree_all cabs y mv u t1 t2 hwf htn hv)
      hwf.transpose_lt (List.range y.nnz_lu)
    exact ⟨fun k hk => h.2.2.1 k hk, fun r hr => h.2.2.2 r hr⟩
  have part2 : s1.phase_shift = s2.phase_shift →
      ∀ (a : SEArgs R) (info1 info2 : CalculationInfo R) (bus : Nat),
      bus < s1.n_bus_ →
      ((initial_state a info1 s1).solver.x_ bus).v
          = ((initial_state a info2 s2).solver.x_ bus).v
      ∧ ((initial_state a info1 s1).solver.x_ bus).theta
          = ((initial_state a info2 s2).solver.x_ bus).theta := by
    intro hps a info1 info2 bus hbus
    have hbus2 : bus < s2.n_bus_ := by rw [← hn]; exact hbus
    rw [(initial_state_solver a info1 s1).1, (initial_state_solver a info2 s2).1]
    simp [hbus, hbus2, hps]
  refine ⟨fun cabs y mv u hwf hv => part1 s1 s2 cabs y mv u hn hwf hv, part2, ?_⟩
  intro hps a info1 info2 hwf
  have hu : (initial_state a info1 s1).u = (initial_state a info2 s2).u := by
    rw [(initial_state_solver a info1 s1).2, (initial_state_solver a info2 s2).2, hn, hps]
  have hn1 : (initial_state a info1 s1).solver.n_bus_ = s1.n_bus_ := by
    rw [(initial_state_solver a info1 s1).1]
  have hn2 : (initial_state a info2 s2).solver.n_bus_ = s2.n_bus_ := by
    rw [(initial_state_solver a info2 s2).1]
  rw [hu]
  have := part1 (initial_state a info1 s1).solver (initial_state a info2 s2).solver a.cabs
    a.y_bus a.measured_values (initial_state a info2 s2).u (by rw [hn1, hn2]; exact hn)
    (by rw [hn1]; exact hwf)
    (fun bus hbus => (part2 hps a info1 info2 bus (by rw [← hn1]; exact hbus)).1)
  rw [hn1] at this
  exact this

/-- C5, at the one-bus example: the solver is called once with every buffer
holding 7 and once with every buffer holding 9; the gain block and the RHS
block of the first assembly are the same. -/
theorem C5_no_state_leak_witness :
    (assemble_gain_and_rhs (example_args 0 1).cabs (example_args 0 1).y_bus
        (example_args 0 1).measured_values
        (initial_state (example_args 0 1) (fun _ => none) (example_solver ⟨0, 0, 0, 0⟩ 7)).u
        (initial_state (example_args 0 1) (fun _ => none)
          (example_solver ⟨0, 0, 0, 0⟩ 7)).solver).data_gain_ 0
      = (assemble_gain_and_rhs (example_args 0 1).cabs (example_args 0 1).y_bus
        (example_args 0 1).measured_values
        (initial_state (example_args 0 1) (fun _ => none) (example_solver ⟨0, 0, 0, 0⟩ 9)).u
        (initial_state (example_args 0 1) (fun _ => none)
          (example_solver ⟨0, 0, 0, 0⟩ 9)).solver).data_gain_ 0
    ∧ (assemble_gain_and_rhs (example_args 0 1).cabs (example_args 0 1).y_bus
        (example_args 0 1).measured_values
        (initial_state (example_args 0 1) (fun _ => none) (example_solver ⟨0, 0, 0, 0⟩ 7)).u
        (initial_state (example_args 0 1) (fun _ => none)
          (example_solver ⟨0, 0, 0, 0⟩ 7)).solver).del_x_rhs_ 0
      = (assemble_gain_and_rhs (example_args 0 1).cabs (example_args 0 1).y_bus
        (example_args 0 1).measured_values
        (initial_state (example_args 0 1) (fun _ => none) (example_solver ⟨0, 0, 0, 0⟩ 9)).u
        (initial_state (example_args 0 1) (fun _ => none)
          (example_solver ⟨0, 0, 0, 0⟩ 9)).solver).del_x_rhs_ 0 := by
  have h := (C5_no_state_leak (example_solver ⟨0, 0, 0, 0⟩ 7) (example_solver ⟨0, 0, 0, 0⟩ 9)
    rfl).2.2 rfl (example_args 0 1) (fun _ => none) (fun _ => none)
    example_y_bus_diagonal_present
  exact ⟨h.1 0 (by decide), h.2 0 (by decide)⟩

/-- After the assembly (before factorisation) a fill-in LU entry `k` of a row
`row` holds the all-zero gain block when `k` is off-diagonal, or when `k` is
the entry `lu_diag[row]` and the row has an entry that is not a fill-in; and
the transpose pass does not write to any fill-in entry. -/
theorem fill_in_block_zero (cabs : ComplexValue R → R) (y : YBus R) (mv : MeasuredValues R)
    (u : Nat → ComplexValue R) (s : NewtonRaphsonSESolver R P) (k row : Nat)
    (hf : y.map_lu_y_bus k = -1) (hrow : row < s.n_bus_)
    (h : (y.InRow row k ∧ y.col_indices_lu k ≠ row)
      ∨ (y.lu_diag row = k ∧ ∃ k2, y.InRow row k2 ∧ y.map_lu_y_bus k2 ≠ -1)) :
    (assemble_gain_and_rhs cabs y mv u s).data_gain_ k = NRSEGainBlock.zero
      ∧ ∀ (t : NewtonRaphsonSESolver R P) (l : List Nat),
          (l.foldl (transpose_step y) t).data_gain_ k = t.data_gain_ k := by
  refine ⟨?_, fun t l => transpose_fill_in_untouched y t k hf l⟩
  unfold assemble_gain_and_rhs
  rw [transpose_fill_in_untouched y _ k hf, assemble_rows_eq]
  apply foldl_establish (fun _ : NewtonRaphsonSESolver R P => True)
    (fun t : NewtonRaphsonSESolver R P => t.data_gain_ k = NRSEGainBlock.zero)
    _ _ row (List.mem_range.mpr hrow)
  · intro _ _ _ _; trivial
  · intro b _
    exact row_step_zero_est cabs y mv u _ row k b hf h
  · intro b r _ hb
    exact row_step_zero_pres cabs y mv u _ r k b hf hb
  · trivial

/-- At the two-bus example without branch the fill-in entry 1, at `(0, 1)`,
holds the zero block after the assembly although every slot held 7 before. -/
theorem example_two_fill_in_zero :
    (assemble_gain_and_rhs real_cabs example_y_bus_two example_measured_values
        (fun _ => ⟨1, 0⟩)
        { example_solver ⟨0, 0, 0, 0⟩ 7 with n_bus_ := 2 }).data_gain_ 1 = NRSEGainBlock.zero
      ∧ ∀ (t : NewtonRaphsonSESolver ℝ Unit) (l : List Nat),
          (l.foldl (transpose_step example_y_bus_two) t).data_gain_ 1 = t.data_gain_ 1 :=
  fill_in_block_zero real_cabs example_y_bus_two example_measured_values (fun _ => ⟨1, 0⟩)
    { example_solver ⟨0, 0, 0, 0⟩ 7 with n_bus_ := 2 } 1 0 (by decide) (by decide)
    (Or.inl ⟨⟨by decide, by decide⟩, by decide⟩)

end AssemblyClaims

/-! ## Claims on the scalar kernels -/

section KernelClaims

/-- C15: the two trigonometric combinators are the stated sums of products of
real and imaginary parts; together they are real and imaginary part of
`ui * conj (y * uj)`; and for `ui = |ui| e^{ia}`, `uj = |uj| e^{ib}` they are
`|ui| |uj| (g cos (a - b) + b_im sin (a - b))` and
`|ui| |uj| (g sin (a - b) - b_im cos (a - b))` with `y = g + i b_im`. -/
theorem C15_trig_combinators (R : Type) [LinearOrderedField R] :
    (∀ y ui uj : ComplexValue R,
      g_cos_plus_b_sin y ui uj
          = y.re * (ui.re * uj.re + ui.im * uj.im) + y.im * (ui.im * uj.re - ui.re * uj.im)
        ∧ g_sin_minus_b_cos y ui uj
          = y.re * (ui.im * uj.re - ui.re * uj.im) - y.im * (ui.re * uj.re + ui.im * uj.im))
    ∧ (∀ y ui uj : ComplexValue ℝ,
      (⟨g_cos_plus_b_sin y ui uj, g_sin_minus_b_cos y ui uj⟩ : ℂ)
        = ui.toComplex * (starRingEnd ℂ) (y.toComplex * uj.toComplex))
    ∧ (∀ (y ui uj : ComplexValue ℝ) (a b : ℝ),
      ui = ComplexValue.smul (real_cabs ui) (real_cexp a) →
      uj = ComplexValue.smul (real_cabs uj) (real_cexp b) →
      g_cos_plus_b_sin y ui uj
          = real_cabs ui * real_cabs uj * (y.re * Real.cos (a - b) + y.im * Real.sin (a - b))
        ∧ g_sin_minus_b_cos y ui uj
          = real_cabs ui * real_cabs uj
              * (y.re * Real.sin (a - b) - y.im * Real.cos (a - b))) := by
  refine ⟨fun y ui uj => ⟨rfl, rfl⟩, ?_, ?_⟩
  · intro y ui uj
    apply Complex.ext
    · simp only [g_cos_plus_b_sin, ui_uj_cos_ij, ui_uj_sin_ij, ComplexValue.toComplex,
        Complex.mul_re, Complex.mul_im, Complex.conj_re, Complex.conj_im]
      ring
    · simp only [g_sin_minus_b_cos, ui_uj_cos_ij, ui_uj_sin_ij, ComplexValue.toComplex,
        Complex.mul_re, Complex.mul_im, Complex.conj_re, Complex.conj_im]
      ring
  · intro y ui uj a b hui huj
    have h1 : ui.re = real_cabs ui * Real.cos a := congrArg ComplexValue.re hui
    have h2 : ui.im = real_cabs ui * Real.sin a := congrArg ComplexValue.im hui
    have h3 : uj.re = real_cabs uj * Real.cos b := congrArg ComplexValue.re huj
    have h4 : uj.im = real_cabs uj * Real.sin b := congrArg ComplexValue.im huj
    constructor
    · simp only [g_cos_plus_b_sin, ui_uj_cos_ij, ui_uj_sin_ij]
      rw [Real.cos_sub, Real.sin_sub]
      generalize real_cabs ui = ri at h1 h2
      generalize real_cabs uj = rj at h3 h4
      rw [h1, h2, h3, h4]
      ring
    · simp only [g_sin_minus_b_cos, ui_uj_cos_ij, ui_uj_sin_ij]
      rw [Real.cos_sub, Real.sin_sub]
      generalize real_cabs ui = ri at h1 h2
      generalize real_cabs uj = rj at h3 h4
      rw [h1, h2, h3, h4]
      ring

end KernelClaims

/-! ## Claims on the Jacobian kernels -/

section KernelClaimsNormal

/-- C17: `multiply_add_jacobian_blocks` adds the entries of
`M = F1^T * W * F2` to the `G` slots in the order `M 0 0` to `g_P_theta`,
`M 1 1` to `g_P_v`, `M 0 1` to `g_Q_theta`, `M 1 0` to `g_Q_v`, so the `G`
sub-block is not increased by `M`: with both Jacobians that of a shunt of
admittance 1 at voltage 1, `power_flow_jacobian 0 1 1`, and unit variances,
the zero block becomes `[[1, 1], [0, 0]]` whereas `F^T * W * F` is the unit
matrix. -/
theorem C17_gain_slots_permuted (R : Type) [LinearOrderedField R] :
    (∀ (block : NRSEGainBlock R) (rhs_block : NRSEUnknown R) (F1 F2 : NRSEJacobian R)
        (power_sensor : PowerSensorCalcParam R) (p q : R),
      (multiply_add_jacobian_blocks block rhs_block F1 F2 power_sensor p q).1.g_block
        = block.g_block
          + !![spec_normal_block F1 F2 power_sensor 0 0, spec_normal_block F1 F2 power_sensor 1 1;
               spec_normal_block F1 F2 power_sensor 0 1, spec_normal_block F1 F2 power_sensor 1 0])
    ∧ (multiply_add_jacobian_blocks (NRSEGainBlock.zero : NRSEGainBlock ℚ) NRSEUnknown.zero
          (power_flow_jacobian 0 1 1) (power_flow_jacobian 0 1 1) ⟨⟨1, 0⟩, 1, 1⟩ 1 0).1.g_block
        = !![1, 1; 0, 0]
    ∧ (NRSEGainBlock.zero : NRSEGainBlock ℚ).g_block
          + spec_normal_block (power_flow_jacobian 0 1 1) (power_flow_jacobian 0 1 1)
              ⟨⟨1, 0⟩, 1, 1⟩
        = !![1, 0; 0, 1]
    ∧ (multiply_add_jacobian_blocks (NRSEGainBlock.zero : NRSEGainBlock ℚ) NRSEUnknown.zero
          (power_flow_jacobian 0 1 1) (power_flow_jacobian 0 1 1) ⟨⟨1, 0⟩, 1, 1⟩ 1 0).1.g_block
        ≠ (NRSEGainBlock.zero : NRSEGainBlock ℚ).g_block
          + spec_normal_block (power_flow_jacobian 0 1 1) (power_flow_jacobian 0 1 1)
              ⟨⟨1, 0⟩, 1, 1⟩ := by
  refine ⟨?_, by decide!, by decide!, by decide!⟩
  intro block rhs_block F1 F2 power_sensor p q
  ext i j
  fin_cases i <;> fin_cases j <;>
    simp [NRSEGainBlock.g_block, NRSEGainBlock.get_val, multiply_add_jacobian_blocks,
      spec_normal_block, spec_weight, NRSEJacobian.toMatrix, diagonal_inverse,
      Matrix.mul_apply, Fin.sum_univ_two, Matrix.diagonal_apply, Matrix.transpose_apply,
      Matrix.vecHead, Matrix.transpose] <;> ring

/-- C18: for a power sensor with non-zero variances, `W = diag(1 / p_variance,
1 / q_variance)` is the inverse of `diag(p_variance, q_variance)`, and
`multiply_add_jacobian_blocks` increases the slots `(eta_theta, eta_v)` of the
right-hand side by exactly `F1^T * W * (calculated - measured)`; the slots
`tau_p`, `tau_q` and the `Q`, `QT` and `R` sub-blocks of the gain block are
left as they were. -/
theorem C18_residual_accumulation {R : Type} [LinearOrderedField R] (block : NRSEGainBlock R)
    (rhs_block : NRSEUnknown R) (F1 F2 : NRSEJacobian R)
    (power_sensor : PowerSensorCalcParam R) (p q : R)
    (hp : power_sensor.p_variance ≠ 0) (hq : power_sensor.q_variance ≠ 0) :
    spec_weight power_sensor
        * Matrix.diagonal ![power_sensor.p_variance, power_sensor.q_variance] = 1
      ∧ ![(multiply_add_jacobian_blocks block rhs_block F1 F2 power_sensor p q).2.eta_theta,
          (multiply_add_jacobian_blocks block rhs_block F1 F2 power_sensor p q).2.eta_v]
        = ![rhs_block.eta_theta, rhs_block.eta_v] + spec_residual F1 power_sensor p q
      ∧ (multiply_add_jacobian_blocks block rhs_block F1 F2 power_sensor p q).2.tau_p
        = rhs_block.tau_p
      ∧ (multiply_add_jacobian_blocks block rhs_block F1 F2 power_sensor p q).2.tau_q
        = rhs_block.tau_q
      ∧ (multiply_add_jacobian_blocks block rhs_block F1 F2 power_sensor p q).1.q_block
        = block.q_block
      ∧ (multiply_add_jacobian_blocks block rhs_block F1 F2 power_sensor p q).1.qt_block
        = block.qt_block
      ∧ (multiply_add_jacobian_blocks block rhs_block F1 F2 power_sensor p q).1.r_block
        = block.r_block := by
  refine ⟨?_, ?_, rfl, rfl, rfl, rfl, rfl⟩
  · ext i j
    fin_cases i <;> fin_cases j <;>
      simp [spec_weight, Matrix.mul_apply, Fin.sum_univ_two, Matrix.diagonal_apply, hp, hq]
  · ext i
    fin_cases i <;>
      simp [multiply_add_jacobian_blocks, NRSEUnknown.eta_theta, NRSEUnknown.eta_v,
        spec_residual, spec_weight, NRSEJacobian.toMatrix, diagonal_inverse,
        Matrix.mulVec, Matrix.dotProduct, Matrix.mul_apply, Fin.sum_univ_two,
        Matrix.diagonal_apply, Matrix.transpose_apply, Matrix.vecHead, Matrix.transpose] <;>
      ring

/-- C18, at a sensor with value `1 + i` and variances 2 and 4, the Jacobian
`[[1, 2], [3, 4]]` and the calculated power `3 + 5 i`. -/
theorem C18_residual_accumulation_witness :
    spec_weight (⟨⟨1, 1⟩, 2, 4⟩ : PowerSensorCalcParam ℚ) * Matrix.diagonal ![2, 4] = 1
      ∧ ![(multiply_add_jacobian_blocks (NRSEGainBlock.zero : NRSEGainBlock ℚ) NRSEUnknown.zero
            ⟨1, 2, 3, 4⟩ ⟨1, 2, 3, 4⟩ ⟨⟨1, 1⟩, 2, 4⟩ 3 5).2.eta_theta,
          (multiply_add_jacobian_blocks (NRSEGainBlock.zero : NRSEGainBlock ℚ) NRSEUnknown.zero
            ⟨1, 2, 3, 4⟩ ⟨1, 2, 3, 4⟩ ⟨⟨1, 1⟩, 2, 4⟩ 3 5).2.eta_v]
        = ![(NRSEUnknown.zero : NRSEUnknown ℚ).eta_theta, (NRSEUnknown.zero : NRSEUnknown ℚ).eta_v]
          + spec_residual ⟨1, 2, 3, 4⟩ ⟨⟨1, 1⟩, 2, 4⟩ 3 5
      ∧ (multiply_add_jacobian_blocks (NRSEGainBlock.zero : NRSEGainBlock ℚ) NRSEUnknown.zero
            ⟨1, 2, 3, 4⟩ ⟨1, 2, 3, 4⟩ ⟨⟨1, 1⟩, 2, 4⟩ 3 5).2.tau_p
        = (NRSEUnknown.zero : NRSEUnknown ℚ).tau_p
      ∧ (multiply_add_jacobian_blocks (NRSEGainBlock.zero : NRSEGainBlock ℚ) NRSEUnknown.zero
            ⟨1, 2, 3, 4⟩ ⟨1, 2, 3, 4⟩ ⟨⟨1, 1⟩, 2, 4⟩ 3 5).2.tau_q
        = (NRSEUnknown.zero : NRSEUnknown ℚ).tau_q
      ∧ (multiply_add_jacobian_blocks (NRSEGainBlock.zero : NRSEGainBlock ℚ) NRSEUnknown.zero
            ⟨1, 2, 3, 4⟩ ⟨1, 2, 3, 4⟩ ⟨⟨1, 1⟩, 2, 4⟩ 3 5).1.q_block
        = (NRSEGainBlock.zero : NRSEGainBlock ℚ).q_block
      ∧ (multiply_add_jacobian_blocks (NRSEGainBlock.zero : NRSEGainBlock ℚ) NRSEUnknown.zero
            ⟨1, 2, 3, 4⟩ ⟨1, 2, 3, 4⟩ ⟨⟨1, 1⟩, 2, 4⟩ 3 5).1.qt_block
        = (NRSEGainBlock.zero : NRSEGainBlock ℚ).qt_block
      ∧ (multiply_add_jacobian_blocks (NRSEGainBlock.zero : NRSEGainBlock ℚ) NRSEUnknown.zero
            ⟨1, 2, 3, 4⟩ ⟨1, 2, 3, 4⟩ ⟨⟨1, 1⟩, 2, 4⟩ 3 5).1.r_block
        = (NRSEGainBlock.zero : NRSEGainBlock ℚ).r_block :=
  C18_residual_accumulation NRSEGainBlock.zero NRSEUnknown.zero ⟨1, 2, 3, 4⟩ ⟨1, 2, 3, 4⟩
    ⟨⟨1, 1⟩, 2, 4⟩ 3 5 (by decide) (by decide)

/-- C19: `power_flow_jacobian_side_i_addition` returns the block it receives,
whatever `P`, `Q` and `1/|ui|` are; it adds nothing.  For the Jacobian of a
shunt of admittance 1 at voltage 1, `power_flow_jacobian 0 1 1` with `P = 1`,
`Q = 0`, `1/|ui| = 1`, it returns `(0, -1, 1, 0)` whereas the block with
`-Q`, `P/|ui|`, `P`, `Q/|ui|` added is `(0, 0, 2, 0)`. -/
theorem C19_side_i_addition_adds_nothing (R : Type) [LinearOrderedField R] :
    (∀ (J : NRSEJacobian R) (p q abs_ui_inv : R),
      power_flow_jacobian_side_i_addition J p q abs_ui_inv = J)
    ∧ power_flow_jacobian_side_i_addition (power_flow_jacobian (0 : ℚ) 1 1) 1 0 1
        = ⟨0, -1, 1, 0⟩
    ∧ spec_side_i_addition (power_flow_jacobian (0 : ℚ) 1 1) 1 0 1 = ⟨0, 0, 2, 0⟩
    ∧ power_flow_jacobian_side_i_addition (power_flow_jacobian (0 : ℚ) 1 1) 1 0 1
        ≠ spec_side_i_addition (power_flow_jacobian (0 : ℚ) 1 1) 1 0 1 :=
  ⟨fun _ _ _ _ => rfl, by decide!, by decide!, by decide!⟩

end KernelClaimsNormal

/-! ## Lemmas on the assembly: block predicates that ignore the `G` slots -/

section AssemblyBlockPredicate

variable {R P : Type} [LinearOrderedField R]

theorem clear_gain_block_pred (Pb : NRSEGainBlock R → Prop) (hz : Pb NRSEGainBlock.zero)
    (s : NewtonRaphsonSESolver R P) (k k1 : Nat) (h : Pb (s.data_gain_ k1)) :
    Pb ((clear_gain_block s k).data_gain_ k1) := by
  rw [clear_gain_block_gain]
  split_ifs
  · exact hz
  · exact h

theorem voltage_step_pred (Pb : NRSEGainBlock R → Prop)
    (hg : ∀ b a1 a2 a3 a4, Pb b →
      Pb { b with g_P_theta := a1, g_P_v := a2, g_Q_theta := a3, g_Q_v := a4 })
    (cabs : ComplexValue R → R) (mv : MeasuredValues R) (u mu : Nat → ComplexValue R)
    (row k k1 : Nat) (s : NewtonRaphsonSESolver R P) (h : Pb (s.data_gain_ k1)) :
    Pb ((voltage_step cabs mv u mu row k s).data_gain_ k1) := by
  by_cases hk : k1 = k
  · subst hk
    simp only [voltage_step, Function.update_same]
    exact hg _ _ _ _ _ h
  · rw [voltage_step_gain_ne _ _ _ _ _ _ _ _ hk]
    exact h

theorem element_step_pred (Pb : NRSEGainBlock R → Prop)
    (hg : ∀ b a1 a2 a3 a4, Pb b →
      Pb { b with g_P_theta := a1, g_P_v := a2, g_Q_theta := a3, g_Q_v := a4 })
    (y : YBus R) (mv : MeasuredValues R) (u : Nat → ComplexValue R)
    (row col k e k1 : Nat) (s : NewtonRaphsonSESolver R P) (h : Pb (s.data_gain_ k1)) :
    Pb ((element_step y mv u row col k s e).data_gain_ k1) := by
  by_cases hk : k1 = k
  · subst hk
    unfold element_step
    split
    · exact h
    · simp only [multiply_add_jacobian_blocks, Function.update_same]
      exact hg _ _ _ _ _ h
  · rw [element_step_gain_ne _ _ _ _ _ _ _ _ _ hk]
    exact h

theorem element_loop_pred (Pb : NRSEGainBlock R → Prop)
    (hg : ∀ b a1 a2 a3 a4, Pb b →
      Pb { b with g_P_theta := a1, g_P_v := a2, g_Q_theta := a3, g_Q_v := a4 })
    (y : YBus R) (mv : MeasuredValues R) (u : Nat → ComplexValue R)
    (row col k d k1 : Nat) (s : NewtonRaphsonSESolver R P) (h : Pb (s.data_gain_ k1)) :
    Pb ((element_loop y mv u row col k d s).data_gain_ k1) := by
  unfold element_loop
  apply foldl_preserves (fun t : NewtonRaphsonSESolver R P => Pb (t.data_gain_ k1))
  · intro b e _ hb
    exact element_step_pred Pb hg y mv u row col k e k1 b hb
  · exact h

/-- The injection block of the inner loop keeps a block predicate at `k1` when
the predicate survives the assignment of `-1` to `r_P_theta` and `r_Q_v`, or
when `k1` is not the entry written, or when the entry is off-diagonal. -/
theorem injection_step_pred (Pb : NRSEGainBlock R → Prop)
    (y : YBus R) (mv : MeasuredValues R) (u : Nat → ComplexValue R)
    (row col k d k1 : Nat) (s : NewtonRaphsonSESolver R P)
    (hr : (∀ b, Pb b → Pb { b with r_P_theta := -1, r_Q_v := -1 }) ∨ k1 ≠ k ∨ row ≠ col)
    (h : Pb (s.data_gain_ k1)) :
    Pb ((injection_step y mv u row col k d s).data_gain_ k1) := by
  by_cases hk : k1 = k
  · subst hk
    unfold injection_step
    split_ifs with h1 h2 h3
    · exact h
    · exact h
    · rcases hr with hr | hr | hr
      · simp only [Function.update_same]
        exact hr _ h
      · exact absurd rfl hr
      · exact absurd h3 hr
    · exact h
  · rw [injection_step_gain_ne _ _ _ _ _ _ _ _ _ hk]
    exact h

theorem entry_step_pred (Pb : NRSEGainBlock R → Prop) (hz : Pb NRSEGainBlock.zero)
    (hg : ∀ b a1 a2 a3 a4, Pb b →
      Pb { b with g_P_theta := a1, g_P_v := a2, g_Q_theta := a3, g_Q_v := a4 })
    (cabs : ComplexValue R → R) (y : YBus R) (mv : MeasuredValues R)
    (u mu : Nat → ComplexValue R) (row k k1 : Nat) (s : NewtonRaphsonSESolver R P)
    (hr : (∀ b, Pb b → Pb { b with r_P_theta := -1, r_Q_v := -1 }) ∨ k1 ≠ k
      ∨ row ≠ y.col_indices_lu k)
    (h : Pb (s.data_gain_ k1)) :
    Pb ((entry_step cabs y mv u mu row s k).data_gain_ k1) := by
  have h0 : Pb ((if row ≠ y.col_indices_lu k then clear_gain_block s k else s).data_gain_ k1) := by
    split_ifs
    · exact clear_gain_block_pred Pb hz s k k1 h
    · exact h
  rw [entry_step_eq]
  by_cases hf : y.map_lu_y_bus k = -1
  · rw [if_pos hf]; exact h0
  · rw [if_neg hf]
    apply injection_step_pred Pb y mv u row _ k _ k1 _ hr
    apply clear_gain_block_pred Pb hz
    apply element_loop_pred Pb hg
    by_cases hv : row = y.col_indices_lu k ∧ mv.has_voltage row = true
    · rw [if_pos hv]
      exact voltage_step_pred Pb hg cabs mv u mu row k k1 _ h0
    · rw [if_neg hv]; exact h0

/-- The inner-loop body of an off-diagonal entry establishes at that entry a
block predicate that holds of the zero block. -/
theorem entry_step_pred_off (Pb : NRSEGainBlock R → Prop) (hz : Pb NRSEGainBlock.zero)
    (hg : ∀ b a1 a2 a3 a4, Pb b →
      Pb { b with g_P_theta := a1, g_P_v := a2, g_Q_theta := a3, g_Q_v := a4 })
    (cabs : ComplexValue R → R) (y : YBus R) (mv : MeasuredValues R)
    (u mu : Nat → ComplexValue R) (row k : Nat) (s : NewtonRaphsonSESolver R P)
    (hc : row ≠ y.col_indices_lu k) :
    Pb ((entry_step cabs y mv u mu row s k).data_gain_ k) := by
  have h0 : Pb ((if row ≠ y.col_indices_lu k then clear_gain_block s k else s).data_gain_ k) := by
    rw [if_pos hc, clear_gain_block_gain, if_pos rfl]
    exact hz
  rw [entry_step_eq]
  by_cases hf : y.map_lu_y_bus k = -1
  · rw [if_pos hf]; exact h0
  · rw [if_neg hf, if_neg (fun hv => hc hv.1)]
    apply injection_step_pred Pb y mv u row _ k _ k _ (Or.inr (Or.inr hc))
    apply clear_gain_block_pred Pb hz
    exact element_loop_pred Pb hg y mv u row _ k _ k _ h0

/-- The inner-loop body of an entry that is not a fill-in establishes at the
block `lu_diag[row]` a block predicate that holds of the zero block and
survives the assignment of `-1` to `r_P_theta` and `r_Q_v`. -/
theorem entry_step_pred_diag (Pb : NRSEGainBlock R → Prop) (hz : Pb NRSEGainBlock.zero)
    (hr : ∀ b, Pb b → Pb { b with r_P_theta := -1, r_Q_v := -1 })
    (cabs : ComplexValue R → R) (y : YBus R) (mv : MeasuredValues R)
    (u mu : Nat → ComplexValue R) (row k : Nat) (s : NewtonRaphsonSESolver R P)
    (hk : y.map_lu_y_bus k ≠ -1) :
    Pb ((entry_step cabs y mv u mu row s k).data_gain_ (y.lu_diag row)) := by
  rw [entry_step_eq, if_neg hk]
  apply injection_step_pred Pb y mv u row _ k _ _ _ (Or.inl hr)
  rw [clear_gain_block_gain, if_pos rfl]
  exact hz

end AssemblyBlockPredicate

section AssemblyRowPredicate

variable {R P : Type} [LinearOrderedField R]

theorem row_step_pred (Pb : NRSEGainBlock R → Prop) (hz : Pb NRSEGainBlock.zero)
    (hg : ∀ b a1 a2 a3 a4, Pb b →
      Pb { b with g_P_theta := a1, g_P_v := a2, g_Q_theta := a3, g_Q_v := a4 })
    (cabs : ComplexValue R → R) (y : YBus R) (mv : MeasuredValues R)
    (u mu : Nat → ComplexValue R) (row k1 : Nat) (s : NewtonRaphsonSESolver R P)
    (hr : (∀ b, Pb b → Pb { b with r_P_theta := -1, r_Q_v := -1 })
      ∨ ∀ k, y.InRow row k → k1 ≠ k ∨ row ≠ y.col_indices_lu k)
    (h : Pb (s.data_gain_ k1)) :
    Pb ((row_step cabs y mv u mu s row).data_gain_ k1) := by
  unfold row_step
  apply foldl_preserves (fun t : NewtonRaphsonSESolver R P => Pb (t.data_gain_ k1))
  · intro b k hk hb
    apply entry_step_pred Pb hz hg cabs y mv u mu row k k1 b _ hb
    rcases hr with hr | hr
    · exact Or.inl hr
    · exact Or.inr (hr k ((mem_range_sub _ _ _).mp hk))
  · exact h

/-- The outer-loop body of a row establishes at every off-diagonal entry of
the row a block predicate that holds of the zero block. -/
theorem row_step_pred_off (Pb : NRSEGainBlock R → Prop) (hz : Pb NRSEGainBlock.zero)
    (hg : ∀ b a1 a2 a3 a4, Pb b →
      Pb { b with g_P_theta := a1, g_P_v := a2, g_Q_theta := a3, g_Q_v := a4 })
    (cabs : ComplexValue R → R) (y : YBus R) (mv : MeasuredValues R)
    (u mu : Nat → ComplexValue R) (row k1 : Nat) (s : NewtonRaphsonSESolver R P)
    (hin : y.InRow row k1) (hc : row ≠ y.col_indices_lu k1) :
    Pb ((row_step cabs y mv u mu s row).data_gain_ k1) := by
  unfold row_step
  apply foldl_establish (fun _ : NewtonRaphsonSESolver R P => True)
    (fun t : NewtonRaphsonSESolver R P => Pb (t.data_gain_ k1))
    _ _ k1 ((mem_range_sub _ _ _).mpr hin)
  · intro _ _ _ _; trivial
  · intro b _
    exact entry_step_pred_off Pb hz hg cabs y mv u mu row k1 b hc
  · intro b k _ hb
    apply entry_step_pred Pb hz hg cabs y mv u mu row k k1 b _ hb
    by_cases hk : k1 = k
    · subst hk; exact Or.inr (Or.inr hc)
    · exact Or.inr (Or.inl hk)
  · trivial

/-- The outer-loop body of a row that has an entry that is not a fill-in
establishes at the block `lu_diag[row]` a block predicate that holds of the
zero block and survives the assignment of `-1` to `r_P_theta` and `r_Q_v`. -/
theorem row_step_pred_diag (Pb : NRSEGainBlock R → Prop) (hz : Pb NRSEGainBlock.zero)
    (hg : ∀ b a1 a2 a3 a4, Pb b →
      Pb { b with g_P_theta := a1, g_P_v := a2, g_Q_theta := a3, g_Q_v := a4 })
    (hr : ∀ b, Pb b → Pb { b with r_P_theta := -1, r_Q_v := -1 })
    (cabs : ComplexValue R → R) (y : YBus R) (mv : MeasuredValues R)
    (u mu : Nat → ComplexValue R) (row k : Nat) (s : NewtonRaphsonSESolver R P)
    (hin : y.InRow row k) (hk : y.map_lu_y_bus k ≠ -1) :
    Pb ((row_step cabs y mv u mu s row).data_gain_ (y.lu_diag row)) := by
  unfold row_step
  apply foldl_establish (fun _ : NewtonRaphsonSESolver R P => True)
    (fun t : NewtonRaphsonSESolver R P => Pb (t.data_gain_ (y.lu_diag row)))
    _ _ k ((mem_range_sub _ _ _).mpr hin)
  · intro _ _ _ _; trivial
  · intro b _
    exact entry_step_pred_diag Pb hz hr cabs y mv u mu row k b hk
  · intro b k2 _ hb
    exact entry_step_pred Pb hz hg cabs y mv u mu row k2 _ b (Or.inl hr) hb
  · trivial

/-- With row pointers that do not decrease, the end of a row is not after
the start of any later row. -/
theorem indptr_le_of_lt (indptr : Nat → Nat) (n : Nat)
    (hmono : ∀ r, r < n → indptr r ≤ indptr (r + 1)) (r1 r2 : Nat) (h12 : r1 < r2)
    (h2 : r2 ≤ n) : indptr (r1 + 1) ≤ indptr r2 := by
  induction r2 with
  | zero => omega
  | succ r ih =>
    by_cases h : r1 = r
    · subst h; exact le_refl _
    · exact le_trans (ih (by omega) (by omega)) (hmono r (by omega))

/-- With row pointers that do not decrease, an LU entry lies in one row
only. -/
theorem inRow_unique (y : YBus R) (n : Nat)
    (hmono : ∀ r, r < n → y.row_indptr_lu r ≤ y.row_indptr_lu (r + 1)) (r1 r2 k : Nat)
    (h1 : r1 < n) (h2 : r2 < n) (hin1 : y.InRow r1 k) (hin2 : y.InRow r2 k) : r1 = r2 := by
  rcases Nat.lt_trichotomy r1 r2 with h | h | h
  · have := indptr_le_of_lt y.row_indptr_lu n hmono r1 r2 h (by omega)
    have a := hin1.2
    have b := hin2.1
    omega
  · exact h
  · have := indptr_le_of_lt y.row_indptr_lu n hmono r2 r1 h (by omega)
    have a := hin2.2
    have b := hin1.1
    omega

/-- After the row loop, a block predicate that holds of the zero block and
ignores the `G` slots holds at every off-diagonal LU entry. -/
theorem assemble_rows_pred_off (Pb : NRSEGainBlock R → Prop) (hz : Pb NRSEGainBlock.zero)
    (hg : ∀ b a1 a2 a3 a4, Pb b →
      Pb { b with g_P_theta := a1, g_P_v := a2, g_Q_theta := a3, g_Q_v := a4 })
    (cabs : ComplexValue R → R) (y : YBus R) (mv : MeasuredValues R)
    (u : Nat → ComplexValue R) (s : NewtonRaphsonSESolver R P)
    (hmono : ∀ r, r < s.n_bus_ → y.row_indptr_lu r ≤ y.row_indptr_lu (r + 1))
    (row k1 : Nat) (hrow : row < s.n_bus_) (hin : y.InRow row k1)
    (hc : row ≠ y.col_indices_lu k1) :
    Pb ((assemble_rows cabs y mv u s).data_gain_ k1) := by
  rw [assemble_rows_eq]
  apply foldl_establish (fun _ : NewtonRaphsonSESolver R P => True)
    (fun t : NewtonRaphsonSESolver R P => Pb (t.data_gain_ k1))
    _ _ row (List.mem_range.mpr hrow)
  · intro _ _ _ _; trivial
  · intro b _
    exact row_step_pred_off Pb hz hg cabs y mv u _ row k1 b hin hc
  · intro b r2 hr2 hb
    apply row_step_pred Pb hz hg cabs y mv u _ r2 k1 b _ hb
    right
    intro k hk
    by_cases hkk : k1 = k
    · subst hkk
      right
      have : r2 = row :=
        inRow_unique y s.n_bus_ hmono r2 row k1 (List.mem_range.mp hr2) hrow hk hin
      rw [this]
      exact hc
    · exact Or.inl hkk
  · trivial

/-- After the row loop, a block predicate that holds of the zero block,
ignores the `G` slots and survives the assignment of `-1` to `r_P_theta` and
`r_Q_v` holds at the block `lu_diag[row]` of every row that has an entry that
is not a fill-in. -/
theorem assemble_rows_pred_diag (Pb : NRSEGainBlock R → Prop) (hz : Pb NRSEGainBlock.zero)
    (hg : ∀ b a1 a2 a3 a4, Pb b →
      Pb { b with g_P_theta := a1, g_P_v := a2, g_Q_theta := a3, g_Q_v := a4 })
    (hr : ∀ b, Pb b → Pb { b with r_P_theta := -1, r_Q_v := -1 })
    (cabs : ComplexValue R → R) (y : YBus R) (mv : MeasuredValues R)
    (u : Nat → ComplexValue R) (s : NewtonRaphsonSESolver R P)
    (row k : Nat) (hrow : row < s.n_bus_) (hin : y.InRow row k)
    (hk : y.map_lu_y_bus k ≠ -1) :
    Pb ((assemble_rows cabs y mv u s).data_gain_ (y.lu_diag row)) := by
  rw [assemble_rows_eq]
  apply foldl_establish (fun _ : NewtonRaphsonSESolver R P => True)
    (fun t : NewtonRaphsonSESolver R P => Pb (t.data_gain_ (y.lu_diag row)))
    _ _ row (List.mem_range.mpr hrow)
  · intro _ _ _ _; trivial
  · intro b _
    exact row_step_pred_diag Pb hz hg hr cabs y mv u _ row k b hin hk
  · intro b r2 _ hb
    exact row_step_pred Pb hz hg cabs y mv u _ r2 _ b (Or.inl hr) hb
  · trivial

end AssemblyRowPredicate

/-! ## Lemmas on the transpose loop -/

section TransposeLemmas

variable {R P : Type} [LinearOrderedField R]

theorem sameButQT_refl (b : NRSEGainBlock R) : b.SameButQT b :=
  ⟨rfl, rfl, rfl, rfl, rfl, rfl, rfl, rfl, rfl, rfl, rfl, rfl⟩

theorem sameButQT_trans {b b1 b2 : NRSEGainBlock R} (h1 : b.SameButQT b1)
    (h2 : b1.SameButQT b2) : b.SameButQT b2 := by
  obtain ⟨a1, a2, a3, a4, a5, a6, a7, a8, a9, a10, a11, a12⟩ := h1
  obtain ⟨c1, c2, c3, c4, c5, c6, c7, c8, c9, c10, c11, c12⟩ := h2
  exact ⟨c1.trans a1, c2.trans a2, c3.trans a3, c4.trans a4, c5.trans a5, c6.trans a6,
    c7.trans a7, c8.trans a8, c9.trans a9, c10.trans a10, c11.trans a11, c12.trans a12⟩

/-- The `G`, `Q` and `R` sub-blocks of two blocks that differ in `qt` slots
only are the same. -/
theorem sameButQT_blocks {b b1 : NRSEGainBlock R} (h : b.SameButQT b1) :
    b1.g_block = b.g_block ∧ b1.q_block = b.q_block ∧ b1.r_block = b.r_block := by
  obtain ⟨a1, a2, a3, a4, a5, a6, a7, a8, a9, a10, a11, a12⟩ := h
  refine ⟨?_, ?_, ?_⟩ <;>
    simp only [NRSEGainBlock.g_block, NRSEGainBlock.q_block, NRSEGainBlock.r_block,
      NRSEGainBlock.get_val, a1, a2, a3, a4, a5, a6, a7, a8, a9, a10, a11, a12]

/-- The assignment of the transpose loop is the matrix transpose of the `Q`
sub-block. -/
theorem qtOf_blocks {b c : NRSEGainBlock R} (h : b.QTOf c) :
    b.qt_block = c.q_block.transpose := by
  obtain ⟨a1, a2, a3, a4⟩ := h
  ext i j
  fin_cases i <;> fin_cases j <;>
    simp [NRSEGainBlock.qt_block, NRSEGainBlock.q_block, NRSEGainBlock.get_val,
      Matrix.transpose_apply, a1, a2, a3, a4]

theorem qtOf_congr {b c c1 : NRSEGainBlock R} (hc : c.SameButQT c1) (h : b.QTOf c) :
    b.QTOf c1 := by
  obtain ⟨_, _, _, _, a5, a6, a7, a8, _⟩ := hc
  obtain ⟨h1, h2, h3, h4⟩ := h
  exact ⟨h1.trans a5.symm, h2.trans a7.symm, h3.trans a6.symm, h4.trans a8.symm⟩

theorem transpose_step_same (y : YBus R) (s : NewtonRaphsonSESolver R P) (k k1 : Nat) :
    (s.data_gain_ k1).SameButQT ((transpose_step y s k).data_gain_ k1) := by
  unfold transpose_step
  split_ifs
  · exact sameButQT_refl _
  · by_cases hk : k1 = k
    · subst hk
      simp only [Function.update_same]
      exact ⟨rfl, rfl, rfl, rfl, rfl, rfl, rfl, rfl, rfl, rfl, rfl, rfl⟩
    · simp only [Function.update_noteq hk]
      exact sameButQT_refl _

theorem transpose_step_qt (y : YBus R) (s : NewtonRaphsonSESolver R P) (k : Nat)
    (hk : y.map_lu_y_bus k ≠ -1) :
    ((transpose_step y s k).data_gain_ k).QTOf (s.data_gain_ (y.lu_transpose_entry k)) := by
  unfold transpose_step
  rw [if_neg hk]
  simp only [Function.update_same]
  exact ⟨rfl, rfl, rfl, rfl⟩

/-- The transpose loop changes no slot but `qt` slots. -/
theorem transpose_loop_same (y : YBus R) (s : NewtonRaphsonSESolver R P) (l : List Nat)
    (k1 : Nat) : (s.data_gain_ k1).SameButQT ((l.foldl (transpose_step y) s).data_gain_ k1) := by
  apply foldl_preserves
    (fun t : NewtonRaphsonSESolver R P => (s.data_gain_ k1).SameButQT (t.data_gain_ k1))
  · intro b k _ hb
    exact sameButQT_trans hb (transpose_step_same y b k k1)
  · exact sameButQT_refl _

/-- After the transpose loop, the `qt` slots of an entry `k` of the loop that
is not a fill-in hold the transposed `Q` sub-block of the entry
`lu_transpose_entry[k]`. -/
theorem transpose_loop_qt (y : YBus R) (s : NewtonRaphsonSESolver R P) (l : List Nat)
    (k : Nat) (hl : k ∈ l) (hk : y.map_lu_y_bus k ≠ -1) :
    ((l.foldl (transpose_step y) s).data_gain_ k).QTOf
      ((l.foldl (transpose_step y) s).data_gain_ (y.lu_transpose_entry k)) := by
  have key : (∀ k1, (s.data_gain_ k1).SameButQT ((l.foldl (transpose_step y) s).data_gain_ k1))
      ∧ ((l.foldl (transpose_step y) s).data_gain_ k).QTOf
          (s.data_gain_ (y.lu_transpose_entry k)) := by
    apply foldl_establish
      (fun t : NewtonRaphsonSESolver R P =>
        ∀ k1, (s.data_gain_ k1).SameButQT (t.data_gain_ k1))
      (fun t : NewtonRaphsonSESolver R P =>
        (∀ k1, (s.data_gain_ k1).SameButQT (t.data_gain_ k1))
          ∧ (t.data_gain_ k).QTOf (s.data_gain_ (y.lu_transpose_entry k)))
      _ _ k hl
    · intro b a _ hb k1
      exact sameButQT_trans (hb k1) (transpose_step_same y b a k1)
    · intro b hb
      refine ⟨fun k1 => sameButQT_trans (hb k1) (transpose_step_same y b k k1), ?_⟩
      have h1 := transpose_step_qt y b k hk
      obtain ⟨_, _, _, _, a5, a6, a7, a8, _⟩ := hb (y.lu_transpose_entry k)
      obtain ⟨h11, h12, h13, h14⟩ := h1
      exact ⟨h11.trans a5, h12.trans a7, h13.trans a6, h14.trans a8⟩
    · intro b a _ hb
      refine ⟨fun k1 => sameButQT_trans (hb.1 k1) (transpose_step_same y b a k1), ?_⟩
      by_cases hak : k = a
      · subst hak
        have h1 := transpose_step_qt y b k hk
        obtain ⟨_, _, _, _, a5, a6, a7, a8, _⟩ := hb.1 (y.lu_transpose_entry k)
        obtain ⟨h11, h12, h13, h14⟩ := h1
        exact ⟨h11.trans a5, h12.trans a7, h13.trans a6, h14.trans a8⟩
      · rw [transpose_step_gain_ne y b a k (Or.inl hak)]
        exact hb.2
    · intro k1
      exact sameButQT_refl _
  exact qtOf_congr (key.1 _) key.2

end TransposeLemmas

/-! ## Claims on the transpose pass -/

section TransposeClaims

variable {R P : Type} [LinearOrderedField R]

/-- C12: for every gain buffer (every solver state `s`), the transpose pass
makes, for every LU entry `k` that is not a fill-in, with
`t = lu_transpose_entry[k]`, the `QT` sub-block of `k` the matrix transpose of
the `Q` sub-block of `t` (`qt_P_theta = q_P_theta(t)`, `qt_P_v = q_Q_theta(t)`,
`qt_Q_theta = q_P_v(t)`, `qt_Q_v = q_Q_v(t)`), and it changes no `G`, `Q` or
`R` slot of any entry; the buffers that `prepare_matrix_and_rhs` hands to the
factorisation are the result of this pass on the result of the row loop. -/
theorem C12_transpose_pass (y : YBus R) (s : NewtonRaphsonSESolver R P) :
    (∀ k, k < y.nnz_lu → y.map_lu_y_bus k ≠ -1 →
      (((List.range y.nnz_lu).foldl (transpose_step y) s).data_gain_ k).qt_block
          = (((List.range y.nnz_lu).foldl (transpose_step y) s).data_gain_
              (y.lu_transpose_entry k)).q_block.transpose
        ∧ (((List.range y.nnz_lu).foldl (transpose_step y) s).data_gain_ k).QTOf
            (((List.range y.nnz_lu).foldl (transpose_step y) s).data_gain_
              (y.lu_transpose_entry k)))
    ∧ (∀ k,
      (((List.range y.nnz_lu).foldl (transpose_step y) s).data_gain_ k).g_block
          = (s.data_gain_ k).g_block
        ∧ (((List.range y.nnz_lu).foldl (transpose_step y) s).data_gain_ k).q_block
          = (s.data_gain_ k).q_block
        ∧ (((List.range y.nnz_lu).foldl (transpose_step y) s).data_gain_ k).r_block
          = (s.data_gain_ k).r_block)
    ∧ (∀ (cabs : ComplexValue R → R) (mv : MeasuredValues R) (u : Nat → ComplexValue R),
      assemble_gain_and_rhs cabs y mv u s
        = (List.range y.nnz_lu).foldl (transpose_step y) (assemble_rows cabs y mv u s)) := by
  refine ⟨?_, ?_, fun _ _ _ => rfl⟩
  · intro k hk hmap
    have h := transpose_loop_qt y s (List.range y.nnz_lu) k (List.mem_range.mpr hk) hmap
    exact ⟨qtOf_blocks h, h⟩
  · intro k
    exact sameButQT_blocks (transpose_loop_same y s (List.range y.nnz_lu) k)

end TransposeClaims

/-! ## Claims on the reset of the diagonal block -/

section DiagonalResetClaims

/-- C11: at the two-bus example with a branch and no measurement at all, bus
0 has no injection measurement, yet after the assembly (before factorisation)
the diagonal block of row 0 has `r_P_theta = 0` and `r_Q_v = 0`: the `-1`
written when the diagonal entry `(0, 0)` is processed is erased when the
diagonal block is reset after the next entry `(0, 1)` of the row.  In row 1
the diagonal entry is the last entry of the row and keeps `-1`.  (The
injection block of the inner loop does write `-1` to both slots of the
diagonal entry of a bus without injection measurement.) -/
theorem C11_diagonal_r_reset :
    (∀ (y : YBus ℝ) (mv : MeasuredValues ℝ) (u : Nat → ComplexValue ℝ) (row k d : Nat)
        (s : NewtonRaphsonSESolver ℝ Unit), mv.has_bus_injection row = false →
      ((injection_step y mv u row row k d s).data_gain_ k).r_P_theta = -1
        ∧ ((injection_step y mv u row row k d s).data_gain_ k).r_Q_v = -1)
    ∧ (example_measured_flow ℝ false ⟨0, 0⟩).has_bus_injection 0 = false
    ∧ (example_y_bus_branch ℝ).lu_diag 0 = 0
    ∧ ((assemble_gain_and_rhs real_cabs (example_y_bus_branch ℝ)
          (example_measured_flow ℝ false ⟨0, 0⟩) (fun _ => ⟨1, 0⟩)
          (example_solver_two ℝ 7)).data_gain_ 0).r_P_theta = 0
    ∧ ((assemble_gain_and_rhs real_cabs (example_y_bus_branch ℝ)
          (example_measured_flow ℝ false ⟨0, 0⟩) (fun _ => ⟨1, 0⟩)
          (example_solver_two ℝ 7)).data_gain_ 0).r_Q_v = 0
    ∧ ((assemble_gain_and_rhs real_cabs (example_y_bus_branch ℝ)
          (example_measured_flow ℝ false ⟨0, 0⟩) (fun _ => ⟨1, 0⟩)
          (example_solver_two ℝ 7)).data_gain_ 3).r_P_theta = -1
    ∧ ((assemble_gain_and_rhs real_cabs (example_y_bus_branch ℝ)
          (example_measured_flow ℝ false ⟨0, 0⟩) (fun _ => ⟨1, 0⟩)
          (example_solver_two ℝ 7)).data_gain_ 3).r_Q_v = -1 := by
  refine ⟨?_, rfl, rfl, rfl, rfl, rfl, rfl⟩
  intro y mv u row k d s h
  simp [injection_step, h]

end DiagonalResetClaims

/-! ## Claims on block symmetry -/

section SymmetryClaims

variable {R P : Type} [LinearOrderedField R]

theorem couplingClean_zero : (NRSEGainBlock.zero : NRSEGainBlock R).CouplingClean :=
  ⟨rfl, rfl, rfl, rfl, rfl, rfl⟩

theorem rDiagZero_zero : (NRSEGainBlock.zero : NRSEGainBlock R).RDiagZero := ⟨rfl, rfl⟩

theorem couplingClean_congr {b b1 : NRSEGainBlock R} (h : b.SameButQT b1)
    (hb : b.CouplingClean) : b1.CouplingClean := by
  obtain ⟨_, _, _, _, a5, a6, a7, a8, _, a10, a11, _⟩ := h
  obtain ⟨h1, h2, h3, h4, h5, h6⟩ := hb
  exact ⟨a5.trans h1, a6.trans h2, a7.trans h3, a8.trans h4, a10.trans h5, a11.trans h6⟩

theorem rDiagZero_congr {b b1 : NRSEGainBlock R} (h : b.SameButQT b1)
    (hb : b.RDiagZero) : b1.RDiagZero := by
  obtain ⟨_, _, _, _, _, _, _, _, a9, _, _, a12⟩ := h
  exact ⟨a9.trans hb.1, a12.trans hb.2⟩

/-- After the assembly, an off-diagonal LU entry has zero `Q` and `R`
sub-blocks. -/
theorem assemble_off_diagonal_clean (cabs : ComplexValue R → R) (y : YBus R)
    (mv : MeasuredValues R) (u : Nat → ComplexValue R) (s : NewtonRaphsonSESolver R P)
    (hmono : ∀ r, r < s.n_bus_ → y.row_indptr_lu r ≤ y.row_indptr_lu (r + 1))
    (row k : Nat) (hrow : row < s.n_bus_) (hin : y.InRow row k)
    (hc : row ≠ y.col_indices_lu k) :
    ((assemble_gain_and_rhs cabs y mv u s).data_gain_ k).CouplingClean
      ∧ ((assemble_gain_and_rhs cabs y mv u s).data_gain_ k).RDiagZero := by
  unfold assemble_gain_and_rhs
  constructor
  · apply couplingClean_congr (transpose_loop_same y _ _ k)
    exact assemble_rows_pred_off NRSEGainBlock.CouplingClean couplingClean_zero
      (fun _ _ _ _ _ h => h) cabs y mv u s hmono row k hrow hin hc
  · apply rDiagZero_congr (transpose_loop_same y _ _ k)
    exact assemble_rows_pred_off NRSEGainBlock.RDiagZero rDiagZero_zero
      (fun _ _ _ _ _ h => h) cabs y mv u s hmono row k hrow hin hc

/-- After the assembly, the block `lu_diag[row]` of a row that has an entry
that is not a fill-in has a zero `Q` sub-block and an `R` sub-block that is
zero off its diagonal. -/
theorem assemble_diagonal_clean (cabs : ComplexValue R → R) (y : YBus R)
    (mv : MeasuredValues R) (u : Nat → ComplexValue R) (s : NewtonRaphsonSESolver R P)
    (row k : Nat) (hrow : row < s.n_bus_) (hin : y.InRow row k)
    (hk : y.map_lu_y_bus k ≠ -1) :
    ((assemble_gain_and_rhs cabs y mv u s).data_gain_ (y.lu_diag row)).CouplingClean := by
  unfold assemble_gain_and_rhs
  apply couplingClean_congr (transpose_loop_same y _ _ _)
  exact assemble_rows_pred_diag NRSEGainBlock.CouplingClean couplingClean_zero
    (fun _ _ _ _ _ h => h) (fun _ h => h) cabs y mv u s row k hrow hin hk

theorem r_block_symm_of_clean {b : NRSEGainBlock R} (h : b.CouplingClean) :
    b.r_block = b.r_block.transpose := by
  obtain ⟨_, _, _, _, h5, h6⟩ := h
  ext i j
  fin_cases i <;> fin_cases j <;>
    simp [NRSEGainBlock.r_block, NRSEGainBlock.get_val, Matrix.transpose_apply, h5, h6]

theorem r_block_zero_of_clean {b : NRSEGainBlock R} (h : b.CouplingClean)
    (hd : b.RDiagZero) : b.r_block = 0 := by
  obtain ⟨_, _, _, _, h5, h6⟩ := h
  obtain ⟨h7, h8⟩ := hd
  ext i j
  fin_cases i <;> fin_cases j <;>
    simp [NRSEGainBlock.r_block, NRSEGainBlock.get_val, h5, h6, h7, h8]

/-- The LU pattern of the two-bus example with a branch is structurally
symmetric. -/
theorem example_y_bus_branch_symmetric (R : Type) [LinearOrderedField R] :
    (example_y_bus_branch R).SymmetricPattern 2 where
  indptr_zero := rfl
  indptr_last := rfl
  col_lt := fun _ k _ _ => Nat.mod_lt k (by decide)
  diag := by
    intro row k hrow hin hc
    obtain ⟨h1, h2⟩ := hin
    simp only [example_y_bus_branch] at h1 h2 hc ⊢
    refine ⟨by omega, by omega⟩
  transpose_lt := by
    intro k hk _
    simp only [example_y_bus_branch] at hk ⊢
    split_ifs <;> omega
  indptr_mono := by
    intro row _
    simp only [example_y_bus_branch]
    omega
  transpose_entry := by
    intro row k hrow hin _
    obtain ⟨h1, h2⟩ := hin
    simp only [example_y_bus_branch, YBus.InRow] at h1 h2 ⊢
    have hk : k = 0 ∨ k = 1 ∨ k = 2 ∨ k = 3 := by omega
    rcases hk with hk | hk | hk | hk <;> subst hk <;> simp <;> omega

/-- C13, refuted at the two-bus example with a branch whose from-side flow is
measured (value 0, unit variances) and whose to-side flow is not, at the flat
start `u = 1`: the pattern is structurally symmetric, entry 1 is `(0, 1)` and
its transpose entry 2 is `(1, 0)`; the `G` sub-block of entry 1 is
`[[1, 1], [0, 0]]`, written for the element `bft`, and the `G` sub-block of
entry 2 is zero, so `G(k) = G(t)^T` fails. -/
theorem C13_counterexample :
    (example_y_bus_branch ℝ).SymmetricPattern 2
    ∧ (example_y_bus_branch ℝ).map_lu_y_bus 1 ≠ -1
    ∧ (example_y_bus_branch ℝ).lu_transpose_entry 1 = 2
    ∧ ((assemble_gain_and_rhs real_cabs (example_y_bus_branch ℝ)
          (example_measured_flow ℝ true ⟨0, 0⟩) (fun _ => ⟨1, 0⟩)
          (example_solver_two ℝ 7)).data_gain_ 1).g_block = !![1, 1; 0, 0]
    ∧ ((assemble_gain_and_rhs real_cabs (example_y_bus_branch ℝ)
          (example_measured_flow ℝ true ⟨0, 0⟩) (fun _ => ⟨1, 0⟩)
          (example_solver_two ℝ 7)).data_gain_ 2).g_block = 0
    ∧ ((assemble_gain_and_rhs real_cabs (example_y_bus_branch ℝ)
          (example_measured_flow ℝ true ⟨0, 0⟩) (fun _ => ⟨1, 0⟩)
          (example_solver_two ℝ 7)).data_gain_ 1).g_block
        ≠ ((assemble_gain_and_rhs real_cabs (example_y_bus_branch ℝ)
          (example_measured_flow ℝ true ⟨0, 0⟩) (fun _ => ⟨1, 0⟩)
          (example_solver_two ℝ 7)).data_gain_ 2).g_block.transpose := by
  have h1 : (assemble_gain_and_rhs real_cabs (example_y_bus_branch ℝ)
        (example_measured_flow ℝ true ⟨0, 0⟩) (fun _ => ⟨1, 0⟩)
        (example_solver_two ℝ 7)).data_gain_ 1
      = (multiply_add_jacobian_blocks NRSEGainBlock.zero NRSEUnknown.zero
          (power_flow_jacobian (g_sin_minus_b_cos ⟨-1, 0⟩ ⟨1, 0⟩ ⟨1, 0⟩)
            (g_cos_plus_b_sin ⟨-1, 0⟩ ⟨1, 0⟩ ⟨1, 0⟩) (diagonal_inverse 1))
          (power_flow_jacobian (g_sin_minus_b_cos ⟨-1, 0⟩ ⟨1, 0⟩ ⟨1, 0⟩)
            (g_cos_plus_b_sin ⟨-1, 0⟩ ⟨1, 0⟩ ⟨1, 0⟩) (diagonal_inverse 1))
          ⟨⟨0, 0⟩, 1, 1⟩ 0 0).1 := rfl
  have h2 : (assemble_gain_and_rhs real_cabs (example_y_bus_branch ℝ)
        (example_measured_flow ℝ true ⟨0, 0⟩) (fun _ => ⟨1, 0⟩)
        (example_solver_two ℝ 7)).data_gain_ 2 = NRSEGainBlock.zero := rfl
  have g1 : ((assemble_gain_and_rhs real_cabs (example_y_bus_branch ℝ)
        (example_measured_flow ℝ true ⟨0, 0⟩) (fun _ => ⟨1, 0⟩)
        (example_solver_two ℝ 7)).data_gain_ 1).g_block = !![1, 1; 0, 0] := by
    rw [h1]
    ext i j
    fin_cases i <;> fin_cases j <;>
      norm_num [NRSEGainBlock.g_block, NRSEGainBlock.get_val, multiply_add_jacobian_blocks,
        NRSEGainBlock.zero, power_flow_jacobian, g_sin_minus_b_cos, g_cos_plus_b_sin,
        ui_uj_cos_ij, ui_uj_sin_ij, diagonal_inverse]
  have g2 : ((assemble_gain_and_rhs real_cabs (example_y_bus_branch ℝ)
        (example_measured_flow ℝ true ⟨0, 0⟩) (fun _ => ⟨1, 0⟩)
        (example_solver_two ℝ 7)).data_gain_ 2).g_block = 0 := by
    rw [h2]
    ext i j
    fin_cases i <;> fin_cases j <;>
      simp [NRSEGainBlock.g_block, NRSEGainBlock.get_val, NRSEGainBlock.zero]
  refine ⟨example_y_bus_branch_symmetric ℝ, by decide, rfl, g1, g2, ?_⟩
  rw [g1, g2]
  intro h
  have h00 := congrFun (congrFun h 0) 0
  simp at h00

/-- C13 (amended): for a Y-bus with a structurally symmetric pattern, every
measurement set and every voltage iterate, the gain buffer left by the
assembly (before factorisation) satisfies, for every LU entry `k = (row, col)`
that is not a fill-in, with `t = lu_transpose_entry[k]`:
`QT(k) = Q(t)^T` and `R(k) = R(t)^T`. -/
theorem C13_block_symmetry (cabs : ComplexValue R → R) (y : YBus R) (mv : MeasuredValues R)
    (u : Nat → ComplexValue R) (s : NewtonRaphsonSESolver R P)
    (hwf : y.SymmetricPattern s.n_bus_) (row k : Nat) (hrow : row < s.n_bus_)
    (hin : y.InRow row k) (hk : y.map_lu_y_bus k ≠ -1) :
    ((assemble_gain_and_rhs cabs y mv u s).data_gain_ k).qt_block
        = ((assemble_gain_and_rhs cabs y mv u s).data_gain_
            (y.lu_transpose_entry k)).q_block.transpose
      ∧ ((assemble_gain_and_rhs cabs y mv u s).data_gain_ k).r_block
        = ((assemble_gain_and_rhs cabs y mv u s).data_gain_
            (y.lu_transpose_entry k)).r_block.transpose := by
  obtain ⟨ht1, ht2, ht3⟩ := hwf.transpose_entry row k hrow hin hk
  constructor
  · have hlt : k < y.nnz_lu := by
      have h1 := indptr_le_of_lt y.row_indptr_lu s.n_bus_ hwf.indptr_mono row s.n_bus_ hrow
        (le_refl _)
      have h2 := hin.2
      have h3 := hwf.indptr_last
      omega
    exact qtOf_blocks (transpose_loop_qt y _ (List.range y.nnz_lu) k (List.mem_range.mpr hlt) hk)
  · by_cases hc : row = y.col_indices_lu k
    · have hd := (hwf.diag row k hrow hin hc.symm).1
      rw [← hc] at ht1
      have hdt := (hwf.diag row _ hrow ht1 ht2).1
      rw [← hdt, hd]
      apply r_block_symm_of_clean
      rw [← hd]
      exact assemble_diagonal_clean cabs y mv u s row k hrow hin hk
    · obtain ⟨c1, c2⟩ := assemble_off_diagonal_clean cabs y mv u s hwf.indptr_mono row k hrow
        hin hc
      have hcol := hwf.col_lt row k hrow hin
      obtain ⟨d1, d2⟩ := assemble_off_diagonal_clean cabs y mv u s hwf.indptr_mono
        (y.col_indices_lu k) (y.lu_transpose_entry k) hcol ht1
        (by rw [ht2]; exact fun h => hc h.symm)
      rw [r_block_zero_of_clean c1 c2, r_block_zero_of_clean d1 d2, Matrix.transpose_zero]

/-- C13 (amended), at entry 1, `(0, 1)`, of the two-bus example with a
measured branch. -/
theorem C13_block_symmetry_witness :
    ((assemble_gain_and_rhs real_cabs (example_y_bus_branch ℝ)
          (example_measured_flow ℝ true ⟨0, 0⟩) (fun _ => ⟨1, 0⟩)
          (example_solver_two ℝ 7)).data_gain_ 1).qt_block
        = ((assemble_gain_and_rhs real_cabs (example_y_bus_branch ℝ)
            (example_measured_flow ℝ true ⟨0, 0⟩) (fun _ => ⟨1, 0⟩)
            (example_solver_two ℝ 7)).data_gain_
            ((example_y_bus_branch ℝ).lu_transpose_entry 1)).q_block.transpose
      ∧ ((assemble_gain_and_rhs real_cabs (example_y_bus_branch ℝ)
          (example_measured_flow ℝ true ⟨0, 0⟩) (fun _ => ⟨1, 0⟩)
          (example_solver_two ℝ 7)).data_gain_ 1).r_block
        = ((assemble_gain_and_rhs real_cabs (example_y_bus_branch ℝ)
            (example_measured_flow ℝ true ⟨0, 0⟩) (fun _ => ⟨1, 0⟩)
            (example_solver_two ℝ 7)).data_gain_
            ((example_y_bus_branch ℝ).lu_transpose_entry 1)).r_block.transpose :=
  C13_block_symmetry real_cabs (example_y_bus_branch ℝ) (example_measured_flow ℝ true ⟨0, 0⟩)
    (fun _ => ⟨1, 0⟩) (example_solver_two ℝ 7) (example_y_bus_branch_symmetric ℝ) 0 1
    (by decide) ⟨by decide, by decide⟩ (by decide)

end SymmetryClaims

/-! ## The one-bus system -/

section SingleBus

variable {R P : Type} [LinearOrderedField R]

/-- On a one-bus system without injection measurement the gain block left by
the assembly is zero except for `r_P_theta = r_Q_v = -1`. -/
theorem single_bus_assembled_gain (cabs : ComplexValue R → R) (y : YBus R)
    (mv : MeasuredValues R) (u : Nat → ComplexValue R) (s : NewtonRaphsonSESolver R P)
    (hn : s.n_bus_ = 1) (hwf : y.DiagonalPresent 1) (hnnz : y.nnz_lu = 1)
    (hinj : mv.has_bus_injection 0 = false) :
    (assemble_gain_and_rhs cabs y mv u s).data_gain_ 0
      = { (NRSEGainBlock.zero : NRSEGainBlock R) with r_P_theta := -1, r_Q_v := -1 } := by
  have hi0 := hwf.indptr_zero
  have hi1 : y.row_indptr_lu 1 = 1 := by rw [hwf.indptr_last, hnnz]
  have hin : y.InRow 0 0 := ⟨by rw [hi0], by rw [hi1]; exact Nat.zero_lt_one⟩
  have hcol : y.col_indices_lu 0 = 0 := by
    have := hwf.col_lt 0 0 (by decide) hin
    omega
  obtain ⟨hd, hmap⟩ := hwf.diag 0 0 (by decide) hin hcol
  have ht : y.lu_transpose_entry 0 = 0 := by
    have := hwf.transpose_lt 0 (by omega) hmap
    omega
  unfold assemble_gain_and_rhs
  have hr1 : List.range 1 = [0] := rfl
  rw [hnnz, assemble_rows_eq, hn, hr1]
  simp only [List.foldl_cons, List.foldl_nil]
  unfold row_step
  simp only [zero_add, hi0, hi1, Nat.sub_zero, List.range'_one, List.foldl_cons,
    List.foldl_nil]
  rw [entry_step_eq, if_neg hmap]
  unfold transpose_step
  rw [if_neg hmap, ht]
  simp [injection_step, hinj, hcol, hd, clear_gain_block, NRSEGainBlock.zero]

/-- The 4x4 matrix of a block whose `theta` column is zero has determinant
zero. -/
theorem det_eq_zero_of_theta_column (b : NRSEGainBlock R) (h : ∀ r, b.get_val r 0 = 0) :
    b.toMatrix.det = 0 :=
  Matrix.det_eq_zero_of_column_eq_zero 0 h

/-- A round ends with `SingularMatrix` when the factorisation of the
assembled gain data signals a failure. -/
theorem round_error_of_prefactorize_none (a : SEArgs R) (st : SEState R P)
    (h : st.solver.sparse_solver_.prefactorize
        (assemble_gain_and_rhs a.cabs a.y_bus a.measured_values st.u st.solver).data_gain_
        (assemble_gain_and_rhs a.cabs a.y_bus a.measured_values st.u st.solver).perm_ = none) :
    ∃ st1, round a st = Except.error (SEError.SingularMatrix, st1) := by
  have hf := assemble_gain_and_rhs_frame a.cabs a.y_bus a.measured_values st.u st.solver
  rw [← hf.2.2.2.1] at h
  have hp : prepare_matrix_and_rhs a.cabs a.y_bus a.measured_values st.u st.solver
      = Except.error (SEError.SingularMatrix,
          assemble_gain_and_rhs a.cabs a.y_bus a.measured_values st.u st.solver) := by
    unfold prepare_matrix_and_rhs
    simp only [h]
  unfold round loop_body
  simp only [SEState.restart_sub_timer, hp]
  exact ⟨_, rfl⟩

/-- On a one-bus system without injection measurement, a call with
`max_iter >= 1` whose sparse solver signals a singular block ends with
`SingularMatrix`. -/
theorem single_bus_run_singular (a : SEArgs R) (info : CalculationInfo R)
    (s : NewtonRaphsonSESolver R P) (fuel : Nat)
    (hn : s.n_bus_ = 1) (hwf : a.y_bus.DiagonalPresent 1) (hnnz : a.y_bus.nnz_lu = 1)
    (hinj : a.measured_values.has_bus_injection 0 = false) (hm : 1 ≤ a.max_iter)
    (hsolver : ∀ data perm, (data 0).toMatrix.det = 0 →
      s.sparse_solver_.prefactorize data perm = none) :
    ∃ res, run_state_estimation a info s (fuel + 1) = some res
      ∧ res.outcome = Except.error SEError.SingularMatrix := by
  have hs := (initial_state_solver a info s).1
  have hn1 : (initial_state a info s).solver.n_bus_ = 1 := by rw [hs]; exact hn
  have hg := single_bus_assembled_gain a.cabs a.y_bus a.measured_values
    (initial_state a info s).u (initial_state a info s).solver hn1 hwf hnnz hinj
  have hdet : ((assemble_gain_and_rhs a.cabs a.y_bus a.measured_values
      (initial_state a info s).u (initial_state a info s).solver).data_gain_ 0).toMatrix.det
      = 0 := by
    apply det_eq_zero_of_theta_column
    intro r
    rw [hg]
    fin_cases r <;> rfl
  have hsp : (initial_state a info s).solver.sparse_solver_ = s.sparse_solver_ := by rw [hs]
  obtain ⟨st1, h1⟩ := round_error_of_prefactorize_none a (initial_state a info s)
    (by rw [hsp]; exact hsolver _ _ hdet)
  obtain ⟨res, hr, ho, _⟩ := run_first_round_error a info s fuel _ (by omega) h1
  exact ⟨res, hr, ho⟩

end SingleBus

/-! ## Claims on the one-bus system and on the voltage weight -/

section SingleBusClaims

variable {R P : Type} [LinearOrderedField R]

/-- C14, refuted at the one-bus example whose only measurement is a voltage
measurement (magnitude 2, variance 1), with `max_iter = 1`: the 4x4 gain block
assembled in the first iteration is zero except for
`r_P_theta = r_Q_v = -1`, so its determinant is 0 and the gain system is
singular; with the sparse solver that honours its contract the call ends with
`SingularMatrix`, it does not return `v = 2`. -/
theorem C14_counterexample :
    (example_args_voltage 1 2 1 1).measured_values.has_voltage 0 = true
    ∧ (example_args_voltage 1 2 1 1).measured_values.has_bus_injection 0 = false
    ∧ (assemble_gain_and_rhs real_cabs example_y_bus (example_measured_voltage 1 2)
          (initial_state (example_args_voltage 1 2 1 1) (fun _ => none)
            { example_solver ⟨0, 0, 0, 0⟩ 7 with sparse_solver_ := example_exact_solver }).u
          (initial_state (example_args_voltage 1 2 1 1) (fun _ => none)
            { example_solver ⟨0, 0, 0, 0⟩ 7 with
              sparse_solver_ := example_exact_solver }).solver).data_gain_ 0
        = ⟨0, 0, 0, 0, 0, 0, 0, 0, 0, 0, 0, 0, -1, 0, 0, -1⟩
    ∧ ((assemble_gain_and_rhs real_cabs example_y_bus (example_measured_voltage 1 2)
          (initial_state (example_args_voltage 1 2 1 1) (fun _ => none)
            { example_solver ⟨0, 0, 0, 0⟩ 7 with sparse_solver_ := example_exact_solver }).u
          (initial_state (example_args_voltage 1 2 1 1) (fun _ => none)
            { example_solver ⟨0, 0, 0, 0⟩ 7 with
              sparse_solver_ := example_exact_solver }).solver).data_gain_ 0).toMatrix.det = 0
    ∧ ∃ res, run_state_estimation (example_args_voltage 1 2 1 1) (fun _ => none)
          { example_solver ⟨0, 0, 0, 0⟩ 7 with sparse_solver_ := example_exact_solver } 2
          = some res
        ∧ res.outcome = Except.error SEError.SingularMatrix := by
  have hg := single_bus_assembled_gain real_cabs example_y_bus (example_measured_voltage 1 2)
    (initial_state (example_args_voltage 1 2 1 1) (fun _ => none)
      { example_solver ⟨0, 0, 0, 0⟩ 7 with sparse_solver_ := example_exact_solver }).u
    (initial_state (example_args_voltage 1 2 1 1) (fun _ => none)
      { example_solver ⟨0, 0, 0, 0⟩ 7 with sparse_solver_ := example_exact_solver }).solver
    (by rw [(initial_state_solver _ _ _).1]; rfl) example_y_bus_diagonal_present rfl rfl
  refine ⟨rfl, rfl, hg, ?_, ?_⟩
  · apply det_eq_zero_of_theta_column
    intro r
    rw [hg]
    fin_cases r <;> rfl
  · apply single_bus_run_singular (example_args_voltage 1 2 1 1) (fun _ => none) _ 1 rfl
      example_y_bus_diagonal_present rfl rfl (by decide)
    intro data perm hdet
    simp [example_exact_solver, hdet]

/-- C14 (amended): for a one-bus system without injection measurement, in
particular one whose only measurement is a voltage measurement at that bus,
and `max_iter >= 1`, the 4x4 gain block assembled in the first iteration has
an all-zero `theta` column (`g_P_theta = g_Q_theta = q_P_theta = q_Q_theta =
0`), so the gain system is singular; and when the sparse solver signals a
singular block, `run_state_estimation` ends with `SingularMatrix`. -/
theorem C14_single_bus_singular (a : SEArgs R) (info : CalculationInfo R)
    (s : NewtonRaphsonSESolver R P) (fuel : Nat)
    (hn : s.n_bus_ = 1) (hwf : a.y_bus.DiagonalPresent 1) (hnnz : a.y_bus.nnz_lu = 1)
    (hinj : a.measured_values.has_bus_injection 0 = false) (hm : 1 ≤ a.max_iter) :
    (∀ r, ((assemble_gain_and_rhs a.cabs a.y_bus a.measured_values
        (initial_state a info s).u (initial_state a info s).solver).data_gain_ 0).get_val r 0
        = 0)
    ∧ ((assemble_gain_and_rhs a.cabs a.y_bus a.measured_values
        (initial_state a info s).u (initial_state a info s).solver).data_gain_ 0).toMatrix.det
        = 0
    ∧ ((∀ data perm, (data 0).toMatrix.det = 0 →
          s.sparse_solver_.prefactorize data perm = none) →
        ∃ res, run_state_estimation a info s (fuel + 1) = some res
          ∧ res.outcome = Except.error SEError.SingularMatrix) := by
  have hs := (initial_state_solver a info s).1
  have hn1 : (initial_state a info s).solver.n_bus_ = 1 := by rw [hs]; exact hn
  have hg := single_bus_assembled_gain a.cabs a.y_bus a.measured_values
    (initial_state a info s).u (initial_state a info s).solver hn1 hwf hnnz hinj
  have hcol : ∀ r, ((assemble_gain_and_rhs a.cabs a.y_bus a.measured_values
      (initial_state a info s).u (initial_state a info s).solver).data_gain_ 0).get_val r 0
      = 0 := by
    intro r
    rw [hg]
    fin_cases r <;> rfl
  exact ⟨hcol, det_eq_zero_of_theta_column _ hcol,
    single_bus_run_singular a info s fuel hn hwf hnnz hinj hm⟩

/-- C14 (amended), at the one-bus example with a voltage measurement of
magnitude 2 and variance 1 and the sparse solver that honours its contract. -/
theorem C14_single_bus_singular_witness :
    (∀ r, ((assemble_gain_and_rhs real_cabs example_y_bus (example_measured_voltage 1 2)
        (initial_state (example_args_voltage 1 2 1 1) (fun _ => none)
          { example_solver ⟨0, 0, 0, 0⟩ 7 with sparse_solver_ := example_exact_solver }).u
        (initial_state (example_args_voltage 1 2 1 1) (fun _ => none)
          { example_solver ⟨0, 0, 0, 0⟩ 7 with
            sparse_solver_ := example_exact_solver }).solver).data_gain_ 0).get_val r 0 = 0)
    ∧ ((assemble_gain_and_rhs real_cabs example_y_bus (example_measured_voltage 1 2)
        (initial_state (example_args_voltage 1 2 1 1) (fun _ => none)
          { example_solver ⟨0, 0, 0, 0⟩ 7 with sparse_solver_ := example_exact_solver }).u
        (initial_state (example_args_voltage 1 2 1 1) (fun _ => none)
          { example_solver ⟨0, 0, 0, 0⟩ 7 with
            sparse_solver_ := example_exact_solver }).solver).data_gain_ 0).toMatrix.det = 0
    ∧ ((∀ data perm, (data 0).toMatrix.det = 0 →
          example_exact_solver.prefactorize data perm = none) →
        ∃ res, run_state_estimation (example_args_voltage 1 2 1 1) (fun _ => none)
            { example_solver ⟨0, 0, 0, 0⟩ 7 with sparse_solver_ := example_exact_solver }
            (0 + 1) = some res
          ∧ res.outcome = Except.error SEError.SingularMatrix) :=
  C14_single_bus_singular (example_args_voltage 1 2 1 1) (fun _ => none)
    { example_solver ⟨0, 0, 0, 0⟩ 7 with sparse_solver_ := example_exact_solver } 0 rfl
    example_y_bus_diagonal_present rfl rfl (by decide)

/-- C20: at the one-bus example with a voltage measurement of variance 1/4
(weight `1/s = 4`) and no other measurement, the diagonal LU entry is not a
fill-in, yet after the assembly (before factorisation) the diagonal block has
`g_P_v = 0` and `g_Q_v = 0`: the weight is added when the diagonal entry is
processed and discarded when the diagonal block is reset later in the same
pass of the inner loop.  (The voltage block of the inner loop does add `1/s`
to both slots.) -/
theorem C20_voltage_weight_discarded :
    (∀ (cabs : ComplexValue ℝ → ℝ) (mv : MeasuredValues ℝ) (u mu : Nat → ComplexValue ℝ)
        (row k : Nat) (s : NewtonRaphsonSESolver ℝ Unit),
      ((voltage_step cabs mv u mu row k s).data_gain_ k).g_P_v
          = (s.data_gain_ k).g_P_v + 1 / mv.voltage_var row
        ∧ ((voltage_step cabs mv u mu row k s).data_gain_ k).g_Q_v
          = (s.data_gain_ k).g_Q_v + 1 / mv.voltage_var row)
    ∧ (example_measured_voltage (1 / 4) 2).has_voltage 0 = true
    ∧ example_y_bus.map_lu_y_bus (example_y_bus.lu_diag 0) ≠ -1
    ∧ 1 / (example_measured_voltage (1 / 4) 2).voltage_var 0 = 4
    ∧ ((assemble_gain_and_rhs real_cabs example_y_bus (example_measured_voltage (1 / 4) 2)
          (fun _ => ⟨1, 0⟩) (example_solver ⟨0, 0, 0, 0⟩ 7)).data_gain_
          (example_y_bus.lu_diag 0)).g_P_v = 0
    ∧ ((assemble_gain_and_rhs real_cabs example_y_bus (example_measured_voltage (1 / 4) 2)
          (fun _ => ⟨1, 0⟩) (example_solver ⟨0, 0, 0, 0⟩ 7)).data_gain_
          (example_y_bus.lu_diag 0)).g_Q_v = 0 := by
  refine ⟨?_, rfl, by decide, ?_, rfl, rfl⟩
  · intro cabs mv u mu row k s
    simp [voltage_step]
  · norm_num [example_measured_voltage]

end SingleBusClaims

/-! ## Claims on the calculated branch flow -/

section BranchFlowClaims

/-- The calculated flow of a branch element at the entry `(row, col)`, in
all four branches of the code, is `ui * conj (yii * ui + yij * uj)` with
`ui = current_u[row]` and `uj = current_u[col]`. -/
theorem calculated_flow_eq (yii yij ui uj : ComplexValue ℝ) :
    (⟨g_cos_plus_b_sin yii ui ui + g_cos_plus_b_sin yij ui uj,
      g_sin_minus_b_cos yii ui ui + g_sin_minus_b_cos yij ui uj⟩ : ℂ)
      = spec_branch_side_power yii yij ui uj := by
  apply Complex.ext
  · simp only [spec_branch_side_power, g_cos_plus_b_sin, ui_uj_cos_ij, ui_uj_sin_ij,
      ComplexValue.toComplex, Complex.mul_re, Complex.mul_im, Complex.conj_re,
      Complex.conj_im, Complex.add_re, Complex.add_im]
    ring
  · simp only [spec_branch_side_power, g_sin_minus_b_cos, ui_uj_cos_ij, ui_uj_sin_ij,
      ComplexValue.toComplex, Complex.mul_re, Complex.mul_im, Complex.conj_re,
      Complex.conj_im, Complex.add_re, Complex.add_im]
    ring

/-- When the measured value is the calculated power, the call of
`multiply_add_jacobian_blocks` leaves the right-hand side as it is. -/
theorem multiply_add_rhs_of_exact {R : Type} [LinearOrderedField R] (block : NRSEGainBlock R)
    (rhs_block : NRSEUnknown R) (F1 F2 : NRSEJacobian R) (power_sensor : PowerSensorCalcParam R)
    (p q : R) (h : power_sensor.value = ⟨p, q⟩) :
    (multiply_add_jacobian_blocks block rhs_block F1 F2 power_sensor p q).2 = rhs_block := by
  cases rhs_block
  simp [multiply_add_jacobian_blocks, h]

/-- At the two-bus example with the voltages `u = (1, i)` and the from-side
flow measurement `1 + i`, the right-hand side of row 0 after the assembly. -/
theorem example_branch_rhs_exact_measurement :
    (assemble_gain_and_rhs real_cabs (example_y_bus_branch ℝ)
        (example_measured_flow ℝ true ⟨1, 1⟩) (fun bus => if bus = 0 then ⟨1, 0⟩ else ⟨0, 1⟩)
        (example_solver_two_shifted 7)).del_x_rhs_ 0 = ⟨-1, 1, 0, 0⟩ := by
  have h : (assemble_gain_and_rhs real_cabs (example_y_bus_branch ℝ)
        (example_measured_flow ℝ true ⟨1, 1⟩) (fun bus => if bus = 0 then ⟨1, 0⟩ else ⟨0, 1⟩)
        (example_solver_two_shifted 7)).del_x_rhs_ 0
      = (multiply_add_jacobian_blocks NRSEGainBlock.zero
          (multiply_add_jacobian_blocks NRSEGainBlock.zero NRSEUnknown.zero
            (power_flow_jacobian (g_sin_minus_b_cos ⟨1, 0⟩ ⟨1, 0⟩ ⟨1, 0⟩)
              (g_cos_plus_b_sin ⟨1, 0⟩ ⟨1, 0⟩ ⟨1, 0⟩) (diagonal_inverse 1))
            (power_flow_jacobian (g_sin_minus_b_cos ⟨1, 0⟩ ⟨1, 0⟩ ⟨1, 0⟩)
              (g_cos_plus_b_sin ⟨1, 0⟩ ⟨1, 0⟩ ⟨1, 0⟩) (diagonal_inverse 1))
            ⟨⟨1, 1⟩, 1, 1⟩
            (g_cos_plus_b_sin ⟨1, 0⟩ ⟨1, 0⟩ ⟨1, 0⟩ + g_cos_plus_b_sin ⟨-1, 0⟩ ⟨1, 0⟩ ⟨1, 0⟩)
            (g_sin_minus_b_cos ⟨1, 0⟩ ⟨1, 0⟩ ⟨1, 0⟩
              + g_sin_minus_b_cos ⟨-1, 0⟩ ⟨1, 0⟩ ⟨1, 0⟩)).2
          (power_flow_jacobian (g_sin_minus_b_cos ⟨-1, 0⟩ ⟨1, 0⟩ ⟨0, 1⟩)
            (g_cos_plus_b_sin ⟨-1, 0⟩ ⟨1, 0⟩ ⟨0, 1⟩) (diagonal_inverse 1))
          (power_flow_jacobian (g_sin_minus_b_cos ⟨-1, 0⟩ ⟨1, 0⟩ ⟨0, 1⟩)
            (g_cos_plus_b_sin ⟨-1, 0⟩ ⟨1, 0⟩ ⟨0, 1⟩) (diagonal_inverse 1))
          ⟨⟨1, 1⟩, 1, 1⟩
          (g_cos_plus_b_sin ⟨1, 0⟩ ⟨1, 0⟩ ⟨1, 0⟩ + g_cos_plus_b_sin ⟨-1, 0⟩ ⟨1, 0⟩ ⟨0, 1⟩)
          (g_sin_minus_b_cos ⟨1, 0⟩ ⟨1, 0⟩ ⟨1, 0⟩
            + g_sin_minus_b_cos ⟨-1, 0⟩ ⟨1, 0⟩ ⟨0, 1⟩)).2 := rfl
  rw [h]
  norm_num [multiply_add_jacobian_blocks, power_flow_jacobian, g_sin_minus_b_cos,
    g_cos_plus_b_sin, ui_uj_cos_ij, ui_uj_sin_ij, diagonal_inverse, NRSEUnknown.zero]

/-- C16: for the elements `bft` at `(f, t)` and `btf` at `(t, f)` the
calculated flow `P + iQ` is the branch-side complex power at the current
voltages, `u_f * conj (yff * u_f + yft * u_t)` and
`u_t * conj (ytt * u_t + ytf * u_f)`, and a measurement equal to it adds
nothing to the right-hand side.  For the elements `bff` at `(f, f)` and `btt`
at `(t, t)` the code takes `uj = current_u[col]`, the voltage of the same bus,
and calculates `u_f * conj (yff * u_f + yft * u_f)` and
`u_t * conj (ytt * u_t + ytf * u_t)`.  At the two-bus example with `u = (1, i)`
(`theta = (0, pi / 2)`, `v = (1, 1)`) the from-side flow is `1 + i`; with
exactly that measured, the element `bff`
calculates the flow 0 and the right-hand side of row 0 after the assembly is
`(-1, 1, 0, 0)`, not zero. -/
theorem C16_branch_flow :
    (∀ (y : YBus ℝ) (mv : MeasuredValues ℝ) (u : Nat → ComplexValue ℝ)
        (x_ : Nat → NRSEUnknown ℝ) (f t e : Nat),
      (y.y_bus_element e).element_type = YBusElementType.bft →
      mv.has_branch_from (y.y_bus_element e).idx = true →
      ∃ c, element_contribution y mv u x_ f t e = some c
        ∧ c.power_sensor = mv.branch_from_power (y.y_bus_element e).idx
        ∧ (⟨c.calculated_power_p, c.calculated_power_q⟩ : ℂ)
          = spec_branch_side_power (y.branch_param (y.y_bus_element e).idx).yff
              (y.branch_param (y.y_bus_element e).idx).yft (u f) (u t)
        ∧ (c.power_sensor.value = ⟨c.calculated_power_p, c.calculated_power_q⟩ →
            ∀ block rhs_block, (multiply_add_jacobian_blocks block rhs_block c.block_1
              c.block_2 c.power_sensor c.calculated_power_p c.calculated_power_q).2
              = rhs_block))
    ∧ (∀ (y : YBus ℝ) (mv : MeasuredValues ℝ) (u : Nat → ComplexValue ℝ)
        (x_ : Nat → NRSEUnknown ℝ) (f t e : Nat),
      (y.y_bus_element e).element_type = YBusElementType.btf →
      mv.has_branch_to (y.y_bus_element e).idx = true →
      ∃ c, element_contribution y mv u x_ t f e = some c
        ∧ c.power_sensor = mv.branch_to_power (y.y_bus_element e).idx
        ∧ (⟨c.calculated_power_p, c.calculated_power_q⟩ : ℂ)
          = spec_branch_side_power (y.branch_param (y.y_bus_element e).idx).ytt
              (y.branch_param (y.y_bus_element e).idx).ytf (u t) (u f)
        ∧ (c.power_sensor.value = ⟨c.calculated_power_p, c.calculated_power_q⟩ →
            ∀ block rhs_block, (multiply_add_jacobian_blocks block rhs_block c.block_1
              c.block_2 c.power_sensor c.calculated_power_p c.calculated_power_q).2
              = rhs_block))
    ∧ (∀ (y : YBus ℝ) (mv : MeasuredValues ℝ) (u : Nat → ComplexValue ℝ)
        (x_ : Nat → NRSEUnknown ℝ) (f e : Nat),
      (y.y_bus_element e).element_type = YBusElementType.bff →
      mv.has_branch_from (y.y_bus_element e).idx = true →
      ∃ c, element_contribution y mv u x_ f f e = some c
        ∧ c.power_sensor = mv.branch_from_power (y.y_bus_element e).idx
        ∧ (⟨c.calculated_power_p, c.calculated_power_q⟩ : ℂ)
          = spec_branch_side_power (y.branch_param (y.y_bus_element e).idx).yff
              (y.branch_param (y.y_bus_element e).idx).yft (u f) (u f))
    ∧ (∀ (y : YBus ℝ) (mv : MeasuredValues ℝ) (u : Nat → ComplexValue ℝ)
        (x_ : Nat → NRSEUnknown ℝ) (t e : Nat),
      (y.y_bus_element e).element_type = YBusElementType.btt →
      mv.has_branch_to (y.y_bus_element e).idx = true →
      ∃ c, element_contribution y mv u x_ t t e = some c
        ∧ c.power_sensor = mv.branch_to_power (y.y_bus_element e).idx
        ∧ (⟨c.calculated_power_p, c.calculated_power_q⟩ : ℂ)
          = spec_branch_side_power (y.branch_param (y.y_bus_element e).idx).ytt
              (y.branch_param (y.y_bus_element e).idx).ytf (u t) (u t))
    ∧ (∀ bus, (if bus = 0 then (⟨1, 0⟩ : ComplexValue ℝ) else ⟨0, 1⟩)
        = ComplexValue.smul ((example_solver_two_shifted 7).x_ bus).v
            (real_cexp ((example_solver_two_shifted 7).x_ bus).theta))
    ∧ spec_branch_side_power ((example_y_bus_branch ℝ).branch_param 0).yff
          ((example_y_bus_branch ℝ).branch_param 0).yft ⟨1, 0⟩ ⟨0, 1⟩ = ⟨1, 1⟩
    ∧ ((example_measured_flow ℝ true ⟨1, 1⟩).branch_from_power 0).value = ⟨1, 1⟩
    ∧ (∃ c, element_contribution (example_y_bus_branch ℝ) (example_measured_flow ℝ true ⟨1, 1⟩)
          (fun bus => if bus = 0 then ⟨1, 0⟩ else ⟨0, 1⟩) (example_solver_two_shifted 7).x_ 0 0 0
          = some c
        ∧ (⟨c.calculated_power_p, c.calculated_power_q⟩ : ℂ) = 0)
    ∧ (assemble_gain_and_rhs real_cabs (example_y_bus_branch ℝ)
          (example_measured_flow ℝ true ⟨1, 1⟩)
          (fun bus => if bus = 0 then ⟨1, 0⟩ else ⟨0, 1⟩)
          (example_solver_two_shifted 7)).del_x_rhs_ 0 = ⟨-1, 1, 0, 0⟩ := by
  refine ⟨?_, ?_, ?_, ?_, ?_, ?_, rfl, ?_, example_branch_rhs_exact_measurement⟩
  · intro y mv u x_ f t e ht hm
    simp only [element_contribution, ht, hm, if_true]
    exact ⟨_, rfl, rfl, calculated_flow_eq _ _ _ _,
      fun h block rhs_block => multiply_add_rhs_of_exact _ _ _ _ _ _ _ h⟩
  · intro y mv u x_ f t e ht hm
    simp only [element_contribution, ht, hm, if_true]
    exact ⟨_, rfl, rfl, calculated_flow_eq _ _ _ _,
      fun h block rhs_block => multiply_add_rhs_of_exact _ _ _ _ _ _ _ h⟩
  · intro y mv u x_ f e ht hm
    simp only [element_contribution, ht, hm, if_true]
    exact ⟨_, rfl, rfl, calculated_flow_eq _ _ _ _⟩
  · intro y mv u x_ t e ht hm
    simp only [element_contribution, ht, hm, if_true]
    exact ⟨_, rfl, rfl, calculated_flow_eq _ _ _ _⟩
  · intro bus
    by_cases hb : bus = 0
    · subst hb
      simp [example_solver_two_shifted, ComplexValue.smul, real_cexp]
    · simp [example_solver_two_shifted, ComplexValue.smul, real_cexp, hb]
  · apply Complex.ext <;>
      simp [spec_branch_side_power, example_y_bus_branch, ComplexValue.toComplex]
  · refine ⟨_, rfl, ?_⟩
    apply Complex.ext <;>
      simp [g_cos_plus_b_sin, g_sin_minus_b_cos, ui_uj_cos_ij, ui_uj_sin_ij,
        example_y_bus_branch]

end BranchFlowClaims

/-! ## Claims on the transformer tap regulator -/

section RegulatorClaims

variable {R C : Type} [LinearOrderedField R]

/-- C27: for a transformer tap regulator with `u_rated != 0` (and a non-zero
`base_power`, so that `z_base = u_rated^2 / base_power` is not zero),
`calc_param` returns `u_set = u_set_ / u_rated`, `u_band = u_band_ / u_rated`,
`z_compensation = (r + i x) * base_power / u_rated^2` and the stored status;
an `update(d)` with the regulator's own id succeeds, after it these are
computed from `d.u_set`, `d.u_band`, `d.line_drop_compensation_r/x` and
`d.status != 0`, and `u_rated`, `control_side`, `regulated_object` and the id
are unchanged. -/
theorem C27_regulator_calc_param (base_power : R) (reg : TransformerTapRegulator R C)
    (d : TransformerTapRegulatorUpdate R) (hu : reg.u_rated_ ≠ 0) (hbp : base_power ≠ 0)
    (hid : d.id = reg.id) :
    reg.u_rated_ * reg.u_rated_ / base_power ≠ 0
    ∧ (reg.calc_param base_power).u_set = reg.u_set_ / reg.u_rated_
    ∧ (reg.calc_param base_power).u_band = reg.u_band_ / reg.u_rated_
    ∧ (reg.calc_param base_power).z_compensation
        = ⟨reg.line_drop_compensation_r_ * base_power / reg.u_rated_ ^ 2,
           reg.line_drop_compensation_x_ * base_power / reg.u_rated_ ^ 2⟩
    ∧ (reg.calc_param base_power).status = reg.toRegulator.status
    ∧ ∃ reg1, reg.update d = some reg1
        ∧ (reg1.calc_param base_power).u_set = d.u_set / reg.u_rated_
        ∧ (reg1.calc_param base_power).u_band = d.u_band / reg.u_rated_
        ∧ (reg1.calc_param base_power).z_compensation
            = ⟨d.line_drop_compensation_r * base_power / reg.u_rated_ ^ 2,
               d.line_drop_compensation_x * base_power / reg.u_rated_ ^ 2⟩
        ∧ ((reg1.calc_param base_power).status = true ↔ d.status ≠ 0)
        ∧ reg1.u_rated_ = reg.u_rated_
        ∧ reg1.control_side = reg.control_side
        ∧ reg1.toRegulator.regulated_object = reg.toRegulator.regulated_object
        ∧ reg1.id = reg.id := by
  have hz : reg.u_rated_ * reg.u_rated_ / base_power ≠ 0 :=
    div_ne_zero (mul_ne_zero hu hu) hbp
  have hdiv : ∀ a : R, a / (reg.u_rated_ * reg.u_rated_ / base_power)
      = a * base_power / reg.u_rated_ ^ 2 := by
    intro a
    rw [div_div_eq_mul_div, pow_two]
  refine ⟨hz, rfl, rfl, ?_, rfl, ?_⟩
  · simp only [TransformerTapRegulator.calc_param, hdiv]
  · refine ⟨_, if_pos hid, rfl, rfl, ?_, ?_, rfl, rfl, rfl, rfl⟩
    · simp only [TransformerTapRegulator.calc_param, hdiv]
    · simp [TransformerTapRegulator.calc_param, Regulator.status, Regulator.set_status]

/-- C27, at a regulator with `u_rated = 10`, `u_set = 20`, `u_band = 1`,
`r = 2`, `x = 4`, status off, `base_power = 50`, updated with status 1,
`u_set = 30`, `u_band = 2`, `r = 6`, `x = 8`. -/
theorem C27_regulator_calc_param_witness :
    (10 : ℚ) * 10 / 50 ≠ 0
    ∧ ((⟨⟨7, 3, false⟩, true, 10, 20, 1, 2, 4⟩ : TransformerTapRegulator ℚ Bool).calc_param
        50).u_set = 20 / 10
    ∧ ((⟨⟨7, 3, false⟩, true, 10, 20, 1, 2, 4⟩ : TransformerTapRegulator ℚ Bool).calc_param
        50).u_band = 1 / 10
    ∧ ((⟨⟨7, 3, false⟩, true, 10, 20, 1, 2, 4⟩ : TransformerTapRegulator ℚ Bool).calc_param
        50).z_compensation = ⟨2 * 50 / 10 ^ 2, 4 * 50 / 10 ^ 2⟩
    ∧ ((⟨⟨7, 3, false⟩, true, 10, 20, 1, 2, 4⟩ : TransformerTapRegulator ℚ Bool).calc_param
        50).status = (⟨7, 3, false⟩ : Regulator).status
    ∧ ∃ reg1, (⟨⟨7, 3, false⟩, true, 10, 20, 1, 2, 4⟩ : TransformerTapRegulator ℚ Bool).update
          ⟨7, 1, 30, 2, 6, 8⟩ = some reg1
        ∧ (reg1.calc_param 50).u_set = 30 / 10
        ∧ (reg1.calc_param 50).u_band = 2 / 10
        ∧ (reg1.calc_param 50).z_compensation = ⟨6 * 50 / 10 ^ 2, 8 * 50 / 10 ^ 2⟩
        ∧ ((reg1.calc_param 50).status = true ↔ (1 : Int) ≠ 0)
        ∧ reg1.u_rated_ = 10
        ∧ reg1.control_side
          = (⟨⟨7, 3, false⟩, true, 10, 20, 1, 2, 4⟩ : TransformerTapRegulator ℚ Bool).control_side
        ∧ reg1.toRegulator.regulated_object = (⟨7, 3, false⟩ : Regulator).regulated_object
        ∧ reg1.id = 7 :=
  C27_regulator_calc_param 50 ⟨⟨7, 3, false⟩, true, 10, 20, 1, 2, 4⟩ ⟨7, 1, 30, 2, 6, 8⟩
    (by decide) (by decide) rfl

end RegulatorClaims

/-! ## Claims on the voltage residual -/

section VoltageResidualClaims

variable {P : Type}

/-- C26: for a bus with a voltage measurement of variance `s > 0`, the voltage
block of the inner loop adds `(1/s) * |measured_u - current_u|` to `eta_v`,
which is not negative, and adds nothing to `eta_theta`; for a measured phasor
at the angle of the current one the added value is the same whether the
measured magnitude is `d` above or `d` below the current magnitude `v`,
namely `(1/s) * |d|`. -/
theorem C26_voltage_residual_unsigned (mv : MeasuredValues ℝ) (u mu : Nat → ComplexValue ℝ)
    (row k : Nat) (s : NewtonRaphsonSESolver ℝ P) (hs : 0 < mv.voltage_var row) :
    ((voltage_step real_cabs mv u mu row k s).del_x_rhs_ row).eta_v
        = (s.del_x_rhs_ row).eta_v
          + 1 / mv.voltage_var row * real_cabs ((mu row).sub (u row))
    ∧ 0 ≤ 1 / mv.voltage_var row * real_cabs ((mu row).sub (u row))
    ∧ ((voltage_step real_cabs mv u mu row k s).del_x_rhs_ row).eta_theta
        = (s.del_x_rhs_ row).eta_theta
    ∧ ∀ v d theta : ℝ,
        1 / mv.voltage_var row
            * real_cabs ((ComplexValue.smul (v + d) (real_cexp theta)).sub
                (ComplexValue.smul v (real_cexp theta)))
          = 1 / mv.voltage_var row * |d|
        ∧ 1 / mv.voltage_var row
            * real_cabs ((ComplexValue.smul (v - d) (real_cexp theta)).sub
                (ComplexValue.smul v (real_cexp theta)))
          = 1 / mv.voltage_var row * |d| := by
  refine ⟨?_, ?_, ?_, ?_⟩
  · simp [voltage_step, NRSEUnknown.eta_v]
  · exact mul_nonneg (le_of_lt (one_div_pos.mpr hs)) (real_cabs_nonneg _)
  · simp [voltage_step, NRSEUnknown.eta_theta]
  · intro v d theta
    have h1 : (ComplexValue.smul (v + d) (real_cexp theta)).sub
        (ComplexValue.smul v (real_cexp theta)) = ComplexValue.smul d (real_cexp theta) := by
      simp only [ComplexValue.smul, ComplexValue.sub, ComplexValue.mk.injEq]
      constructor <;> ring
    have h2 : (ComplexValue.smul (v - d) (real_cexp theta)).sub
        (ComplexValue.smul v (real_cexp theta)) = ComplexValue.smul (-d) (real_cexp theta) := by
      simp only [ComplexValue.smul, ComplexValue.sub, ComplexValue.mk.injEq]
      constructor <;> ring
    rw [h1, h2, real_cabs_smul_cexp, real_cabs_smul_cexp, abs_neg]
    exact ⟨rfl, rfl⟩

/-- C26, at the one-bus example with a voltage measurement of variance 1/4
and magnitude 2, current phasor 1. -/
theorem C26_voltage_residual_unsigned_witness :
    ((voltage_step real_cabs (example_measured_voltage (1 / 4) 2) (fun _ => ⟨1, 0⟩)
          ((example_measured_voltage (1 / 4) 2).voltage (fun _ => ⟨1, 0⟩)) 0 0
          (example_solver ⟨0, 0, 0, 0⟩ 7)).del_x_rhs_ 0).eta_v
        = ((example_solver ⟨0, 0, 0, 0⟩ 7).del_x_rhs_ 0).eta_v
          + 1 / (example_measured_voltage (1 / 4) 2).voltage_var 0
            * real_cabs ((((example_measured_voltage (1 / 4) 2).voltage (fun _ => ⟨1, 0⟩)) 0).sub
                ⟨1, 0⟩)
    ∧ 0 ≤ 1 / (example_measured_voltage (1 / 4) 2).voltage_var 0
        * real_cabs ((((example_measured_voltage (1 / 4) 2).voltage (fun _ => ⟨1, 0⟩)) 0).sub
            ⟨1, 0⟩)
    ∧ ((voltage_step real_cabs (example_measured_voltage (1 / 4) 2) (fun _ => ⟨1, 0⟩)
          ((example_measured_voltage (1 / 4) 2).voltage (fun _ => ⟨1, 0⟩)) 0 0
          (example_solver ⟨0, 0, 0, 0⟩ 7)).del_x_rhs_ 0).eta_theta
        = ((example_solver ⟨0, 0, 0, 0⟩ 7).del_x_rhs_ 0).eta_theta
    ∧ ∀ v d theta : ℝ,
        1 / (example_measured_voltage (1 / 4) 2).voltage_var 0
            * real_cabs ((ComplexValue.smul (v + d) (real_cexp theta)).sub
                (ComplexValue.smul v (real_cexp theta)))
          = 1 / (example_measured_voltage (1 / 4) 2).voltage_var 0 * |d|
        ∧ 1 / (example_measured_voltage (1 / 4) 2).voltage_var 0
            * real_cabs ((ComplexValue.smul (v - d) (real_cexp theta)).sub
                (ComplexValue.smul v (real_cexp theta)))
          = 1 / (example_measured_voltage (1 / 4) 2).voltage_var 0 * |d| :=
  C26_voltage_residual_unsigned (example_measured_voltage (1 / 4) 2) (fun _ => ⟨1, 0⟩)
    ((example_measured_voltage (1 / 4) 2).voltage (fun _ => ⟨1, 0⟩)) 0 0
    (example_solver ⟨0, 0, 0, 0⟩ 7)
    (by simp [example_measured_voltage])

end VoltageResidualClaims

/-! ## Claims on the injection measurement and on the shunt measurement -/

section InjectionClaims

variable {R P : Type} [LinearOrderedField R]

theorem q_block_zero_of_clean {b : NRSEGainBlock R} (h : b.CouplingClean) : b.q_block = 0 := by
  obtain ⟨h1, h2, h3, h4, _, _⟩ := h
  ext i j
  fin_cases i <;> fin_cases j <;>
    simp [NRSEGainBlock.q_block, NRSEGainBlock.get_val, h1, h2, h3, h4]

/-- At the two-bus example with an injection measurement `2 + 3i` at bus 0
and the flat start, the right-hand side of row 0 after the assembly. -/
theorem example_injection_rhs :
    (assemble_gain_and_rhs real_cabs (example_y_bus_branch ℝ)
        (example_measured_injection ⟨2, 3⟩) (fun _ => ⟨1, 0⟩)
        (example_solver_two ℝ 7)).del_x_rhs_ 0 = ⟨0, 0, 3, 3⟩ := by
  have h : (assemble_gain_and_rhs real_cabs (example_y_bus_branch ℝ)
        (example_measured_injection ⟨2, 3⟩) (fun _ => ⟨1, 0⟩)
        (example_solver_two ℝ 7)).del_x_rhs_ 0
      = ⟨0, 0, 0 + 2 + -g_cos_plus_b_sin ⟨-1, 0⟩ ⟨1, 0⟩ ⟨1, 0⟩,
          0 + 3 + -g_sin_minus_b_cos ⟨-1, 0⟩ ⟨1, 0⟩ ⟨1, 0⟩⟩ := rfl
  rw [h]
  norm_num [g_sin_minus_b_cos, g_cos_plus_b_sin, ui_uj_cos_ij, ui_uj_sin_ij]

/-- C21: the injection block of the inner loop adds the measured injection to
`(tau_p, tau_q)` at the diagonal entry and subtracts `(gc_plus_bs,
gs_minus_bc)` of `Y_rc`, `u_r`, `u_c` at an off-diagonal entry; nothing is
subtracted for the diagonal entry.  At the two-bus example with the injection
`z = 2 + 3i` measured at bus 0 and the flat start `u = (1, 1)`, the calculated
injection `u_0 * conj (Y_00 * u_0 + Y_01 * u_1)` is 0 and `z - f(x) = 2 + 3i`,
but the code leaves `(tau_p, tau_q) = (3, 3)`. -/
theorem C21_injection_residual :
    (∀ (y : YBus ℝ) (mv : MeasuredValues ℝ) (u : Nat → ComplexValue ℝ) (row k d : Nat)
        (s : NewtonRaphsonSESolver ℝ Unit), mv.has_bus_injection row = true →
      ((injection_step y mv u row row k d s).del_x_rhs_ row).tau_p
          = (s.del_x_rhs_ row).tau_p + (mv.bus_injection row).value.re
        ∧ ((injection_step y mv u row row k d s).del_x_rhs_ row).tau_q
          = (s.del_x_rhs_ row).tau_q + (mv.bus_injection row).value.im)
    ∧ (∀ (y : YBus ℝ) (mv : MeasuredValues ℝ) (u : Nat → ComplexValue ℝ) (row col k d : Nat)
        (s : NewtonRaphsonSESolver ℝ Unit), mv.has_bus_injection row = true → row ≠ col →
      ((injection_step y mv u row col k d s).del_x_rhs_ row).tau_p
          = (s.del_x_rhs_ row).tau_p - g_cos_plus_b_sin (y.admittance d) (u row) (u col)
        ∧ ((injection_step y mv u row col k d s).del_x_rhs_ row).tau_q
          = (s.del_x_rhs_ row).tau_q - g_sin_minus_b_cos (y.admittance d) (u row) (u col))
    ∧ (example_measured_injection ⟨2, 3⟩).has_bus_injection 0 = true
    ∧ ((example_measured_injection ⟨2, 3⟩).bus_injection 0).value = ⟨2, 3⟩
    ∧ spec_calculated_injection (example_y_bus_branch ℝ) (fun _ => ⟨1, 0⟩) 0 = 0
    ∧ ((assemble_gain_and_rhs real_cabs (example_y_bus_branch ℝ)
          (example_measured_injection ⟨2, 3⟩) (fun _ => ⟨1, 0⟩)
          (example_solver_two ℝ 7)).del_x_rhs_ 0).tau_p = 3
    ∧ ((assemble_gain_and_rhs real_cabs (example_y_bus_branch ℝ)
          (example_measured_injection ⟨2, 3⟩) (fun _ => ⟨1, 0⟩)
          (example_solver_two ℝ 7)).del_x_rhs_ 0).tau_q = 3 := by
  refine ⟨?_, ?_, rfl, rfl, ?_, ?_, ?_⟩
  · intro y mv u row k d s h
    simp [injection_step, h, NRSEUnknown.tau_p, NRSEUnknown.tau_q]
  · intro y mv u row col k d s h hc
    simp [injection_step, h, hc, NRSEUnknown.tau_p, NRSEUnknown.tau_q, sub_eq_add_neg]
  · have hl : List.range' ((example_y_bus_branch ℝ).row_indptr_lu 0)
        ((example_y_bus_branch ℝ).row_indptr_lu (0 + 1)
          - (example_y_bus_branch ℝ).row_indptr_lu 0) = [0, 1] := rfl
    simp [spec_calculated_injection, hl, example_y_bus_branch, ComplexValue.toComplex,
      List.filter]
    right
    apply Complex.ext <;> simp
  · rw [example_injection_rhs]; rfl
  · rw [example_injection_rhs]; rfl

/-- C22: the assembly writes no `Q` slot: after it the `Q` sub-block of every
off-diagonal LU entry is zero, and so is the `Q` sub-block of the block
`lu_diag[row]` of every row that has an entry that is not a fill-in, with or
without an injection measurement.  At the two-bus example with an injection
measurement at bus 0 and the flat start, the `Q` sub-block of the entry
`(0, 1)` is zero whereas `power_flow_jacobian(gs_minus_bc, gc_plus_bs,
1/|u_1|)` for `Y_01 = -1` is `[[0, 1], [-1, 0]]`. -/
theorem C22_injection_jacobian_absent :
    (∀ (cabs : ComplexValue ℝ → ℝ) (y : YBus ℝ) (mv : MeasuredValues ℝ)
        (u : Nat → ComplexValue ℝ) (s : NewtonRaphsonSESolver ℝ Unit),
      (∀ r, r < s.n_bus_ → y.row_indptr_lu r ≤ y.row_indptr_lu (r + 1)) →
      ∀ row k, row < s.n_bus_ → y.InRow row k → row ≠ y.col_indices_lu k →
        ((assemble_gain_and_rhs cabs y mv u s).data_gain_ k).q_block = 0)
    ∧ (∀ (cabs : ComplexValue ℝ → ℝ) (y : YBus ℝ) (mv : MeasuredValues ℝ)
        (u : Nat → ComplexValue ℝ) (s : NewtonRaphsonSESolver ℝ Unit) (row k : Nat),
      row < s.n_bus_ → y.InRow row k → y.map_lu_y_bus k ≠ -1 →
        ((assemble_gain_and_rhs cabs y mv u s).data_gain_ (y.lu_diag row)).q_block = 0)
    ∧ (example_measured_injection ⟨2, 3⟩).has_bus_injection 0 = true
    ∧ (example_y_bus_branch ℝ).InRow 0 1
    ∧ (example_y_bus_branch ℝ).col_indices_lu 1 = 1
    ∧ (example_y_bus_branch ℝ).map_lu_y_bus 1 = 1
    ∧ ((assemble_gain_and_rhs real_cabs (example_y_bus_branch ℝ)
          (example_measured_injection ⟨2, 3⟩) (fun _ => ⟨1, 0⟩)
          (example_solver_two ℝ 7)).data_gain_ 1).q_block = 0
    ∧ (power_flow_jacobian
          (g_sin_minus_b_cos ((example_y_bus_branch ℝ).admittance 1) ⟨1, 0⟩ ⟨1, 0⟩)
          (g_cos_plus_b_sin ((example_y_bus_branch ℝ).admittance 1) ⟨1, 0⟩ ⟨1, 0⟩)
          (diagonal_inverse ((example_solver_two ℝ 7).x_ 1).v)).toMatrix = !![0, 1; -1, 0]
    ∧ (!![0, 1; -1, 0] : Matrix (Fin 2) (Fin 2) ℝ) ≠ 0 := by
  refine ⟨?_, ?_, rfl, ⟨by decide, by decide⟩, rfl, rfl, ?_, ?_, ?_⟩
  · intro cabs y mv u s hmono row k hrow hin hc
    exact q_block_zero_of_clean
      (assemble_off_diagonal_clean cabs y mv u s hmono row k hrow hin hc).1
  · intro cabs y mv u s row k hrow hin hk
    exact q_block_zero_of_clean (assemble_diagonal_clean cabs y mv u s row k hrow hin hk)
  · exact q_block_zero_of_clean
      (assemble_off_diagonal_clean real_cabs _ _ _ _
        (example_y_bus_branch_symmetric ℝ).indptr_mono 0 1 (by decide)
        ⟨by decide, by decide⟩ (by decide)).1
  · ext i j
    fin_cases i <;> fin_cases j <;>
      simp [NRSEJacobian.toMatrix, power_flow_jacobian, g_sin_minus_b_cos, g_cos_plus_b_sin,
        ui_uj_cos_ij, ui_uj_sin_ij, diagonal_inverse, example_y_bus_branch,
        example_solver_two]
  · intro h
    have h01 := congrFun (congrFun h 0) 1
    simp at h01

/-- C23: for a shunt element with `has_shunt(obj)`, the measurement handed to
`multiply_add_jacobian_blocks` is `branch_from_power(obj)`, not the shunt
measurement.  At the one-bus example with branch 0 and shunt 0, two
measurement sets with the same shunt measurement `1 + 0i` that differ only in
the from-side flow measurement of branch 0 (`1 + 0i` and `3 + 2i`) give the
shunt element different contributions to the right-hand side: `(0, 0, 0, 0)`
and `(-2, 2, 0, 0)` on a zero block. -/
theorem C23_shunt_uses_branch_measurement :
    (∀ (y : YBus ℝ) (mv : MeasuredValues ℝ) (u : Nat → ComplexValue ℝ)
        (x_ : Nat → NRSEUnknown ℝ) (row col e : Nat),
      (y.y_bus_element e).element_type = YBusElementType.shunt →
      mv.has_shunt (y.y_bus_element e).idx = true →
      ∃ c, element_contribution y mv u x_ row col e = some c
        ∧ c.power_sensor = mv.branch_from_power (y.y_bus_element e).idx)
    ∧ (example_y_bus_shunt.y_bus_element 1).element_type = YBusElementType.shunt
    ∧ (example_measured_shunt ⟨1, 0⟩ ⟨1, 0⟩).shunt_power
        = (example_measured_shunt ⟨1, 0⟩ ⟨3, 2⟩).shunt_power
    ∧ (example_measured_shunt ⟨1, 0⟩ ⟨1, 0⟩).has_shunt
        = (example_measured_shunt ⟨1, 0⟩ ⟨3, 2⟩).has_shunt
    ∧ ((element_step example_y_bus_shunt (example_measured_shunt ⟨1, 0⟩ ⟨1, 0⟩)
          (fun _ => ⟨1, 0⟩) 0 0 0
          { example_solver ⟨0, 0, 0, 0⟩ 0 with x_ := fun _ => ⟨0, 1, 0, 0⟩ } 1).del_x_rhs_ 0)
        = ⟨0, 0, 0, 0⟩
    ∧ ((element_step example_y_bus_shunt (example_measured_shunt ⟨1, 0⟩ ⟨3, 2⟩)
          (fun _ => ⟨1, 0⟩) 0 0 0
          { example_solver ⟨0, 0, 0, 0⟩ 0 with x_ := fun _ => ⟨0, 1, 0, 0⟩ } 1).del_x_rhs_ 0)
        = ⟨-2, 2, 0, 0⟩ := by
  refine ⟨?_, rfl, rfl, rfl, ?_, ?_⟩
  · intro y mv u x_ row col e ht hm
    simp only [element_contribution, ht, hm, if_true]
    exact ⟨_, rfl, rfl⟩
  · have h : (element_step example_y_bus_shunt (example_measured_shunt ⟨1, 0⟩ ⟨1, 0⟩)
          (fun _ => ⟨1, 0⟩) 0 0 0
          { example_solver ⟨0, 0, 0, 0⟩ 0 with x_ := fun _ => ⟨0, 1, 0, 0⟩ } 1).del_x_rhs_ 0
        = (multiply_add_jacobian_blocks NRSEGainBlock.zero ⟨0, 0, 0, 0⟩
            (power_flow_jacobian (g_sin_minus_b_cos ⟨1, 0⟩ ⟨1, 0⟩ ⟨1, 0⟩)
              (g_cos_plus_b_sin ⟨1, 0⟩ ⟨1, 0⟩ ⟨1, 0⟩) (diagonal_inverse 1))
            (power_flow_jacobian (g_sin_minus_b_cos ⟨1, 0⟩ ⟨1, 0⟩ ⟨1, 0⟩)
              (g_cos_plus_b_sin ⟨1, 0⟩ ⟨1, 0⟩ ⟨1, 0⟩) (diagonal_inverse 1))
            ⟨⟨1, 0⟩, 1, 1⟩ (g_cos_plus_b_sin ⟨1, 0⟩ ⟨1, 0⟩ ⟨1, 0⟩)
            (g_sin_minus_b_cos ⟨1, 0⟩ ⟨1, 0⟩ ⟨1, 0⟩)).2 := rfl
    rw [h]
    norm_num [multiply_add_jacobian_blocks, power_flow_jacobian, g_sin_minus_b_cos,
      g_cos_plus_b_sin, ui_uj_cos_ij, ui_uj_sin_ij, diagonal_inverse]
  · have h : (element_step example_y_bus_shunt (example_measured_shunt ⟨1, 0⟩ ⟨3, 2⟩)
          (fun _ => ⟨1, 0⟩) 0 0 0
          { example_solver ⟨0, 0, 0, 0⟩ 0 with x_ := fun _ => ⟨0, 1, 0, 0⟩ } 1).del_x_rhs_ 0
        = (multiply_add_jacobian_blocks NRSEGainBlock.zero ⟨0, 0, 0, 0⟩
            (power_flow_jacobian (g_sin_minus_b_cos ⟨1, 0⟩ ⟨1, 0⟩ ⟨1, 0⟩)
              (g_cos_plus_b_sin ⟨1, 0⟩ ⟨1, 0⟩ ⟨1, 0⟩) (diagonal_inverse 1))
            (power_flow_jacobian (g_sin_minus_b_cos ⟨1, 0⟩ ⟨1, 0⟩ ⟨1, 0⟩)
              (g_cos_plus_b_sin ⟨1, 0⟩ ⟨1, 0⟩ ⟨1, 0⟩) (diagonal_inverse 1))
            ⟨⟨3, 2⟩, 1, 1⟩ (g_cos_plus_b_sin ⟨1, 0⟩ ⟨1, 0⟩ ⟨1, 0⟩)
            (g_sin_minus_b_cos ⟨1, 0⟩ ⟨1, 0⟩ ⟨1, 0⟩)).2 := rfl
    rw [h]
    norm_num [multiply_add_jacobian_blocks, power_flow_jacobian, g_sin_minus_b_cos,
      g_cos_plus_b_sin, ui_uj_cos_ij, ui_uj_sin_ij, diagonal_inverse]

end InjectionClaims

/-! ## Lemmas on the diagonal block of a row -/

section DiagonalBlock

variable {R P : Type} [LinearOrderedField R]

/-- Loop invariant over the index list of a half-open loop. -/
theorem foldl_range_invariant {β : Type} (I : Nat → β → Prop) (f : β → Nat → β) (n : Nat) :
    ∀ (a : Nat) (b : β), I a b →
      (∀ i t, a ≤ i → i < a + n → I i t → I (i + 1) (f t i)) →
      I (a + n) ((List.range' a n).foldl f b) := by
  induction n with
  | zero => intro a b h0 _; exact h0
  | succ n ih =>
    intro a b h0 hstep
    rw [List.range'_succ, List.foldl_cons]
    have h1 := ih (a + 1) (f b a) (hstep a b (le_refl _) (by omega) h0)
      (fun i t hi hlt hI => hstep i t (by omega) (by omega) hI)
    have e : a + 1 + n = a + (n + 1) := by omega
    rw [e] at h1
    exact h1

/-- The inner-loop body writes to no gain block but the one of its entry and
the block `lu_diag[row]`. -/
theorem entry_step_gain_other (cabs : ComplexValue R → R) (y : YBus R) (mv : MeasuredValues R)
    (u mu : Nat → ComplexValue R) (row k k1 : Nat) (s : NewtonRaphsonSESolver R P)
    (h1 : k1 ≠ k) (h2 : k1 ≠ y.lu_diag row) :
    (entry_step cabs y mv u mu row s k).data_gain_ k1 = s.data_gain_ k1 := by
  have h0 : (if row ≠ y.col_indices_lu k then clear_gain_block s k else s).data_gain_ k1
      = s.data_gain_ k1 := by
    split_ifs
    · rw [clear_gain_block_gain, if_neg h1]
    · rfl
  rw [entry_step_eq]
  by_cases hf : y.map_lu_y_bus k = -1
  · rw [if_pos hf]; exact h0
  · rw [if_neg hf, injection_step_gain_ne _ _ _ _ _ _ _ _ _ h1, clear_gain_block_gain,
      if_neg h2, element_loop_gain_ne _ _ _ _ _ _ _ _ _ h1]
    by_cases hv : row = y.col_indices_lu k ∧ mv.has_voltage row = true
    · rw [if_pos hv, voltage_step_gain_ne _ _ _ _ _ _ _ _ h1]; exact h0
    · rw [if_neg hv]; exact h0

/-- The inner-loop body of a fill-in entry other than `lu_diag[row]` leaves
the block `lu_diag[row]` as it is. -/
theorem entry_step_diag_fill_in (cabs : ComplexValue R → R) (y : YBus R)
    (mv : MeasuredValues R) (u mu : Nat → ComplexValue R) (row k : Nat)
    (s : NewtonRaphsonSESolver R P) (hf : y.map_lu_y_bus k = -1) (hk : y.lu_diag row ≠ k) :
    (entry_step cabs y mv u mu row s k).data_gain_ (y.lu_diag row)
      = s.data_gain_ (y.lu_diag row) := by
  rw [entry_step_eq, if_pos hf]
  split_ifs
  · rw [clear_gain_block_gain, if_neg hk]
  · rfl

/-- The inner-loop body of an off-diagonal entry that is not a fill-in leaves
the block `lu_diag[row]` zero. -/
theorem entry_step_diag_off (cabs : ComplexValue R → R) (y : YBus R)
    (mv : MeasuredValues R) (u mu : Nat → ComplexValue R) (row k : Nat)
    (s : NewtonRaphsonSESolver R P) (hf : y.map_lu_y_bus k ≠ -1)
    (hc : row ≠ y.col_indices_lu k) :
    (entry_step cabs y mv u mu row s k).data_gain_ (y.lu_diag row) = NRSEGainBlock.zero := by
  rw [entry_step_eq, if_neg hf]
  unfold injection_step
  by_cases hi : mv.has_bus_injection row = true
  · rw [if_pos hi, if_neg hc]
    simp only [clear_gain_block_gain, if_pos]
  · rw [if_neg hi, if_neg hc, clear_gain_block_gain, if_pos rfl]

/-- The inner-loop body of the diagonal entry `lu_diag[row]`, which is not a
fill-in, leaves its block zero when the bus has an injection measurement and
zero except for `r_P_theta = r_Q_v = -1` when it has none. -/
theorem entry_step_diag_self (cabs : ComplexValue R → R) (y : YBus R)
    (mv : MeasuredValues R) (u mu : Nat → ComplexValue R) (row : Nat)
    (s : NewtonRaphsonSESolver R P) (hf : y.map_lu_y_bus (y.lu_diag row) ≠ -1)
    (hc : y.col_indices_lu (y.lu_diag row) = row) :
    (entry_step cabs y mv u mu row s (y.lu_diag row)).data_gain_ (y.lu_diag row)
      = if mv.has_bus_injection row = true then NRSEGainBlock.zero
        else { (NRSEGainBlock.zero : NRSEGainBlock R) with r_P_theta := -1, r_Q_v := -1 } := by
  rw [entry_step_eq, if_neg hf]
  unfold injection_step
  by_cases hi : mv.has_bus_injection row = true
  · rw [if_pos hi, if_pos hi, if_pos hc.symm]
    simp only [clear_gain_block_gain, if_pos]
  · rw [if_neg hi, if_neg hi, if_pos hc.symm]
    simp only [Function.update_same, clear_gain_block_gain, if_pos]

end DiagonalBlock
section DiagonalBlockRow

variable {R P : Type} [LinearOrderedField R]

/-- The block `lu_diag[row]` after the outer-loop body of its row: zero
except for `r_P_theta = r_Q_v = -1` when the bus has no injection measurement
and every entry of the row behind the diagonal entry is a fill-in, and zero
otherwise. -/
theorem row_step_diag_value (cabs : ComplexValue R → R) (y : YBus R) (mv : MeasuredValues R)
    (u mu : Nat → ComplexValue R) (row : Nat) (s : NewtonRaphsonSESolver R P)
    (hin : y.InRow row (y.lu_diag row)) (hc : y.col_indices_lu (y.lu_diag row) = row)
    (hf : y.map_lu_y_bus (y.lu_diag row) ≠ -1)
    (huniq : ∀ k, y.InRow row k → y.col_indices_lu k = row → y.lu_diag row = k) :
    ((mv.has_bus_injection row = false
        ∧ ∀ k, y.InRow row k → y.lu_diag row < k → y.map_lu_y_bus k = -1) →
      (row_step cabs y mv u mu s row).data_gain_ (y.lu_diag row)
        = { (NRSEGainBlock.zero : NRSEGainBlock R) with r_P_theta := -1, r_Q_v := -1 })
    ∧ (¬(mv.has_bus_injection row = false
        ∧ ∀ k, y.InRow row k → y.lu_diag row < k → y.map_lu_y_bus k = -1) →
      (row_step cabs y mv u mu s row).data_gain_ (y.lu_diag row) = NRSEGainBlock.zero) := by
  obtain ⟨ha, hb⟩ := hin
  have key := foldl_range_invariant
    (fun i (t : NewtonRaphsonSESolver R P) => y.lu_diag row < i →
      ((mv.has_bus_injection row = false
          ∧ ∀ k, y.lu_diag row < k → k < i → y.map_lu_y_bus k = -1) →
        t.data_gain_ (y.lu_diag row)
          = { (NRSEGainBlock.zero : NRSEGainBlock R) with r_P_theta := -1, r_Q_v := -1 })
      ∧ (¬(mv.has_bus_injection row = false
          ∧ ∀ k, y.lu_diag row < k → k < i → y.map_lu_y_bus k = -1) →
        t.data_gain_ (y.lu_diag row) = NRSEGainBlock.zero))
    (entry_step cabs y mv u mu row)
    (y.row_indptr_lu (row + 1) - y.row_indptr_lu row) (y.row_indptr_lu row)
    { s with del_x_rhs_ := Function.update s.del_x_rhs_ row NRSEUnknown.zero }
    (fun h => absurd h (by omega))
    (by
      intro i t hai hib hI hlt
      by_cases hid : i = y.lu_diag row
      · subst hid
        rw [entry_step_diag_self cabs y mv u mu row t hf hc]
        constructor
        · intro hcond
          rw [if_neg (by rw [hcond.1]; exact Bool.false_ne_true)]
        · intro hcond
          by_cases hi : mv.has_bus_injection row = true
          · rw [if_pos hi]
          · exfalso
            apply hcond
            refine ⟨Bool.not_eq_true _ ▸ hi, ?_⟩
            intro k h1 h2
            omega
      · have hdi : y.lu_diag row < i := by omega
        obtain ⟨hI1, hI2⟩ := hI hdi
        have hci : row ≠ y.col_indices_lu i := by
          intro e
          exact hid (huniq i ⟨hai, by omega⟩ e.symm).symm
        by_cases hfi : y.map_lu_y_bus i = -1
        · rw [entry_step_diag_fill_in cabs y mv u mu row i t hfi (Ne.symm hid)]
          constructor
          · intro hcond
            exact hI1 ⟨hcond.1, fun k h1 h2 => hcond.2 k h1 (by omega)⟩
          · intro hcond
            apply hI2
            intro hcond1
            apply hcond
            refine ⟨hcond1.1, fun k h1 h2 => ?_⟩
            by_cases hk : k = i
            · rw [hk]; exact hfi
            · exact hcond1.2 k h1 (by omega)
        · rw [entry_step_diag_off cabs y mv u mu row i t hfi hci]
          constructor
          · intro hcond
            exact absurd (hcond.2 i hdi (by omega)) hfi
          · intro _
            rfl)
  have hab : y.row_indptr_lu row + (y.row_indptr_lu (row + 1) - y.row_indptr_lu row)
      = y.row_indptr_lu (row + 1) := by omega
  rw [hab] at key
  obtain ⟨k1, k2⟩ := key hb
  unfold row_step
  constructor
  · intro hcond
    exact k1 ⟨hcond.1, fun k h1 h2 => hcond.2 k ⟨by omega, h2⟩ h1⟩
  · intro hcond
    apply k2
    intro hcond1
    apply hcond
    exact ⟨hcond1.1, fun k hk1 hk2 => hcond1.2 k hk2 hk1.2⟩

/-- The outer-loop body of a row writes to no gain block but those of the
entries of the row and the block `lu_diag[row]`. -/
theorem row_step_gain_other (cabs : ComplexValue R → R) (y : YBus R) (mv : MeasuredValues R)
    (u mu : Nat → ComplexValue R) (row k1 : Nat) (s : NewtonRaphsonSESolver R P)
    (h1 : ¬ y.InRow row k1) (h2 : k1 ≠ y.lu_diag row) :
    (row_step cabs y mv u mu s row).data_gain_ k1 = s.data_gain_ k1 := by
  unfold row_step
  apply foldl_preserves
    (fun t : NewtonRaphsonSESolver R P => t.data_gain_ k1 = s.data_gain_ k1)
  · intro b k hk hb
    rw [entry_step_gain_other cabs y mv u mu row k k1 b _ h2, hb]
    intro e
    rw [e] at h1
    exact h1 ((mem_range_sub _ _ _).mp hk)
  · rfl

end DiagonalBlockRow
section DiagonalBlockAssembly

variable {R P : Type} [LinearOrderedField R]

/-- A block that differs from `b` in `qt` slots only, whose `qt` slots hold
its own transposed `Q` sub-block, is `b` when the `q` and `qt` slots of `b`
are zero. -/
theorem block_eq_of_sameButQT {b b1 : NRSEGainBlock R} (h : b.SameButQT b1)
    (hq : b1.QTOf b1)
    (hb : b.q_P_theta = 0 ∧ b.q_P_v = 0 ∧ b.q_Q_theta = 0 ∧ b.q_Q_v = 0
      ∧ b.qt_P_theta = 0 ∧ b.qt_P_v = 0 ∧ b.qt_Q_theta = 0 ∧ b.qt_Q_v = 0) : b1 = b := by
  obtain ⟨a1, a2, a3, a4, a5, a6, a7, a8, a9, a10, a11, a12⟩ := h
  obtain ⟨q1, q2, q3, q4⟩ := hq
  obtain ⟨z1, z2, z3, z4, z5, z6, z7, z8⟩ := hb
  cases b
  cases b1
  simp only at a1 a2 a3 a4 a5 a6 a7 a8 a9 a10 a11 a12 q1 q2 q3 q4 z1 z2 z3 z4 z5 z6 z7 z8
  subst a1 a2 a3 a4 a5 a6 a7 a8 a9 a10 a11 a12
  subst z1 z2 z3 z4 z5 z6 z7 z8
  subst q1 q2 q3 q4
  rfl

/-- The diagonal block of a row after the assembly (before factorisation):
zero except for `r_P_theta = r_Q_v = -1` when the bus has no injection
measurement and every entry of the row behind the diagonal entry is a
fill-in, and zero otherwise. -/
theorem assemble_diag_value (cabs : ComplexValue R → R) (y : YBus R) (mv : MeasuredValues R)
    (u : Nat → ComplexValue R) (s : NewtonRaphsonSESolver R P)
    (hwf : y.SymmetricPattern s.n_bus_) (hdiag : y.DiagonalInRow s.n_bus_)
    (row : Nat) (hrow : row < s.n_bus_) :
    ((mv.has_bus_injection row = false
        ∧ ∀ k, y.InRow row k → y.lu_diag row < k → y.map_lu_y_bus k = -1) →
      (assemble_gain_and_rhs cabs y mv u s).data_gain_ (y.lu_diag row)
        = { (NRSEGainBlock.zero : NRSEGainBlock R) with r_P_theta := -1, r_Q_v := -1 })
    ∧ (¬(mv.has_bus_injection row = false
        ∧ ∀ k, y.InRow row k → y.lu_diag row < k → y.map_lu_y_bus k = -1) →
      (assemble_gain_and_rhs cabs y mv u s).data_gain_ (y.lu_diag row)
        = NRSEGainBlock.zero) := by
  obtain ⟨hin, hc⟩ := hdiag row hrow
  have hf := (hwf.diag row _ hrow hin hc).2
  have huniq : ∀ k, y.InRow row k → y.col_indices_lu k = row → y.lu_diag row = k :=
    fun k hk hck => (hwf.diag row k hrow hk hck).1
  -- the row loop
  have hrows : ((mv.has_bus_injection row = false
        ∧ ∀ k, y.InRow row k → y.lu_diag row < k → y.map_lu_y_bus k = -1) →
      (assemble_rows cabs y mv u s).data_gain_ (y.lu_diag row)
        = { (NRSEGainBlock.zero : NRSEGainBlock R) with r_P_theta := -1, r_Q_v := -1 })
    ∧ (¬(mv.has_bus_injection row = false
        ∧ ∀ k, y.InRow row k → y.lu_diag row < k → y.map_lu_y_bus k = -1) →
      (assemble_rows cabs y mv u s).data_gain_ (y.lu_diag row) = NRSEGainBlock.zero) := by
    rw [assemble_rows_eq]
    apply foldl_establish (fun _ : NewtonRaphsonSESolver R P => True)
      (fun t : NewtonRaphsonSESolver R P =>
        ((mv.has_bus_injection row = false
            ∧ ∀ k, y.InRow row k → y.lu_diag row < k → y.map_lu_y_bus k = -1) →
          t.data_gain_ (y.lu_diag row)
            = { (NRSEGainBlock.zero : NRSEGainBlock R) with r_P_theta := -1, r_Q_v := -1 })
        ∧ (¬(mv.has_bus_injection row = false
            ∧ ∀ k, y.InRow row k → y.lu_diag row < k → y.map_lu_y_bus k = -1) →
          t.data_gain_ (y.lu_diag row) = NRSEGainBlock.zero))
      _ _ row (List.mem_range.mpr hrow)
    · intro _ _ _ _; trivial
    · intro b _
      exact row_step_diag_value cabs y mv u _ row b hin hc hf huniq
    · intro b r2 hr2 hb
      by_cases hr : r2 = row
      · subst hr
        exact row_step_diag_value cabs y mv u _ r2 b hin hc hf huniq
      · have hr2n := List.mem_range.mp hr2
        have h1 : ¬ y.InRow r2 (y.lu_diag row) := fun h =>
          hr (inRow_unique y s.n_bus_ hwf.indptr_mono r2 row _ hr2n hrow h hin)
        have h2 : y.lu_diag row ≠ y.lu_diag r2 := by
          intro e
          apply h1
          rw [e]
          exact (hdiag r2 hr2n).1
        rw [row_step_gain_other cabs y mv u _ r2 _ b h1 h2]
        exact hb
    · trivial
  -- the transpose loop
  have hlt : y.lu_diag row < y.nnz_lu := by
    have h1 := indptr_le_of_lt y.row_indptr_lu s.n_bus_ hwf.indptr_mono row s.n_bus_ hrow
      (le_refl _)
    have h2 := hin.2
    have h3 := hwf.indptr_last
    omega
  have ht : y.lu_transpose_entry (y.lu_diag row) = y.lu_diag row := by
    obtain ⟨t1, t2, _⟩ := hwf.transpose_entry row _ hrow hin hf
    rw [hc] at t1
    exact (huniq _ t1 t2).symm
  have hsame := transpose_loop_same y (assemble_rows cabs y mv u s) (List.range y.nnz_lu)
    (y.lu_diag row)
  have hqt := transpose_loop_qt y (assemble_rows cabs y mv u s) (List.range y.nnz_lu)
    (y.lu_diag row) (List.mem_range.mpr hlt) hf
  rw [ht] at hqt
  unfold assemble_gain_and_rhs
  constructor
  · intro hcond
    have hv := hrows.1 hcond
    rw [← hv]
    apply block_eq_of_sameButQT hsame hqt
    rw [hv]
    exact ⟨rfl, rfl, rfl, rfl, rfl, rfl, rfl, rfl⟩
  · intro hcond
    have hv := hrows.2 hcond
    rw [← hv]
    apply block_eq_of_sameButQT hsame hqt
    rw [hv]
    exact ⟨rfl, rfl, rfl, rfl, rfl, rfl, rfl, rfl⟩

end DiagonalBlockAssembly
/-! ## Claims on the diagonal block after the assembly -/

section DiagonalBlockClaims

variable {R P : Type} [LinearOrderedField R]

/-- Every row of the two-bus example with a branch has its diagonal entry. -/
theorem example_y_bus_branch_diagonal_in_row (R : Type) [LinearOrderedField R] :
    (example_y_bus_branch R).DiagonalInRow 2 := by
  intro row hrow
  simp only [example_y_bus_branch, YBus.InRow]
  omega

/-- C25: for a Y-bus whose LU pattern is well formed (row pointers that do not
decrease, in every row a diagonal entry that `lu_diag` names and that is not a
fill-in, transpose entries in place) and every row `r`, the diagonal gain
block of row `r` after the assembly (before factorisation) is all zero,
except that `r_P_theta = r_Q_v = -1` exactly when bus `r` has no injection
measurement and every entry of the row behind the diagonal entry is a fill-in
(the diagonal entry is the last entry of the row that is not a fill-in); its
`G` sub-block is zero in every case, for all measurements and voltages. -/
theorem C25_diagonal_block_reset (cabs : ComplexValue R → R) (y : YBus R)
    (mv : MeasuredValues R) (u : Nat → ComplexValue R) (s : NewtonRaphsonSESolver R P)
    (hwf : y.SymmetricPattern s.n_bus_) (hdiag : y.DiagonalInRow s.n_bus_)
    (row : Nat) (hrow : row < s.n_bus_) :
    ((mv.has_bus_injection row = false
        ∧ ∀ k, y.InRow row k → y.lu_diag row < k → y.map_lu_y_bus k = -1) →
      (assemble_gain_and_rhs cabs y mv u s).data_gain_ (y.lu_diag row)
        = ⟨0, 0, 0, 0, 0, 0, 0, 0, 0, 0, 0, 0, -1, 0, 0, -1⟩)
    ∧ (¬(mv.has_bus_injection row = false
        ∧ ∀ k, y.InRow row k → y.lu_diag row < k → y.map_lu_y_bus k = -1) →
      (assemble_gain_and_rhs cabs y mv u s).data_gain_ (y.lu_diag row)
        = ⟨0, 0, 0, 0, 0, 0, 0, 0, 0, 0, 0, 0, 0, 0, 0, 0⟩)
    ∧ (((assemble_gain_and_rhs cabs y mv u s).data_gain_ (y.lu_diag row)).r_P_theta = -1
        ∧ ((assemble_gain_and_rhs cabs y mv u s).data_gain_ (y.lu_diag row)).r_Q_v = -1
      ↔ (mv.has_bus_injection row = false
        ∧ ∀ k, y.InRow row k → y.lu_diag row < k → y.map_lu_y_bus k = -1))
    ∧ ((assemble_gain_and_rhs cabs y mv u s).data_gain_ (y.lu_diag row)).g_block = 0 := by
  obtain ⟨h1, h2⟩ := assemble_diag_value cabs y mv u s hwf hdiag row hrow
  refine ⟨h1, h2, ?_, ?_⟩
  · constructor
    · intro hr
      by_contra hcond
      rw [h2 hcond] at hr
      have h0 : (0 : R) = -1 := hr.1
      have : (0 : R) < 1 := zero_lt_one
      linarith
    · intro hcond
      rw [h1 hcond]
      exact ⟨rfl, rfl⟩
  · by_cases hcond : mv.has_bus_injection row = false
        ∧ ∀ k, y.InRow row k → y.lu_diag row < k → y.map_lu_y_bus k = -1
    · rw [h1 hcond]
      ext i j
      fin_cases i <;> fin_cases j <;> rfl
    · rw [h2 hcond]
      ext i j
      fin_cases i <;> fin_cases j <;> rfl

/-- C25, at row 0 of the two-bus example with a branch, without
measurements. -/
theorem C25_diagonal_block_reset_witness :
    (((example_measured_flow ℝ false ⟨0, 0⟩).has_bus_injection 0 = false
        ∧ ∀ k, (example_y_bus_branch ℝ).InRow 0 k → (example_y_bus_branch ℝ).lu_diag 0 < k →
          (example_y_bus_branch ℝ).map_lu_y_bus k = -1) →
      (assemble_gain_and_rhs real_cabs (example_y_bus_branch ℝ)
          (example_measured_flow ℝ false ⟨0, 0⟩) (fun _ => ⟨1, 0⟩)
          (example_solver_two ℝ 7)).data_gain_ ((example_y_bus_branch ℝ).lu_diag 0)
        = ⟨0, 0, 0, 0, 0, 0, 0, 0, 0, 0, 0, 0, -1, 0, 0, -1⟩)
    ∧ (¬((example_measured_flow ℝ false ⟨0, 0⟩).has_bus_injection 0 = false
        ∧ ∀ k, (example_y_bus_branch ℝ).InRow 0 k → (example_y_bus_branch ℝ).lu_diag 0 < k →
          (example_y_bus_branch ℝ).map_lu_y_bus k = -1) →
      (assemble_gain_and_rhs real_cabs (example_y_bus_branch ℝ)
          (example_measured_flow ℝ false ⟨0, 0⟩) (fun _ => ⟨1, 0⟩)
          (example_solver_two ℝ 7)).data_gain_ ((example_y_bus_branch ℝ).lu_diag 0)
        = ⟨0, 0, 0, 0, 0, 0, 0, 0, 0, 0, 0, 0, 0, 0, 0, 0⟩)
    ∧ (((assemble_gain_and_rhs real_cabs (example_y_bus_branch ℝ)
          (example_measured_flow ℝ false ⟨0, 0⟩) (fun _ => ⟨1, 0⟩)
          (example_solver_two ℝ 7)).data_gain_ ((example_y_bus_branch ℝ).lu_diag 0)).r_P_theta
          = -1
        ∧ ((assemble_gain_and_rhs real_cabs (example_y_bus_branch ℝ)
          (example_measured_flow ℝ false ⟨0, 0⟩) (fun _ => ⟨1, 0⟩)
          (example_solver_two ℝ 7)).data_gain_ ((example_y_bus_branch ℝ).lu_diag 0)).r_Q_v
          = -1
      ↔ ((example_measured_flow ℝ false ⟨0, 0⟩).has_bus_injection 0 = false
        ∧ ∀ k, (example_y_bus_branch ℝ).InRow 0 k → (example_y_bus_branch ℝ).lu_diag 0 < k →
          (example_y_bus_branch ℝ).map_lu_y_bus k = -1))
    ∧ ((assemble_gain_and_rhs real_cabs (example_y_bus_branch ℝ)
          (example_measured_flow ℝ false ⟨0, 0⟩) (fun _ => ⟨1, 0⟩)
          (example_solver_two ℝ 7)).data_gain_ ((example_y_bus_branch ℝ).lu_diag 0)).g_block
        = 0 :=
  C25_diagonal_block_reset real_cabs (example_y_bus_branch ℝ)
    (example_measured_flow ℝ false ⟨0, 0⟩) (fun _ => ⟨1, 0⟩) (example_solver_two ℝ 7)
    (example_y_bus_branch_symmetric ℝ) (example_y_bus_branch_diagonal_in_row ℝ) 0 (by decide)

end DiagonalBlockClaims

/-! ## Claims on the singular gain matrix -/

section GainMatrixClaims

variable {R P : Type} [LinearOrderedField R]

/-- After the assembly an off-diagonal fill-in entry holds the zero block. -/
theorem assemble_fill_in_off_zero (cabs : ComplexValue R → R) (y : YBus R)
    (mv : MeasuredValues R) (u : Nat → ComplexValue R) (s : NewtonRaphsonSESolver R P)
    (k row : Nat) (hf : y.map_lu_y_bus k = -1) (hrow : row < s.n_bus_)
    (hin : y.InRow row k) (hc : y.col_indices_lu k ≠ row) :
    (assemble_gain_and_rhs cabs y mv u s).data_gain_ k = NRSEGainBlock.zero := by
  unfold assemble_gain_and_rhs
  rw [transpose_fill_in_untouched y _ k hf, assemble_rows_eq]
  apply foldl_establish (fun _ : NewtonRaphsonSESolver R P => True)
    (fun t : NewtonRaphsonSESolver R P => t.data_gain_ k = NRSEGainBlock.zero)
    _ _ row (List.mem_range.mpr hrow)
  · intro _ _ _ _; trivial
  · intro b _
    exact row_step_zero_est cabs y mv u _ row k b hf (Or.inl ⟨hin, hc⟩)
  · intro b r _ hb
    exact row_step_zero_pres cabs y mv u _ r k b hf hb
  · trivial

/-- A scalar row of the gain matrix is zero when the corresponding row of
every block of its block row is zero. -/
theorem gain_matrix_row_zero (y : YBus R) (n : Nat) (data : Nat → NRSEGainBlock R)
    (r : Fin n) (i : Fin 4)
    (h : ∀ k, y.InRow r.val k → ∀ j, (data k).get_val i j = 0) :
    ∀ q, gain_matrix y n data (r, i) q = 0 := by
  intro q
  unfold gain_matrix
  simp only [Matrix.of_apply]
  cases hfe : y.find_entry r.val q.1.val with
  | none => rfl
  | some k =>
    simp only
    apply h k
    unfold YBus.find_entry at hfe
    exact (mem_range_sub _ _ _).mp (List.mem_of_find?_eq_some hfe)

/-- The `phi_p` row of every block of the block row of a bus that has an
entry behind its diagonal entry that is not a fill-in is zero after the
assembly. -/
theorem phi_p_row_zero (cabs : ComplexValue R → R) (y : YBus R)
    (mv : MeasuredValues R) (u : Nat → ComplexValue R) (s : NewtonRaphsonSESolver R P)
    (hwf : y.SymmetricPattern s.n_bus_) (hdiag : y.DiagonalInRow s.n_bus_)
    (hcols : y.ColumnsIncreasing s.n_bus_) (b k1 : Nat) (hb : b < s.n_bus_)
    (hin1 : y.InRow b k1) (hf1 : y.map_lu_y_bus k1 ≠ -1) (hgt : b < y.col_indices_lu k1) :
    ∀ k, y.InRow b k → ∀ j, ((assemble_gain_and_rhs cabs y mv u s).data_gain_ k).get_val 2 j
      = 0 := by
  obtain ⟨hdin, hdc⟩ := hdiag b hb
  have hlt : y.lu_diag b < k1 := by
    rcases Nat.lt_trichotomy k1 (y.lu_diag b) with h | h | h
    · have := hcols b k1 _ hb hin1 hdin h
      omega
    · rw [h] at hgt; omega
    · exact h
  have hz := (assemble_diag_value cabs y mv u s hwf hdiag b hb).2
    (fun hcond => hf1 (hcond.2 k1 hin1 hlt))
  intro k hk j
  by_cases hck : y.col_indices_lu k = b
  · have hkd := (hwf.diag b k hb hk hck).1
    rw [← hkd, hz]
    fin_cases j <;> rfl
  · obtain ⟨⟨c1, c2, _, _, c5, _⟩, ⟨d1, _⟩⟩ :=
      assemble_off_diagonal_clean cabs y mv u s hwf.indptr_mono b k hb hk (Ne.symm hck)
    fin_cases j
    · exact c1
    · exact c2
    · exact d1
    · exact c5

/-- The `theta` row of every block of the block row of a bus whose
off-diagonal entries are all fill-ins is zero after the assembly. -/
theorem theta_row_zero (cabs : ComplexValue R → R) (y : YBus R)
    (mv : MeasuredValues R) (u : Nat → ComplexValue R) (s : NewtonRaphsonSESolver R P)
    (hwf : y.SymmetricPattern s.n_bus_) (hdiag : y.DiagonalInRow s.n_bus_)
    (b : Nat) (hb : b < s.n_bus_)
    (hall : ∀ k, y.InRow b k → y.col_indices_lu k ≠ b → y.map_lu_y_bus k = -1) :
    ∀ k, y.InRow b k → ∀ j, ((assemble_gain_and_rhs cabs y mv u s).data_gain_ k).get_val 0 j
      = 0 := by
  obtain ⟨h1, h2⟩ := assemble_diag_value cabs y mv u s hwf hdiag b hb
  intro k hk j
  by_cases hck : y.col_indices_lu k = b
  · have hkd := (hwf.diag b k hb hk hck).1
    rw [← hkd]
    by_cases hcond : mv.has_bus_injection b = false
        ∧ ∀ k, y.InRow b k → y.lu_diag b < k → y.map_lu_y_bus k = -1
    · rw [h1 hcond]
      fin_cases j <;> rfl
    · rw [h2 hcond]
      fin_cases j <;> rfl
  · rw [assemble_fill_in_off_zero cabs y mv u s k b (hall k hk hck) hb hk hck]
    fin_cases j <;> rfl

/-- The column indices of the two-bus example with a branch increase within
each row. -/
theorem example_y_bus_branch_columns_increasing (R : Type) [LinearOrderedField R] :
    (example_y_bus_branch R).ColumnsIncreasing 2 := by
  intro row k1 k2 hrow h1 h2 h12
  simp only [example_y_bus_branch, YBus.InRow] at h1 h2 ⊢
  omega

/-- C24: for a network with `N >= 1` buses whose LU pattern is well formed
(row pointers that do not decrease, column indices increasing within each
row, in every row a diagonal entry that is not a fill-in, structurally
symmetric pattern of the entries that are not fill-ins), every measurement
set and every voltage iterate, the `4N x 4N` gain matrix left by the assembly
(before factorisation) has an all-zero scalar row: for every off-diagonal
entry `(row, col)` that is not a fill-in, the `phi_p` row of the bus
`min row col` is zero; when there is no such entry, the `theta` row of bus 0
is zero.  Hence the matrix is singular: its determinant is zero. -/
theorem C24_gain_matrix_singular (cabs : ComplexValue R → R) (y : YBus R)
    (mv : MeasuredValues R) (u : Nat → ComplexValue R) (s : NewtonRaphsonSESolver R P)
    (hn : 1 ≤ s.n_bus_) (hwf : y.SymmetricPattern s.n_bus_)
    (hdiag : y.DiagonalInRow s.n_bus_) (hcols : y.ColumnsIncreasing s.n_bus_) :
    (∀ row k, row < s.n_bus_ → y.InRow row k → y.map_lu_y_bus k ≠ -1 →
      y.col_indices_lu k ≠ row →
      ∀ b : Fin s.n_bus_, b.val = min row (y.col_indices_lu k) →
        ∀ q, gain_matrix y s.n_bus_ (assemble_gain_and_rhs cabs y mv u s).data_gain_ (b, 2) q
          = 0)
    ∧ ((∀ row k, row < s.n_bus_ → y.InRow row k → y.col_indices_lu k ≠ row →
        y.map_lu_y_bus k = -1) →
      ∀ q, gain_matrix y s.n_bus_ (assemble_gain_and_rhs cabs y mv u s).data_gain_
        (⟨0, hn⟩, 0) q = 0)
    ∧ GainMatrixSingular y s.n_bus_ (assemble_gain_and_rhs cabs y mv u s).data_gain_ := by
  have part1 : ∀ row k, row < s.n_bus_ → y.InRow row k → y.map_lu_y_bus k ≠ -1 →
      y.col_indices_lu k ≠ row →
      ∀ b : Fin s.n_bus_, b.val = min row (y.col_indices_lu k) →
        ∀ q, gain_matrix y s.n_bus_ (assemble_gain_and_rhs cabs y mv u s).data_gain_ (b, 2) q
          = 0 := by
    intro row k hrow hin hf hc b hb
    apply gain_matrix_row_zero
    rcases Nat.lt_or_ge row (y.col_indices_lu k) with h | h
    · have e : b.val = row := by omega
      rw [e]
      exact phi_p_row_zero cabs y mv u s hwf hdiag hcols row k hrow hin hf h
    · have e : b.val = y.col_indices_lu k := by omega
      rw [e]
      obtain ⟨t1, t2, t3⟩ := hwf.transpose_entry row k hrow hin hf
      exact phi_p_row_zero cabs y mv u s hwf hdiag hcols _ _ (hwf.col_lt row k hrow hin) t1 t3
        (by rw [t2]; omega)
  have part2 : (∀ row k, row < s.n_bus_ → y.InRow row k → y.col_indices_lu k ≠ row →
        y.map_lu_y_bus k = -1) →
      ∀ q, gain_matrix y s.n_bus_ (assemble_gain_and_rhs cabs y mv u s).data_gain_
        (⟨0, hn⟩, 0) q = 0 := by
    intro hall
    apply gain_matrix_row_zero
    exact theta_row_zero cabs y mv u s hwf hdiag 0 hn (fun k hk hck => hall 0 k hn hk hck)
  refine ⟨part1, part2, ?_⟩
  unfold GainMatrixSingular
  by_cases hex : ∃ row k, row < s.n_bus_ ∧ y.InRow row k ∧ y.map_lu_y_bus k ≠ -1
      ∧ y.col_indices_lu k ≠ row
  · obtain ⟨row, k, hrow, hin, hf, hc⟩ := hex
    have hlt : min row (y.col_indices_lu k) < s.n_bus_ := by
      have := hwf.col_lt row k hrow hin
      omega
    exact Matrix.det_eq_zero_of_row_eq_zero (⟨min row (y.col_indices_lu k), hlt⟩, 2)
      (part1 row k hrow hin hf hc ⟨_, hlt⟩ rfl)
  · apply Matrix.det_eq_zero_of_row_eq_zero (⟨0, hn⟩, 0)
    apply part2
    intro row k hrow hin hc
    by_contra hf
    exact hex ⟨row, k, hrow, hin, hf, hc⟩

/-- C24, at the two-bus example with a branch whose from-side flow is
measured. -/
theorem C24_gain_matrix_singular_witness :
    (∀ row k, row < (example_solver_two ℝ 7).n_bus_ → (example_y_bus_branch ℝ).InRow row k →
      (example_y_bus_branch ℝ).map_lu_y_bus k ≠ -1 →
      (example_y_bus_branch ℝ).col_indices_lu k ≠ row →
      ∀ b : Fin (example_solver_two ℝ 7).n_bus_,
        b.val = min row ((example_y_bus_branch ℝ).col_indices_lu k) →
        ∀ q, gain_matrix (example_y_bus_branch ℝ) (example_solver_two ℝ 7).n_bus_
          (assemble_gain_and_rhs real_cabs (example_y_bus_branch ℝ)
            (example_measured_flow ℝ true ⟨0, 0⟩) (fun _ => ⟨1, 0⟩)
            (example_solver_two ℝ 7)).data_gain_ (b, 2) q = 0)
    ∧ ((∀ row k, row < (example_solver_two ℝ 7).n_bus_ →
        (example_y_bus_branch ℝ).InRow row k →
        (example_y_bus_branch ℝ).col_indices_lu k ≠ row →
        (example_y_bus_branch ℝ).map_lu_y_bus k = -1) →
      ∀ q, gain_matrix (example_y_bus_branch ℝ) (example_solver_two ℝ 7).n_bus_
        (assemble_gain_and_rhs real_cabs (example_y_bus_branch ℝ)
          (example_measured_flow ℝ true ⟨0, 0⟩) (fun _ => ⟨1, 0⟩)
          (example_solver_two ℝ 7)).data_gain_ (⟨0, by decide⟩, 0) q = 0)
    ∧ GainMatrixSingular (example_y_bus_branch ℝ) (example_solver_two ℝ 7).n_bus_
        (assemble_gain_and_rhs real_cabs (example_y_bus_branch ℝ)
          (example_measured_flow ℝ true ⟨0, 0⟩) (fun _ => ⟨1, 0⟩)
          (example_solver_two ℝ 7)).data_gain_ :=
  C24_gain_matrix_singular real_cabs (example_y_bus_branch ℝ)
    (example_measured_flow ℝ true ⟨0, 0⟩) (fun _ => ⟨1, 0⟩) (example_solver_two ℝ 7)
    (by decide) (example_y_bus_branch_symmetric ℝ) (example_y_bus_branch_diagonal_in_row ℝ)
    (example_y_bus_branch_columns_increasing ℝ)

end GainMatrixClaims

end PowerGridModel
